import Mathlib

/-!
Verification of the water-test-strip analysis pipeline.

The definitions below are shallow embeddings of the TypeScript sources:
JavaScript numbers are modelled as exact rationals where the source only
performs field operations and rounding, and as real numbers where the source
takes square roots (Euclidean color distances).  The value
Number.POSITIVE_INFINITY, which appears as the upper bound of the last
calibration range of some parameters, is modelled by a dedicated
extended-number type.  Uint8 arrays truncate stored values toward zero, which
for the non-negative edge magnitudes stored there is an integer floor.
-/

set_option maxHeartbeats 1000000
set_option maxRecDepth 4000

unseal Rat.mul Rat.inv Rat.add Rat.sub

/-- JavaScript Math.round: round half toward positive infinity. -/
def jsRound (q : ℚ) : ℤ := ⌊q + 1/2⌋

/-- JavaScript truncation toward zero, as used by the % operator. -/
def jsTrunc (q : ℚ) : ℤ := if q < 0 then -⌊-q⌋ else ⌊q⌋

/-- JavaScript % operator on rationals (sign follows the dividend). -/
def jsMod (a b : ℚ) : ℚ := a - b * (jsTrunc (a / b) : ℚ)

/-- An RGB color; the source stores each channel as a JS number. -/
@[ext]
structure RGB where
  r : ℚ
  g : ℚ
  b : ℚ
deriving DecidableEq, Repr

/-- An HSV color: hue in degrees, saturation and value in percent. -/
@[ext]
structure HSV where
  h : ℚ
  s : ℚ
  v : ℚ
deriving DecidableEq, Repr

/-- part_002 `rgbToHsv`: max/min/diff decomposition, each component rounded
to the nearest integer (hue in degrees, saturation/value in percent). -/
def rgbToHsv (c : RGB) : HSV :=
  let r := c.r / 255
  let g := c.g / 255
  let b := c.b / 255
  let mx := max (max r g) b
  let mn := min (min r g) b
  let diff := mx - mn
  let v := mx
  let hs : ℚ × ℚ :=
    if diff ≠ 0 then
      let s := diff / mx
      let h :=
        if mx = r then ((g - b) / diff + (if g < b then 6 else 0)) / 6
        else if mx = g then ((b - r) / diff + 2) / 6
        else ((r - g) / diff + 4) / 6
      (h, s)
    else (0, 0)
  { h := (jsRound (hs.1 * 360) : ℚ),
    s := (jsRound (hs.2 * 100) : ℚ),
    v := (jsRound (v * 100) : ℚ) }

/-- part_002 `hsvToRgb`: the chroma/X/match decomposition with the six
sextant branches exactly as in the source (the final else-branch catches
every hue outside [0, 5/6), including h = 1). -/
def hsvToRgb (c : HSV) : RGB :=
  let h := c.h / 360
  let s := c.s / 100
  let v := c.v / 100
  let cc := v * s
  let x := cc * (1 - |jsMod (h * 6) 2 - 1|)
  let m := v - cc
  let rgb : ℚ × ℚ × ℚ :=
    if 0 ≤ h ∧ h < 1/6 then (cc, x, 0)
    else if 1/6 ≤ h ∧ h < 2/6 then (x, cc, 0)
    else if 2/6 ≤ h ∧ h < 3/6 then (0, cc, x)
    else if 3/6 ≤ h ∧ h < 4/6 then (0, x, cc)
    else if 4/6 ≤ h ∧ h < 5/6 then (x, 0, cc)
    else (cc, 0, x)
  { r := (jsRound ((rgb.1 + m) * 255) : ℚ),
    g := (jsRound ((rgb.2.1 + m) * 255) : ℚ),
    b := (jsRound ((rgb.2.2 + m) * 255) : ℚ) }

example : rgbToHsv ⟨255, 255, 0⟩ = ⟨60, 100, 100⟩ := by decide
example : rgbToHsv ⟨0, 108, 254⟩ = ⟨214, 100, 100⟩ := by decide
example : hsvToRgb ⟨214, 100, 100⟩ = ⟨0, 111, 255⟩ := by decide
example : hsvToRgb (rgbToHsv ⟨255, 2, 0⟩) = ⟨255, 0, 0⟩ := by decide

/-! Basic facts about JS rounding and the JS % operator. -/

theorem jsRound_sub_le (q : ℚ) : |(jsRound q : ℚ) - q| ≤ 1/2 := by
  unfold jsRound
  have h1 : (⌊q + 1/2⌋ : ℚ) ≤ q + 1/2 := Int.floor_le _
  have h2 : q + 1/2 - 1 < (⌊q + 1/2⌋ : ℚ) := Int.sub_one_lt_floor _
  rw [abs_le]
  constructor <;> linarith

theorem jsRound_le_of_le {q : ℚ} {n : ℤ} (h : q ≤ (n : ℚ)) : jsRound q ≤ n := by
  unfold jsRound
  have : (⌊q + 1/2⌋ : ℤ) ≤ ⌊(n : ℚ) + 1/2⌋ := Int.floor_le_floor (by linarith)
  have h2 : ⌊(n : ℚ) + 1/2⌋ = n := by
    rw [Int.floor_int_add]
    norm_num
  omega

theorem le_jsRound_of_le {q : ℚ} {n : ℤ} (h : (n : ℚ) ≤ q) : n ≤ jsRound q := by
  unfold jsRound
  exact Int.le_floor.mpr (by push_cast; linarith)

theorem jsMod_two_eval0 {t : ℚ} (h0 : 0 ≤ t) (h2 : t < 2) : jsMod t 2 = t := by
  unfold jsMod jsTrunc
  rw [if_neg (by rw [not_lt]; positivity)]
  have hf : ⌊t / 2⌋ = 0 := Int.floor_eq_zero_iff.mpr ⟨by positivity, by linarith⟩
  rw [hf]
  push_cast
  ring

theorem jsMod_two_eval2 {t : ℚ} (h0 : 2 ≤ t) (h2 : t < 4) : jsMod t 2 = t - 2 := by
  unfold jsMod jsTrunc
  rw [if_neg (by rw [not_lt]; positivity)]
  have hf : ⌊t / 2⌋ = 1 := by
    rw [Int.floor_eq_iff]
    constructor <;> push_cast <;> linarith
  rw [hf]
  push_cast
  ring

theorem jsMod_two_eval4 {t : ℚ} (h0 : 4 ≤ t) (h2 : t < 6) : jsMod t 2 = t - 4 := by
  unfold jsMod jsTrunc
  rw [if_neg (by rw [not_lt]; positivity)]
  have hf : ⌊t / 2⌋ = 2 := by
    rw [Int.floor_eq_iff]
    constructor <;> push_cast <;> linarith
  rw [hf]
  push_cast
  ring

/-! Core quantization-error bound used for claim C4.  `A` is the rounding
error of the value channel, `B` the rounding error of the saturation channel,
`p` the true saturation `d/M`, and `u`/`u₀` the rounded and exact positions of
a channel inside the chroma interval. -/

theorem core_bound (M p u u₀ A B : ℚ)
    (hM1 : 1 ≤ M) (hM2 : M ≤ 255) (hp0 : 0 ≤ p) (hp1 : p ≤ 1)
    (hu : 0 ≤ u) (hu1 : u ≤ 1) (hu0 : 0 ≤ u₀) (hu01 : u₀ ≤ 1)
    (hC : |u - u₀| ≤ 1/120) (hA : |A| ≤ 1/2) (hB : |B| ≤ 1/2) :
    |(20/51 * M + A) * (51/20) * (1 - (100 * p + B) * u / 100) - (M - p * M * u₀)| ≤ 349/100 := by
  have hE : (20/51 * M + A) * (51/20) * (1 - (100 * p + B) * u / 100) - (M - p * M * u₀)
      = -(M * B * u) / 100 + (51/20) * A * (1 - p * u - B * u / 100) - p * M * (u - u₀) := by
    ring
  rw [hE]
  rw [abs_le] at hC hA hB ⊢
  obtain ⟨hC1, hC2⟩ := hC
  obtain ⟨hA1, hA2⟩ := hA
  obtain ⟨hB1, hB2⟩ := hB
  have hMu : (0:ℚ) ≤ M * u := mul_nonneg (by linarith) hu
  have hMu255 : M * u ≤ 255 * u := mul_le_mul_of_nonneg_right hM2 hu
  have hBMu1 : M * B * u ≤ (255/2) * u := by
    nlinarith [mul_nonneg (show (0:ℚ) ≤ 1/2 - B by linarith) hMu]
  have hBMu2 : -((255/2) * u) ≤ M * B * u := by
    nlinarith [mul_nonneg (show (0:ℚ) ≤ 1/2 + B by linarith) hMu]
  have hpM : (0:ℚ) ≤ p * M := mul_nonneg hp0 (by linarith)
  have hpM255 : p * M ≤ p * 255 := mul_le_mul_of_nonneg_left hM2 hp0
  have hpMC1 : p * M * (u - u₀) ≤ (17/8) * p := by
    nlinarith [mul_nonneg hpM (show (0:ℚ) ≤ 1/120 - (u - u₀) by linarith)]
  have hpMC2 : -((17/8) * p) ≤ p * M * (u - u₀) := by
    nlinarith [mul_nonneg hpM (show (0:ℚ) ≤ (u - u₀) + 1/120 by linarith)]
  have hpu : p * u ≤ 1 := by nlinarith [mul_le_mul hp1 hu1 hu zero_le_one]
  have hpu0 : (0:ℚ) ≤ p * u := mul_nonneg hp0 hu
  have hBu1 : B * u ≤ (1/2) * u := mul_le_mul_of_nonneg_right hB2 hu
  have hBu2 : -((1/2) * u) ≤ B * u := by
    have := mul_le_mul_of_nonneg_right hB1 hu
    linarith
  have hT2a : (51/20) * A * (1 - p*u - B*u/100) ≤ (51/40)*(1 - p*u) + 51/1000 := by
    nlinarith [mul_nonneg (show (0:ℚ) ≤ 1/2 - A by linarith)
        (show (0:ℚ) ≤ (1 - p*u - B*u/100) + 1/200 by linarith),
      mul_nonneg (show (0:ℚ) ≤ 1/2 + A by linarith)
        (show (0:ℚ) ≤ (1 - p*u + 1/200) - (1 - p*u - B*u/100) by linarith)]
  have hT2b : -((51/40)*(1 - p*u) + 51/1000) ≤ (51/20) * A * (1 - p*u - B*u/100) := by
    nlinarith [mul_nonneg (show (0:ℚ) ≤ 1/2 + A by linarith)
        (show (0:ℚ) ≤ (1 - p*u - B*u/100) + 1/200 by linarith),
      mul_nonneg (show (0:ℚ) ≤ 1/2 - A by linarith)
        (show (0:ℚ) ≤ (1 - p*u + 1/200) - (1 - p*u - B*u/100) by linarith)]
  have hfinal : (51/40)*u + (17/8)*p + ((51/40)*(1 - p*u) + 51/1000) ≤ 349/100 := by
    nlinarith [mul_nonneg (show (0:ℚ) ≤ 1 - u by linarith) (show (0:ℚ) ≤ 1 - p by linarith)]
  constructor
  · linarith
  · linarith

theorem jsRound_close (raw : ℚ) (orig : ℤ) (h : |raw - (orig : ℚ)| ≤ 349/100) :
    |jsRound raw - orig| ≤ 3 := by
  rw [abs_le] at h
  have h1 : jsRound raw < orig + 4 := by
    unfold jsRound
    apply Int.floor_lt.mpr
    push_cast
    linarith
  have h2 : orig - 3 ≤ jsRound raw := by
    unfold jsRound
    apply Int.le_floor.mpr
    push_cast
    linarith
  rw [abs_le]
  omega

/-- The quantized inverse transform lands within 3 units of the channel value
`M - d·u₀` whenever the quantized chroma position `u` is within `1/120` of the
exact position `u₀`. -/
theorem roundtrip_core (M d u u₀ : ℚ) (orig : ℤ)
    (hM1 : 1 ≤ M) (hM2 : M ≤ 255) (hd0 : 0 ≤ d) (hdM : d ≤ M)
    (hu : 0 ≤ u) (hu1 : u ≤ 1) (hu0 : 0 ≤ u₀) (hu01 : u₀ ≤ 1)
    (huu : |u - u₀| ≤ 1/120) (horig : (orig : ℚ) = M - d * u₀) :
    |jsRound ((jsRound (M / 255 * 100) : ℚ) / 100 *
        (1 - (jsRound (d / M * 100) : ℚ) / 100 * u) * 255) - orig| ≤ 3 := by
  have hM0 : (0:ℚ) < M := by linarith
  have hA : |(jsRound (M / 255 * 100) : ℚ) - 20/51 * M| ≤ 1/2 := by
    rw [show (20:ℚ)/51 * M = M / 255 * 100 from by ring]
    exact jsRound_sub_le _
  have hB : |(jsRound (d / M * 100) : ℚ) - 100 * (d / M)| ≤ 1/2 := by
    rw [show (100:ℚ) * (d / M) = d / M * 100 from by ring]
    exact jsRound_sub_le _
  have hp0 : 0 ≤ d / M := div_nonneg hd0 hM0.le
  have hp1 : d / M ≤ 1 := (div_le_one hM0).mpr hdM
  have key := core_bound M (d/M) u u₀ ((jsRound (M / 255 * 100) : ℚ) - 20/51 * M)
    ((jsRound (d / M * 100) : ℚ) - 100 * (d / M)) hM1 hM2 hp0 hp1 hu hu1 hu0 hu01 huu hA hB
  have hdm : d / M * M = d := div_mul_cancel₀ d (ne_of_gt hM0)
  apply jsRound_close
  rw [horig]
  calc |(jsRound (M / 255 * 100) : ℚ) / 100 *
          (1 - (jsRound (d / M * 100) : ℚ) / 100 * u) * 255 - (M - d * u₀)|
      = |(20/51 * M + ((jsRound (M / 255 * 100) : ℚ) - 20/51 * M)) * (51/20) *
          (1 - (100 * (d/M) + ((jsRound (d / M * 100) : ℚ) - 100 * (d/M))) * u / 100) -
          (M - d/M * M * u₀)| := by rw [hdm]; ring_nf
    _ ≤ 349/100 := key

/-- Evaluation of `hsvToRgb` on the first sextant. -/
theorem hsv_sex0 (H S V : ℚ) (h0 : 0 ≤ H) (h1 : H ≤ 60) :
    hsvToRgb ⟨H, S, V⟩ =
      ⟨(jsRound (V / 100 * (1 - S / 100 * 0) * 255) : ℚ),
       (jsRound (V / 100 * (1 - S / 100 * (1 - H / 60)) * 255) : ℚ),
       (jsRound (V / 100 * (1 - S / 100 * 1) * 255) : ℚ)⟩ := by
  have hmod : jsMod (H / 360 * 6) 2 = H / 60 := by
    have he : H / 360 * 6 = H / 60 := by ring
    rw [he]
    exact jsMod_two_eval0 (by linarith) (by linarith)
  simp only [hsvToRgb]
  rw [hmod]
  rcases lt_or_eq_of_le h1 with hlt | heq
  · rw [if_pos ⟨by linarith, by linarith⟩]
    rw [abs_of_nonpos (show H/60 - 1 ≤ 0 by linarith)]
    simp only [RGB.mk.injEq]
    refine ⟨?_, ?_, ?_⟩ <;> exact_mod_cast congrArg jsRound (by ring)
  · subst heq
    rw [if_neg (by norm_num), if_pos (by norm_num)]
    rw [abs_of_nonpos (show (60:ℚ)/60 - 1 ≤ 0 by norm_num)]
    simp only [RGB.mk.injEq]
    refine ⟨?_, ?_, ?_⟩ <;> exact congrArg (fun q => ((jsRound q : ℤ) : ℚ)) (by ring)

/-- Evaluation of `hsvToRgb` on the second sextant. -/
theorem hsv_sex1 (H S V : ℚ) (h0 : 60 ≤ H) (h1 : H ≤ 120) :
    hsvToRgb ⟨H, S, V⟩ =
      ⟨(jsRound (V / 100 * (1 - S / 100 * (H / 60 - 1)) * 255) : ℚ),
       (jsRound (V / 100 * (1 - S / 100 * 0) * 255) : ℚ),
       (jsRound (V / 100 * (1 - S / 100 * 1) * 255) : ℚ)⟩ := by
  simp only [hsvToRgb]
  rcases lt_or_eq_of_le h1 with hlt | heq
  · rw [show H / 360 * 6 = H / 60 from by ring,
      jsMod_two_eval0 (show (0:ℚ) ≤ H/60 by linarith) (show H/60 < 2 by linarith)]
    rw [if_neg (by rintro ⟨-, hx⟩; linarith), if_pos ⟨by linarith, by linarith⟩]
    rw [abs_of_nonneg (show (0:ℚ) ≤ H/60 - 1 by linarith)]
    simp only [RGB.mk.injEq]
    refine ⟨?_, ?_, ?_⟩ <;> exact congrArg (fun q => ((jsRound q : ℤ) : ℚ)) (by ring)
  · subst heq
    rw [show jsMod ((120:ℚ) / 360 * 6) 2 = 0 from by decide]
    rw [if_neg (by rintro ⟨-, hx⟩; norm_num at hx), if_neg (by rintro ⟨-, hx⟩; norm_num at hx),
      if_pos (by norm_num)]
    rw [show |(0:ℚ) - 1| = 1 from by norm_num]
    simp only [RGB.mk.injEq]
    refine ⟨?_, ?_, ?_⟩ <;> exact congrArg (fun q => ((jsRound q : ℤ) : ℚ)) (by ring)

/-- Evaluation of `hsvToRgb` on the third sextant. -/
theorem hsv_sex2 (H S V : ℚ) (h0 : 120 ≤ H) (h1 : H ≤ 180) :
    hsvToRgb ⟨H, S, V⟩ =
      ⟨(jsRound (V / 100 * (1 - S / 100 * 1) * 255) : ℚ),
       (jsRound (V / 100 * (1 - S / 100 * 0) * 255) : ℚ),
       (jsRound (V / 100 * (1 - S / 100 * (3 - H / 60)) * 255) : ℚ)⟩ := by
  simp only [hsvToRgb]
  rcases lt_or_eq_of_le h1 with hlt | heq
  · rw [show H / 360 * 6 = H / 60 from by ring,
      jsMod_two_eval2 (show (2:ℚ) ≤ H/60 by linarith) (show H/60 < 4 by linarith)]
    rw [if_neg (by rintro ⟨-, hx⟩; linarith), if_neg (by rintro ⟨-, hx⟩; linarith),
      if_pos ⟨by linarith, by linarith⟩]
    rw [abs_of_nonpos (show H/60 - 2 - 1 ≤ 0 by linarith)]
    simp only [RGB.mk.injEq]
    refine ⟨?_, ?_, ?_⟩ <;> exact congrArg (fun q => ((jsRound q : ℤ) : ℚ)) (by ring)
  · subst heq
    rw [show jsMod ((180:ℚ) / 360 * 6) 2 = 1 from by decide]
    rw [if_neg (by rintro ⟨-, hx⟩; norm_num at hx), if_neg (by rintro ⟨-, hx⟩; norm_num at hx),
      if_neg (by rintro ⟨-, hx⟩; norm_num at hx), if_pos (by norm_num)]
    rw [show |(1:ℚ) - 1| = 0 from by norm_num]
    simp only [RGB.mk.injEq]
    refine ⟨?_, ?_, ?_⟩ <;> exact congrArg (fun q => ((jsRound q : ℤ) : ℚ)) (by ring)

/-- Evaluation of `hsvToRgb` on the fourth sextant. -/
theorem hsv_sex3 (H S V : ℚ) (h0 : 180 ≤ H) (h1 : H ≤ 240) :
    hsvToRgb ⟨H, S, V⟩ =
      ⟨(jsRound (V / 100 * (1 - S / 100 * 1) * 255) : ℚ),
       (jsRound (V / 100 * (1 - S / 100 * (H / 60 - 3)) * 255) : ℚ),
       (jsRound (V / 100 * (1 - S / 100 * 0) * 255) : ℚ)⟩ := by
  simp only [hsvToRgb]
  rcases lt_or_eq_of_le h1 with hlt | heq
  · rw [show H / 360 * 6 = H / 60 from by ring,
      jsMod_two_eval2 (show (2:ℚ) ≤ H/60 by linarith) (show H/60 < 4 by linarith)]
    rw [if_neg (by rintro ⟨-, hx⟩; linarith), if_neg (by rintro ⟨-, hx⟩; linarith),
      if_neg (by rintro ⟨-, hx⟩; linarith), if_pos ⟨by linarith, by linarith⟩]
    rw [abs_of_nonneg (show (0:ℚ) ≤ H/60 - 2 - 1 by linarith)]
    simp only [RGB.mk.injEq]
    refine ⟨?_, ?_, ?_⟩ <;> exact congrArg (fun q => ((jsRound q : ℤ) : ℚ)) (by ring)
  · subst heq
    rw [show jsMod ((240:ℚ) / 360 * 6) 2 = 0 from by decide]
    rw [if_neg (by rintro ⟨-, hx⟩; norm_num at hx), if_neg (by rintro ⟨-, hx⟩; norm_num at hx),
      if_neg (by rintro ⟨-, hx⟩; norm_num at hx), if_neg (by rintro ⟨-, hx⟩; norm_num at hx),
      if_pos (by norm_num)]
    rw [show |(0:ℚ) - 1| = 1 from by norm_num]
    simp only [RGB.mk.injEq]
    refine ⟨?_, ?_, ?_⟩ <;> exact congrArg (fun q => ((jsRound q : ℤ) : ℚ)) (by ring)

/-- Evaluation of `hsvToRgb` on the fifth sextant. -/
theorem hsv_sex4 (H S V : ℚ) (h0 : 240 ≤ H) (h1 : H ≤ 300) :
    hsvToRgb ⟨H, S, V⟩ =
      ⟨(jsRound (V / 100 * (1 - S / 100 * (5 - H / 60)) * 255) : ℚ),
       (jsRound (V / 100 * (1 - S / 100 * 1) * 255) : ℚ),
       (jsRound (V / 100 * (1 - S / 100 * 0) * 255) : ℚ)⟩ := by
  simp only [hsvToRgb]
  rcases lt_or_eq_of_le h1 with hlt | heq
  · rw [show H / 360 * 6 = H / 60 from by ring,
      jsMod_two_eval4 (show (4:ℚ) ≤ H/60 by linarith) (show H/60 < 6 by linarith)]
    rw [if_neg (by rintro ⟨-, hx⟩; linarith), if_neg (by rintro ⟨-, hx⟩; linarith),
      if_neg (by rintro ⟨-, hx⟩; linarith), if_neg (by rintro ⟨-, hx⟩; linarith),
      if_pos ⟨by linarith, by linarith⟩]
    rw [abs_of_nonpos (show H/60 - 4 - 1 ≤ 0 by linarith)]
    simp only [RGB.mk.injEq]
    refine ⟨?_, ?_, ?_⟩ <;> exact congrArg (fun q => ((jsRound q : ℤ) : ℚ)) (by ring)
  · subst heq
    rw [show jsMod ((300:ℚ) / 360 * 6) 2 = 1 from by decide]
    rw [if_neg (by rintro ⟨-, hx⟩; norm_num at hx), if_neg (by rintro ⟨-, hx⟩; norm_num at hx),
      if_neg (by rintro ⟨-, hx⟩; norm_num at hx), if_neg (by rintro ⟨-, hx⟩; norm_num at hx),
      if_neg (by rintro ⟨-, hx⟩; norm_num at hx)]
    rw [show |(1:ℚ) - 1| = 0 from by norm_num]
    simp only [RGB.mk.injEq]
    refine ⟨?_, ?_, ?_⟩ <;> exact congrArg (fun q => ((jsRound q : ℤ) : ℚ)) (by ring)

/-- Evaluation of `hsvToRgb` on the sixth sextant. -/
theorem hsv_sex5 (H S V : ℚ) (h0 : 300 ≤ H) (h1 : H ≤ 360) :
    hsvToRgb ⟨H, S, V⟩ =
      ⟨(jsRound (V / 100 * (1 - S / 100 * 0) * 255) : ℚ),
       (jsRound (V / 100 * (1 - S / 100 * 1) * 255) : ℚ),
       (jsRound (V / 100 * (1 - S / 100 * (H / 60 - 5)) * 255) : ℚ)⟩ := by
  simp only [hsvToRgb]
  rcases lt_or_eq_of_le h1 with hlt | heq
  · rw [show H / 360 * 6 = H / 60 from by ring,
      jsMod_two_eval4 (show (4:ℚ) ≤ H/60 by linarith) (show H/60 < 6 by linarith)]
    rw [if_neg (by rintro ⟨-, hx⟩; linarith), if_neg (by rintro ⟨-, hx⟩; linarith),
      if_neg (by rintro ⟨-, hx⟩; linarith), if_neg (by rintro ⟨-, hx⟩; linarith),
      if_neg (by rintro ⟨-, hx⟩; linarith)]
    rw [abs_of_nonneg (show (0:ℚ) ≤ H/60 - 4 - 1 by linarith)]
    simp only [RGB.mk.injEq]
    refine ⟨?_, ?_, ?_⟩ <;> exact congrArg (fun q => ((jsRound q : ℤ) : ℚ)) (by ring)
  · subst heq
    rw [show jsMod ((360:ℚ) / 360 * 6) 2 = 0 from by decide]
    rw [if_neg (by rintro ⟨-, hx⟩; norm_num at hx), if_neg (by rintro ⟨-, hx⟩; norm_num at hx),
      if_neg (by rintro ⟨-, hx⟩; norm_num at hx), if_neg (by rintro ⟨-, hx⟩; norm_num at hx),
      if_neg (by rintro ⟨-, hx⟩; norm_num at hx)]
    rw [show |(0:ℚ) - 1| = 1 from by norm_num]
    simp only [RGB.mk.injEq]
    refine ⟨?_, ?_, ?_⟩ <;> exact congrArg (fun q => ((jsRound q : ℤ) : ℚ)) (by ring)

/-- `rgbToHsv` on colors with r ≥ g ≥ b (hue in the first sextant). -/
theorem rgbToHsv_zone1 (r g b : ℚ) (hb0 : 0 ≤ b) (hbg : b ≤ g) (hgr : g ≤ r) (hne : b < r) :
    rgbToHsv ⟨r, g, b⟩ =
      ⟨(jsRound (60 * ((g - b) / (r - b))) : ℚ),
       (jsRound ((r - b) / r * 100) : ℚ),
       (jsRound (r / 255 * 100) : ℚ)⟩ := by
  have hr0 : (0:ℚ) < r := by linarith
  have hrb : (0:ℚ) < r - b := by linarith
  have hmx : max (max (r/255) (g/255)) (b/255) = r/255 := by
    rw [max_eq_left (by linarith : g/255 ≤ r/255)]
    exact max_eq_left (by linarith)
  have hmn : min (min (r/255) (g/255)) (b/255) = b/255 := by
    rw [min_eq_right (by linarith : g/255 ≤ r/255)]
    exact min_eq_right (by linarith)
  simp only [rgbToHsv]
  rw [hmx, hmn]
  rw [if_pos (show r/255 - b/255 ≠ 0 from ne_of_gt (by linarith))]
  rw [if_pos rfl]
  rw [if_neg (not_lt.mpr (by linarith : b/255 ≤ g/255))]
  refine HSV.ext ?_ ?_ ?_
  · exact congrArg (fun q => ((jsRound q : ℤ) : ℚ)) (by field_simp; try ring)
  · exact congrArg (fun q => ((jsRound q : ℤ) : ℚ)) (by field_simp; try ring)
  · exact congrArg (fun q => ((jsRound q : ℤ) : ℚ)) (by ring)

/-- `rgbToHsv` on achromatic colors. -/
theorem rgbToHsv_gray (r : ℚ) :
    rgbToHsv ⟨r, r, r⟩ = ⟨0, 0, (jsRound (r / 255 * 100) : ℚ)⟩ := by
  simp only [rgbToHsv]
  rw [max_self, max_self, min_self, min_self]
  rw [if_neg (by simp)]
  refine HSV.ext ?_ ?_ ?_
  · norm_num [jsRound]
  · norm_num [jsRound]
  · exact congrArg (fun q => ((jsRound q : ℤ) : ℚ)) (by ring)

/-- Quantization bound for the achromatic path. -/
theorem gray_core (M : ℚ) (orig : ℤ) (horig : (orig : ℚ) = M) (u : ℚ) :
    |jsRound ((jsRound (M / 255 * 100) : ℚ) / 100 * (1 - 0 / 100 * u) * 255) - orig| ≤ 3 := by
  apply jsRound_close
  have h := jsRound_sub_le (M / 255 * 100)
  rw [abs_le] at h ⊢
  rw [horig]
  constructor <;> nlinarith [h.1, h.2]

/-- Round-trip bound for achromatic inputs. -/
theorem gray_bound (ri : ℤ) :
    |(hsvToRgb (rgbToHsv ⟨(ri:ℚ), (ri:ℚ), (ri:ℚ)⟩)).r - (ri:ℚ)| ≤ 3 ∧
    |(hsvToRgb (rgbToHsv ⟨(ri:ℚ), (ri:ℚ), (ri:ℚ)⟩)).g - (ri:ℚ)| ≤ 3 ∧
    |(hsvToRgb (rgbToHsv ⟨(ri:ℚ), (ri:ℚ), (ri:ℚ)⟩)).b - (ri:ℚ)| ≤ 3 := by
  rw [rgbToHsv_gray ((ri:ℚ))]
  rw [hsv_sex0 0 0 _ le_rfl (by norm_num)]
  dsimp only
  refine ⟨?_, ?_, ?_⟩
  · have h := gray_core ((ri:ℚ)) ri rfl 0
    rw [abs_le] at h ⊢
    constructor <;> [exact_mod_cast h.1; exact_mod_cast h.2]
  · have h := gray_core ((ri:ℚ)) ri rfl (1 - 0/60)
    rw [abs_le] at h ⊢
    constructor <;> [exact_mod_cast h.1; exact_mod_cast h.2]
  · have h := gray_core ((ri:ℚ)) ri rfl 1
    rw [abs_le] at h ⊢
    constructor <;> [exact_mod_cast h.1; exact_mod_cast h.2]

/-- Round-trip bound on the zone r ≥ g ≥ b. -/
theorem zone1_bound (ri gi bi : ℤ) (hb0 : 0 ≤ bi) (hbg : bi ≤ gi) (hgr : gi ≤ ri)
    (hr255 : ri ≤ 255) (hne : bi < ri) :
    |(hsvToRgb (rgbToHsv ⟨(ri:ℚ), (gi:ℚ), (bi:ℚ)⟩)).r - (ri:ℚ)| ≤ 3 ∧
    |(hsvToRgb (rgbToHsv ⟨(ri:ℚ), (gi:ℚ), (bi:ℚ)⟩)).g - (gi:ℚ)| ≤ 3 ∧
    |(hsvToRgb (rgbToHsv ⟨(ri:ℚ), (gi:ℚ), (bi:ℚ)⟩)).b - (bi:ℚ)| ≤ 3 := by
  have hb0' : (0:ℚ) ≤ (bi:ℚ) := by exact_mod_cast hb0
  have hbg' : (bi:ℚ) ≤ (gi:ℚ) := by exact_mod_cast hbg
  have hgr' : (gi:ℚ) ≤ (ri:ℚ) := by exact_mod_cast hgr
  have hne' : (bi:ℚ) < (ri:ℚ) := by exact_mod_cast hne
  have h255' : (ri:ℚ) ≤ 255 := by exact_mod_cast hr255
  have hr1 : (1:ℚ) ≤ (ri:ℚ) := by exact_mod_cast (show (1:ℤ) ≤ ri by omega)
  have hrb : (0:ℚ) < (ri:ℚ) - (bi:ℚ) := by linarith
  rw [rgbToHsv_zone1 _ _ _ hb0' hbg' hgr' hne']
  have hXlo : (0:ℚ) ≤ ((gi:ℚ) - (bi:ℚ)) / ((ri:ℚ) - (bi:ℚ)) := div_nonneg (by linarith) hrb.le
  have hXhi : ((gi:ℚ) - (bi:ℚ)) / ((ri:ℚ) - (bi:ℚ)) ≤ 1 := (div_le_one hrb).mpr (by linarith)
  have hHlo : (0:ℤ) ≤ jsRound (60 * (((gi:ℚ) - (bi:ℚ)) / ((ri:ℚ) - (bi:ℚ)))) :=
    le_jsRound_of_le (by push_cast; linarith)
  have hHhi : jsRound (60 * (((gi:ℚ) - (bi:ℚ)) / ((ri:ℚ) - (bi:ℚ)))) ≤ 60 :=
    jsRound_le_of_le (by push_cast; linarith)
  rw [hsv_sex0 _ _ _ (by exact_mod_cast hHlo) (by exact_mod_cast hHhi)]
  dsimp only
  have hhu := jsRound_sub_le (60 * (((gi:ℚ) - (bi:ℚ)) / ((ri:ℚ) - (bi:ℚ))))
  refine ⟨?_, ?_, ?_⟩
  · have h := roundtrip_core ((ri:ℚ)) ((ri:ℚ) - (bi:ℚ)) 0 0 ri hr1 h255' (by linarith)
      (by linarith) le_rfl zero_le_one le_rfl zero_le_one (by norm_num) (by push_cast; ring)
    exact_mod_cast h
  · have hu1 : (0:ℚ) ≤ 1 - (jsRound (60 * (((gi:ℚ) - (bi:ℚ)) / ((ri:ℚ) - (bi:ℚ)))) : ℚ) / 60 := by
      have : ((jsRound (60 * (((gi:ℚ) - (bi:ℚ)) / ((ri:ℚ) - (bi:ℚ)))) : ℤ) : ℚ) ≤ 60 := by
        exact_mod_cast hHhi
      linarith
    have hu2 : 1 - (jsRound (60 * (((gi:ℚ) - (bi:ℚ)) / ((ri:ℚ) - (bi:ℚ)))) : ℚ) / 60 ≤ 1 := by
      have : (0:ℚ) ≤ ((jsRound (60 * (((gi:ℚ) - (bi:ℚ)) / ((ri:ℚ) - (bi:ℚ)))) : ℤ) : ℚ) := by
        exact_mod_cast hHlo
      linarith
    have huu : |(1 - (jsRound (60 * (((gi:ℚ) - (bi:ℚ)) / ((ri:ℚ) - (bi:ℚ)))) : ℚ) / 60) -
        (1 - ((gi:ℚ) - (bi:ℚ)) / ((ri:ℚ) - (bi:ℚ)))| ≤ 1/120 := by
      rw [abs_le] at hhu ⊢
      constructor <;> linarith [hhu.1, hhu.2]
    have h := roundtrip_core ((ri:ℚ)) ((ri:ℚ) - (bi:ℚ))
      (1 - (jsRound (60 * (((gi:ℚ) - (bi:ℚ)) / ((ri:ℚ) - (bi:ℚ)))) : ℚ) / 60)
      (1 - ((gi:ℚ) - (bi:ℚ)) / ((ri:ℚ) - (bi:ℚ))) gi hr1 h255' (by linarith) (by linarith)
      hu1 hu2 (by linarith) (by linarith) huu
      (by rw [eq_sub_iff_add_eq]; field_simp; try ring)
    exact_mod_cast h
  · have h := roundtrip_core ((ri:ℚ)) ((ri:ℚ) - (bi:ℚ)) 1 1 bi hr1 h255' (by linarith)
      (by linarith) zero_le_one le_rfl zero_le_one le_rfl (by norm_num) (by push_cast; ring)
    exact_mod_cast h

/-- `rgbToHsv` on colors with g < b ≤ r (hue in the sixth sextant). -/
theorem rgbToHsv_zone2 (r g b : ℚ) (hg0 : 0 ≤ g) (hgb : g < b) (hbr : b ≤ r) :
    rgbToHsv ⟨r, g, b⟩ =
      ⟨(jsRound (60 * ((g - b) / (r - g)) + 360) : ℚ),
       (jsRound ((r - g) / r * 100) : ℚ),
       (jsRound (r / 255 * 100) : ℚ)⟩ := by
  have hgr : g < r := lt_of_lt_of_le hgb hbr
  have hr0 : (0:ℚ) < r := by linarith
  have hrg : (0:ℚ) < r - g := by linarith
  have hmx : max (max (r/255) (g/255)) (b/255) = r/255 := by
    rw [max_eq_left (by linarith : g/255 ≤ r/255)]
    exact max_eq_left (by linarith)
  have hmn : min (min (r/255) (g/255)) (b/255) = g/255 := by
    rw [min_eq_right (by linarith : g/255 ≤ r/255)]
    exact min_eq_left (by linarith)
  simp only [rgbToHsv]
  rw [hmx, hmn]
  rw [if_pos (show r/255 - g/255 ≠ 0 from ne_of_gt (by linarith))]
  rw [if_pos rfl]
  rw [if_pos (by linarith : g/255 < b/255)]
  refine HSV.ext ?_ ?_ ?_
  · exact congrArg (fun q => ((jsRound q : ℤ) : ℚ)) (by field_simp; try ring)
  · exact congrArg (fun q => ((jsRound q : ℤ) : ℚ)) (by field_simp; try ring)
  · exact congrArg (fun q => ((jsRound q : ℤ) : ℚ)) (by ring)

/-- Round-trip bound on the zone g < b ≤ r. -/
theorem zone2_bound (ri gi bi : ℤ) (hg0 : 0 ≤ gi) (hgb : gi < bi) (hbr : bi ≤ ri)
    (hr255 : ri ≤ 255) :
    |(hsvToRgb (rgbToHsv ⟨(ri:ℚ), (gi:ℚ), (bi:ℚ)⟩)).r - (ri:ℚ)| ≤ 3 ∧
    |(hsvToRgb (rgbToHsv ⟨(ri:ℚ), (gi:ℚ), (bi:ℚ)⟩)).g - (gi:ℚ)| ≤ 3 ∧
    |(hsvToRgb (rgbToHsv ⟨(ri:ℚ), (gi:ℚ), (bi:ℚ)⟩)).b - (bi:ℚ)| ≤ 3 := by
  have hg0' : (0:ℚ) ≤ (gi:ℚ) := by exact_mod_cast hg0
  have hgb' : (gi:ℚ) < (bi:ℚ) := by exact_mod_cast hgb
  have hbr' : (bi:ℚ) ≤ (ri:ℚ) := by exact_mod_cast hbr
  have h255' : (ri:ℚ) ≤ 255 := by exact_mod_cast hr255
  have hr1 : (1:ℚ) ≤ (ri:ℚ) := by exact_mod_cast (show (1:ℤ) ≤ ri by omega)
  have hrg : (0:ℚ) < (ri:ℚ) - (gi:ℚ) := by linarith
  rw [rgbToHsv_zone2 _ _ _ hg0' hgb' hbr']
  have hXlo : (-1:ℚ) ≤ ((gi:ℚ) - (bi:ℚ)) / ((ri:ℚ) - (gi:ℚ)) := by
    rw [le_div_iff hrg]
    linarith
  have hXhi : ((gi:ℚ) - (bi:ℚ)) / ((ri:ℚ) - (gi:ℚ)) ≤ 0 :=
    div_nonpos_of_nonpos_of_nonneg (by linarith) (by linarith)
  have hHlo : (300:ℤ) ≤ jsRound (60 * (((gi:ℚ) - (bi:ℚ)) / ((ri:ℚ) - (gi:ℚ))) + 360) :=
    le_jsRound_of_le (by push_cast; linarith)
  have hHhi : jsRound (60 * (((gi:ℚ) - (bi:ℚ)) / ((ri:ℚ) - (gi:ℚ))) + 360) ≤ 360 :=
    jsRound_le_of_le (by push_cast; linarith)
  rw [hsv_sex5 _ _ _ (by exact_mod_cast hHlo) (by exact_mod_cast hHhi)]
  dsimp only
  have hhu := jsRound_sub_le (60 * (((gi:ℚ) - (bi:ℚ)) / ((ri:ℚ) - (gi:ℚ))) + 360)
  refine ⟨?_, ?_, ?_⟩
  · have h := roundtrip_core ((ri:ℚ)) ((ri:ℚ) - (gi:ℚ)) 0 0 ri hr1 h255' (by linarith)
      (by linarith) le_rfl zero_le_one le_rfl zero_le_one (by norm_num) (by push_cast; ring)
    exact_mod_cast h
  · have h := roundtrip_core ((ri:ℚ)) ((ri:ℚ) - (gi:ℚ)) 1 1 gi hr1 h255' (by linarith)
      (by linarith) zero_le_one le_rfl zero_le_one le_rfl (by norm_num) (by push_cast; ring)
    exact_mod_cast h
  · have hu1 : (0:ℚ) ≤ (jsRound (60 * (((gi:ℚ) - (bi:ℚ)) / ((ri:ℚ) - (gi:ℚ))) + 360) : ℚ) / 60 - 5 := by
      have : (300:ℚ) ≤ ((jsRound (60 * (((gi:ℚ) - (bi:ℚ)) / ((ri:ℚ) - (gi:ℚ))) + 360) : ℤ) : ℚ) := by
        exact_mod_cast hHlo
      linarith
    have hu2 : (jsRound (60 * (((gi:ℚ) - (bi:ℚ)) / ((ri:ℚ) - (gi:ℚ))) + 360) : ℚ) / 60 - 5 ≤ 1 := by
      have : ((jsRound (60 * (((gi:ℚ) - (bi:ℚ)) / ((ri:ℚ) - (gi:ℚ))) + 360) : ℤ) : ℚ) ≤ 360 := by
        exact_mod_cast hHhi
      linarith
    have huu : |((jsRound (60 * (((gi:ℚ) - (bi:ℚ)) / ((ri:ℚ) - (gi:ℚ))) + 360) : ℚ) / 60 - 5) -
        (1 + ((gi:ℚ) - (bi:ℚ)) / ((ri:ℚ) - (gi:ℚ)))| ≤ 1/120 := by
      rw [abs_le] at hhu ⊢
      constructor <;> linarith [hhu.1, hhu.2]
    have h := roundtrip_core ((ri:ℚ)) ((ri:ℚ) - (gi:ℚ))
      ((jsRound (60 * (((gi:ℚ) - (bi:ℚ)) / ((ri:ℚ) - (gi:ℚ))) + 360) : ℚ) / 60 - 5)
      (1 + ((gi:ℚ) - (bi:ℚ)) / ((ri:ℚ) - (gi:ℚ))) bi hr1 h255' (by linarith) (by linarith)
      hu1 hu2 (by linarith) (by linarith) huu
      (by rw [eq_sub_iff_add_eq]; field_simp; try ring)
    exact_mod_cast h

/-- `rgbToHsv` on colors with b ≤ r < g (hue in the second sextant). -/
theorem rgbToHsv_zone3 (r g b : ℚ) (hb0 : 0 ≤ b) (hbr : b ≤ r) (hrg : r < g) :
    rgbToHsv ⟨r, g, b⟩ =
      ⟨(jsRound (60 * ((b - r) / (g - b)) + 120) : ℚ),
       (jsRound ((g - b) / g * 100) : ℚ),
       (jsRound (g / 255 * 100) : ℚ)⟩ := by
  have hbg : b < g := lt_of_le_of_lt hbr hrg
  have hg0 : (0:ℚ) < g := by linarith
  have hgb : (0:ℚ) < g - b := by linarith
  have hmx : max (max (r/255) (g/255)) (b/255) = g/255 := by
    rw [max_eq_right (by linarith : r/255 ≤ g/255)]
    exact max_eq_left (by linarith)
  have hmn : min (min (r/255) (g/255)) (b/255) = b/255 := by
    rw [min_eq_left (by linarith : r/255 ≤ g/255)]
    exact min_eq_right (by linarith)
  simp only [rgbToHsv]
  rw [hmx, hmn]
  rw [if_pos (show g/255 - b/255 ≠ 0 from ne_of_gt (by linarith))]
  rw [if_neg (show ¬(g/255 = r/255) from by intro hx; linarith)]
  rw [if_pos rfl]
  refine HSV.ext ?_ ?_ ?_
  · exact congrArg (fun q => ((jsRound q : ℤ) : ℚ)) (by field_simp; try ring)
  · exact congrArg (fun q => ((jsRound q : ℤ) : ℚ)) (by field_simp; try ring)
  · exact congrArg (fun q => ((jsRound q : ℤ) : ℚ)) (by ring)

/-- Round-trip bound on the zone b ≤ r < g. -/
theorem zone3_bound (ri gi bi : ℤ) (hb0 : 0 ≤ bi) (hbr : bi ≤ ri) (hrg : ri < gi)
    (hg255 : gi ≤ 255) :
    |(hsvToRgb (rgbToHsv ⟨(ri:ℚ), (gi:ℚ), (bi:ℚ)⟩)).r - (ri:ℚ)| ≤ 3 ∧
    |(hsvToRgb (rgbToHsv ⟨(ri:ℚ), (gi:ℚ), (bi:ℚ)⟩)).g - (gi:ℚ)| ≤ 3 ∧
    |(hsvToRgb (rgbToHsv ⟨(ri:ℚ), (gi:ℚ), (bi:ℚ)⟩)).b - (bi:ℚ)| ≤ 3 := by
  have hb0' : (0:ℚ) ≤ (bi:ℚ) := by exact_mod_cast hb0
  have hbr' : (bi:ℚ) ≤ (ri:ℚ) := by exact_mod_cast hbr
  have hrg' : (ri:ℚ) < (gi:ℚ) := by exact_mod_cast hrg
  have h255' : (gi:ℚ) ≤ 255 := by exact_mod_cast hg255
  have hg1 : (1:ℚ) ≤ (gi:ℚ) := by exact_mod_cast (show (1:ℤ) ≤ gi by omega)
  have hgb : (0:ℚ) < (gi:ℚ) - (bi:ℚ) := by linarith
  rw [rgbToHsv_zone3 _ _ _ hb0' hbr' hrg']
  have hXlo : (-1:ℚ) ≤ ((bi:ℚ) - (ri:ℚ)) / ((gi:ℚ) - (bi:ℚ)) := by
    rw [le_div_iff hgb]
    linarith
  have hXhi : ((bi:ℚ) - (ri:ℚ)) / ((gi:ℚ) - (bi:ℚ)) ≤ 0 :=
    div_nonpos_of_nonpos_of_nonneg (by linarith) (by linarith)
  have hHlo : (60:ℤ) ≤ jsRound (60 * (((bi:ℚ) - (ri:ℚ)) / ((gi:ℚ) - (bi:ℚ))) + 120) :=
    le_jsRound_of_le (by push_cast; linarith)
  have hHhi : jsRound (60 * (((bi:ℚ) - (ri:ℚ)) / ((gi:ℚ) - (bi:ℚ))) + 120) ≤ 120 :=
    jsRound_le_of_le (by push_cast; linarith)
  rw [hsv_sex1 _ _ _ (by exact_mod_cast hHlo) (by exact_mod_cast hHhi)]
  dsimp only
  have hhu := jsRound_sub_le (60 * (((bi:ℚ) - (ri:ℚ)) / ((gi:ℚ) - (bi:ℚ))) + 120)
  refine ⟨?_, ?_, ?_⟩
  · have hu1 : (0:ℚ) ≤ (jsRound (60 * (((bi:ℚ) - (ri:ℚ)) / ((gi:ℚ) - (bi:ℚ))) + 120) : ℚ) / 60 - 1 := by
      have : (60:ℚ) ≤ ((jsRound (60 * (((bi:ℚ) - (ri:ℚ)) / ((gi:ℚ) - (bi:ℚ))) + 120) : ℤ) : ℚ) := by
        exact_mod_cast hHlo
      linarith
    have hu2 : (jsRound (60 * (((bi:ℚ) - (ri:ℚ)) / ((gi:ℚ) - (bi:ℚ))) + 120) : ℚ) / 60 - 1 ≤ 1 := by
      have : ((jsRound (60 * (((bi:ℚ) - (ri:ℚ)) / ((gi:ℚ) - (bi:ℚ))) + 120) : ℤ) : ℚ) ≤ 120 := by
        exact_mod_cast hHhi
      linarith
    have huu : |((jsRound (60 * (((bi:ℚ) - (ri:ℚ)) / ((gi:ℚ) - (bi:ℚ))) + 120) : ℚ) / 60 - 1) -
        (1 + ((bi:ℚ) - (ri:ℚ)) / ((gi:ℚ) - (bi:ℚ)))| ≤ 1/120 := by
      rw [abs_le] at hhu ⊢
      constructor <;> linarith [hhu.1, hhu.2]
    have h := roundtrip_core ((gi:ℚ)) ((gi:ℚ) - (bi:ℚ))
      ((jsRound (60 * (((bi:ℚ) - (ri:ℚ)) / ((gi:ℚ) - (bi:ℚ))) + 120) : ℚ) / 60 - 1)
      (1 + ((bi:ℚ) - (ri:ℚ)) / ((gi:ℚ) - (bi:ℚ))) ri hg1 h255' (by linarith) (by linarith)
      hu1 hu2 (by linarith) (by linarith) huu
      (by rw [eq_sub_iff_add_eq]; field_simp; try ring)
    exact_mod_cast h
  · have h := roundtrip_core ((gi:ℚ)) ((gi:ℚ) - (bi:ℚ)) 0 0 gi hg1 h255' (by linarith)
      (by linarith) le_rfl zero_le_one le_rfl zero_le_one (by norm_num) (by push_cast; ring)
    exact_mod_cast h
  · have h := roundtrip_core ((gi:ℚ)) ((gi:ℚ) - (bi:ℚ)) 1 1 bi hg1 h255' (by linarith)
      (by linarith) zero_le_one le_rfl zero_le_one le_rfl (by norm_num) (by push_cast; ring)
    exact_mod_cast h

/-- `rgbToHsv` on colors with r < b ≤ g (hue in the third sextant). -/
theorem rgbToHsv_zone4 (r g b : ℚ) (hr0 : 0 ≤ r) (hrb : r < b) (hbg : b ≤ g) :
    rgbToHsv ⟨r, g, b⟩ =
      ⟨(jsRound (60 * ((b - r) / (g - r)) + 120) : ℚ),
       (jsRound ((g - r) / g * 100) : ℚ),
       (jsRound (g / 255 * 100) : ℚ)⟩ := by
  have hrg : r < g := lt_of_lt_of_le hrb hbg
  have hg0 : (0:ℚ) < g := by linarith
  have hgr : (0:ℚ) < g - r := by linarith
  have hmx : max (max (r/255) (g/255)) (b/255) = g/255 := by
    rw [max_eq_right (by linarith : r/255 ≤ g/255)]
    exact max_eq_left (by linarith)
  have hmn : min (min (r/255) (g/255)) (b/255) = r/255 := by
    rw [min_eq_left (by linarith : r/255 ≤ g/255)]
    exact min_eq_left (by linarith)
  simp only [rgbToHsv]
  rw [hmx, hmn]
  rw [if_pos (show g/255 - r/255 ≠ 0 from ne_of_gt (by linarith))]
  rw [if_neg (show ¬(g/255 = r/255) from by intro hx; linarith)]
  rw [if_pos rfl]
  refine HSV.ext ?_ ?_ ?_
  · exact congrArg (fun q => ((jsRound q : ℤ) : ℚ)) (by field_simp; try ring)
  · exact congrArg (fun q => ((jsRound q : ℤ) : ℚ)) (by field_simp; try ring)
  · exact congrArg (fun q => ((jsRound q : ℤ) : ℚ)) (by ring)

/-- Round-trip bound on the zone r < b ≤ g. -/
theorem zone4_bound (ri gi bi : ℤ) (hr0 : 0 ≤ ri) (hrb : ri < bi) (hbg : bi ≤ gi)
    (hg255 : gi ≤ 255) :
    |(hsvToRgb (rgbToHsv ⟨(ri:ℚ), (gi:ℚ), (bi:ℚ)⟩)).r - (ri:ℚ)| ≤ 3 ∧
    |(hsvToRgb (rgbToHsv ⟨(ri:ℚ), (gi:ℚ), (bi:ℚ)⟩)).g - (gi:ℚ)| ≤ 3 ∧
    |(hsvToRgb (rgbToHsv ⟨(ri:ℚ), (gi:ℚ), (bi:ℚ)⟩)).b - (bi:ℚ)| ≤ 3 := by
  have hr0' : (0:ℚ) ≤ (ri:ℚ) := by exact_mod_cast hr0
  have hrb' : (ri:ℚ) < (bi:ℚ) := by exact_mod_cast hrb
  have hbg' : (bi:ℚ) ≤ (gi:ℚ) := by exact_mod_cast hbg
  have h255' : (gi:ℚ) ≤ 255 := by exact_mod_cast hg255
  have hg1 : (1:ℚ) ≤ (gi:ℚ) := by exact_mod_cast (show (1:ℤ) ≤ gi by omega)
  have hgr : (0:ℚ) < (gi:ℚ) - (ri:ℚ) := by linarith
  rw [rgbToHsv_zone4 _ _ _ hr0' hrb' hbg']
  have hXlo : (0:ℚ) ≤ ((bi:ℚ) - (ri:ℚ)) / ((gi:ℚ) - (ri:ℚ)) := div_nonneg (by linarith) hgr.le
  have hXhi : ((bi:ℚ) - (ri:ℚ)) / ((gi:ℚ) - (ri:ℚ)) ≤ 1 := (div_le_one hgr).mpr (by linarith)
  have hHlo : (120:ℤ) ≤ jsRound (60 * (((bi:ℚ) - (ri:ℚ)) / ((gi:ℚ) - (ri:ℚ))) + 120) :=
    le_jsRound_of_le (by push_cast; linarith)
  have hHhi : jsRound (60 * (((bi:ℚ) - (ri:ℚ)) / ((gi:ℚ) - (ri:ℚ))) + 120) ≤ 180 :=
    jsRound_le_of_le (by push_cast; linarith)
  rw [hsv_sex2 _ _ _ (by exact_mod_cast hHlo) (by exact_mod_cast hHhi)]
  dsimp only
  have hhu := jsRound_sub_le (60 * (((bi:ℚ) - (ri:ℚ)) / ((gi:ℚ) - (ri:ℚ))) + 120)
  refine ⟨?_, ?_, ?_⟩
  · have h := roundtrip_core ((gi:ℚ)) ((gi:ℚ) - (ri:ℚ)) 1 1 ri hg1 h255' (by linarith)
      (by linarith) zero_le_one le_rfl zero_le_one le_rfl (by norm_num) (by push_cast; ring)
    exact_mod_cast h
  · have h := roundtrip_core ((gi:ℚ)) ((gi:ℚ) - (ri:ℚ)) 0 0 gi hg1 h255' (by linarith)
      (by linarith) le_rfl zero_le_one le_rfl zero_le_one (by norm_num) (by push_cast; ring)
    exact_mod_cast h
  · have hu1 : (0:ℚ) ≤ 3 - (jsRound (60 * (((bi:ℚ) - (ri:ℚ)) / ((gi:ℚ) - (ri:ℚ))) + 120) : ℚ) / 60 := by
      have : ((jsRound (60 * (((bi:ℚ) - (ri:ℚ)) / ((gi:ℚ) - (ri:ℚ))) + 120) : ℤ) : ℚ) ≤ 180 := by
        exact_mod_cast hHhi
      linarith
    have hu2 : 3 - (jsRound (60 * (((bi:ℚ) - (ri:ℚ)) / ((gi:ℚ) - (ri:ℚ))) + 120) : ℚ) / 60 ≤ 1 := by
      have : (120:ℚ) ≤ ((jsRound (60 * (((bi:ℚ) - (ri:ℚ)) / ((gi:ℚ) - (ri:ℚ))) + 120) : ℤ) : ℚ) := by
        exact_mod_cast hHlo
      linarith
    have huu : |(3 - (jsRound (60 * (((bi:ℚ) - (ri:ℚ)) / ((gi:ℚ) - (ri:ℚ))) + 120) : ℚ) / 60) -
        (1 - ((bi:ℚ) - (ri:ℚ)) / ((gi:ℚ) - (ri:ℚ)))| ≤ 1/120 := by
      rw [abs_le] at hhu ⊢
      constructor <;> linarith [hhu.1, hhu.2]
    have h := roundtrip_core ((gi:ℚ)) ((gi:ℚ) - (ri:ℚ))
      (3 - (jsRound (60 * (((bi:ℚ) - (ri:ℚ)) / ((gi:ℚ) - (ri:ℚ))) + 120) : ℚ) / 60)
      (1 - ((bi:ℚ) - (ri:ℚ)) / ((gi:ℚ) - (ri:ℚ))) bi hg1 h255' (by linarith) (by linarith)
      hu1 hu2 (by linarith) (by linarith) huu
      (by rw [eq_sub_iff_add_eq]; field_simp; try ring)
    exact_mod_cast h

/-- `rgbToHsv` on colors with r ≤ g < b (hue in the fourth sextant). -/
theorem rgbToHsv_zone5 (r g b : ℚ) (hr0 : 0 ≤ r) (hrg : r ≤ g) (hgb : g < b) :
    rgbToHsv ⟨r, g, b⟩ =
      ⟨(jsRound (60 * ((r - g) / (b - r)) + 240) : ℚ),
       (jsRound ((b - r) / b * 100) : ℚ),
       (jsRound (b / 255 * 100) : ℚ)⟩ := by
  have hrb : r < b := lt_of_le_of_lt hrg hgb
  have hb0 : (0:ℚ) < b := by linarith
  have hbr : (0:ℚ) < b - r := by linarith
  have hmx : max (max (r/255) (g/255)) (b/255) = b/255 := by
    rw [max_eq_right (by linarith : r/255 ≤ g/255)]
    exact max_eq_right (by linarith)
  have hmn : min (min (r/255) (g/255)) (b/255) = r/255 := by
    rw [min_eq_left (by linarith : r/255 ≤ g/255)]
    exact min_eq_left (by linarith)
  simp only [rgbToHsv]
  rw [hmx, hmn]
  rw [if_pos (show b/255 - r/255 ≠ 0 from ne_of_gt (by linarith))]
  rw [if_neg (show ¬(b/255 = r/255) from by intro hx; linarith)]
  rw [if_neg (show ¬(b/255 = g/255) from by intro hx; linarith)]
  refine HSV.ext ?_ ?_ ?_
  · exact congrArg (fun q => ((jsRound q : ℤ) : ℚ)) (by field_simp; try ring)
  · exact congrArg (fun q => ((jsRound q : ℤ) : ℚ)) (by field_simp; try ring)
  · exact congrArg (fun q => ((jsRound q : ℤ) : ℚ)) (by ring)

/-- Round-trip bound on the zone r ≤ g < b. -/
theorem zone5_bound (ri gi bi : ℤ) (hr0 : 0 ≤ ri) (hrg : ri ≤ gi) (hgb : gi < bi)
    (hb255 : bi ≤ 255) :
    |(hsvToRgb (rgbToHsv ⟨(ri:ℚ), (gi:ℚ), (bi:ℚ)⟩)).r - (ri:ℚ)| ≤ 3 ∧
    |(hsvToRgb (rgbToHsv ⟨(ri:ℚ), (gi:ℚ), (bi:ℚ)⟩)).g - (gi:ℚ)| ≤ 3 ∧
    |(hsvToRgb (rgbToHsv ⟨(ri:ℚ), (gi:ℚ), (bi:ℚ)⟩)).b - (bi:ℚ)| ≤ 3 := by
  have hr0' : (0:ℚ) ≤ (ri:ℚ) := by exact_mod_cast hr0
  have hrg' : (ri:ℚ) ≤ (gi:ℚ) := by exact_mod_cast hrg
  have hgb' : (gi:ℚ) < (bi:ℚ) := by exact_mod_cast hgb
  have h255' : (bi:ℚ) ≤ 255 := by exact_mod_cast hb255
  have hb1 : (1:ℚ) ≤ (bi:ℚ) := by exact_mod_cast (show (1:ℤ) ≤ bi by omega)
  have hbr : (0:ℚ) < (bi:ℚ) - (ri:ℚ) := by linarith
  rw [rgbToHsv_zone5 _ _ _ hr0' hrg' hgb']
  have hXlo : (-1:ℚ) ≤ ((ri:ℚ) - (gi:ℚ)) / ((bi:ℚ) - (ri:ℚ)) := by
    rw [le_div_iff hbr]
    linarith
  have hXhi : ((ri:ℚ) - (gi:ℚ)) / ((bi:ℚ) - (ri:ℚ)) ≤ 0 :=
    div_nonpos_of_nonpos_of_nonneg (by linarith) (by linarith)
  have hHlo : (180:ℤ) ≤ jsRound (60 * (((ri:ℚ) - (gi:ℚ)) / ((bi:ℚ) - (ri:ℚ))) + 240) :=
    le_jsRound_of_le (by push_cast; linarith)
  have hHhi : jsRound (60 * (((ri:ℚ) - (gi:ℚ)) / ((bi:ℚ) - (ri:ℚ))) + 240) ≤ 240 :=
    jsRound_le_of_le (by push_cast; linarith)
  rw [hsv_sex3 _ _ _ (by exact_mod_cast hHlo) (by exact_mod_cast hHhi)]
  dsimp only
  have hhu := jsRound_sub_le (60 * (((ri:ℚ) - (gi:ℚ)) / ((bi:ℚ) - (ri:ℚ))) + 240)
  refine ⟨?_, ?_, ?_⟩
  · have h := roundtrip_core ((bi:ℚ)) ((bi:ℚ) - (ri:ℚ)) 1 1 ri hb1 h255' (by linarith)
      (by linarith) zero_le_one le_rfl zero_le_one le_rfl (by norm_num) (by push_cast; ring)
    exact_mod_cast h
  · have hu1 : (0:ℚ) ≤ (jsRound (60 * (((ri:ℚ) - (gi:ℚ)) / ((bi:ℚ) - (ri:ℚ))) + 240) : ℚ) / 60 - 3 := by
      have : (180:ℚ) ≤ ((jsRound (60 * (((ri:ℚ) - (gi:ℚ)) / ((bi:ℚ) - (ri:ℚ))) + 240) : ℤ) : ℚ) := by
        exact_mod_cast hHlo
      linarith
    have hu2 : (jsRound (60 * (((ri:ℚ) - (gi:ℚ)) / ((bi:ℚ) - (ri:ℚ))) + 240) : ℚ) / 60 - 3 ≤ 1 := by
      have : ((jsRound (60 * (((ri:ℚ) - (gi:ℚ)) / ((bi:ℚ) - (ri:ℚ))) + 240) : ℤ) : ℚ) ≤ 240 := by
        exact_mod_cast hHhi
      linarith
    have huu : |((jsRound (60 * (((ri:ℚ) - (gi:ℚ)) / ((bi:ℚ) - (ri:ℚ))) + 240) : ℚ) / 60 - 3) -
        (1 + ((ri:ℚ) - (gi:ℚ)) / ((bi:ℚ) - (ri:ℚ)))| ≤ 1/120 := by
      rw [abs_le] at hhu ⊢
      constructor <;> linarith [hhu.1, hhu.2]
    have h := roundtrip_core ((bi:ℚ)) ((bi:ℚ) - (ri:ℚ))
      ((jsRound (60 * (((ri:ℚ) - (gi:ℚ)) / ((bi:ℚ) - (ri:ℚ))) + 240) : ℚ) / 60 - 3)
      (1 + ((ri:ℚ) - (gi:ℚ)) / ((bi:ℚ) - (ri:ℚ))) gi hb1 h255' (by linarith) (by linarith)
      hu1 hu2 (by linarith) (by linarith) huu
      (by rw [eq_sub_iff_add_eq]; field_simp; try ring)
    exact_mod_cast h
  · have h := roundtrip_core ((bi:ℚ)) ((bi:ℚ) - (ri:ℚ)) 0 0 bi hb1 h255' (by linarith)
      (by linarith) le_rfl zero_le_one le_rfl zero_le_one (by norm_num) (by push_cast; ring)
    exact_mod_cast h

/-- `rgbToHsv` on colors with g ≤ r < b (hue in the fifth sextant). -/
theorem rgbToHsv_zone6 (r g b : ℚ) (hg0 : 0 ≤ g) (hgr : g ≤ r) (hrb : r < b) :
    rgbToHsv ⟨r, g, b⟩ =
      ⟨(jsRound (60 * ((r - g) / (b - g)) + 240) : ℚ),
       (jsRound ((b - g) / b * 100) : ℚ),
       (jsRound (b / 255 * 100) : ℚ)⟩ := by
  have hgb : g < b := lt_of_le_of_lt hgr hrb
  have hb0 : (0:ℚ) < b := by linarith
  have hbg : (0:ℚ) < b - g := by linarith
  have hmx : max (max (r/255) (g/255)) (b/255) = b/255 := by
    rw [max_eq_left (by linarith : g/255 ≤ r/255)]
    exact max_eq_right (by linarith)
  have hmn : min (min (r/255) (g/255)) (b/255) = g/255 := by
    rw [min_eq_right (by linarith : g/255 ≤ r/255)]
    exact min_eq_left (by linarith)
  simp only [rgbToHsv]
  rw [hmx, hmn]
  rw [if_pos (show b/255 - g/255 ≠ 0 from ne_of_gt (by linarith))]
  rw [if_neg (show ¬(b/255 = r/255) from by intro hx; linarith)]
  rw [if_neg (show ¬(b/255 = g/255) from by intro hx; linarith)]
  refine HSV.ext ?_ ?_ ?_
  · exact congrArg (fun q => ((jsRound q : ℤ) : ℚ)) (by field_simp; try ring)
  · exact congrArg (fun q => ((jsRound q : ℤ) : ℚ)) (by field_simp; try ring)
  · exact congrArg (fun q => ((jsRound q : ℤ) : ℚ)) (by ring)

/-- Round-trip bound on the zone g ≤ r < b. -/
theorem zone6_bound (ri gi bi : ℤ) (hg0 : 0 ≤ gi) (hgr : gi ≤ ri) (hrb : ri < bi)
    (hb255 : bi ≤ 255) :
    |(hsvToRgb (rgbToHsv ⟨(ri:ℚ), (gi:ℚ), (bi:ℚ)⟩)).r - (ri:ℚ)| ≤ 3 ∧
    |(hsvToRgb (rgbToHsv ⟨(ri:ℚ), (gi:ℚ), (bi:ℚ)⟩)).g - (gi:ℚ)| ≤ 3 ∧
    |(hsvToRgb (rgbToHsv ⟨(ri:ℚ), (gi:ℚ), (bi:ℚ)⟩)).b - (bi:ℚ)| ≤ 3 := by
  have hg0' : (0:ℚ) ≤ (gi:ℚ) := by exact_mod_cast hg0
  have hgr' : (gi:ℚ) ≤ (ri:ℚ) := by exact_mod_cast hgr
  have hrb' : (ri:ℚ) < (bi:ℚ) := by exact_mod_cast hrb
  have h255' : (bi:ℚ) ≤ 255 := by exact_mod_cast hb255
  have hb1 : (1:ℚ) ≤ (bi:ℚ) := by exact_mod_cast (show (1:ℤ) ≤ bi by omega)
  have hbg : (0:ℚ) < (bi:ℚ) - (gi:ℚ) := by linarith
  rw [rgbToHsv_zone6 _ _ _ hg0' hgr' hrb']
  have hXlo : (0:ℚ) ≤ ((ri:ℚ) - (gi:ℚ)) / ((bi:ℚ) - (gi:ℚ)) := div_nonneg (by linarith) hbg.le
  have hXhi : ((ri:ℚ) - (gi:ℚ)) / ((bi:ℚ) - (gi:ℚ)) ≤ 1 := (div_le_one hbg).mpr (by linarith)
  have hHlo : (240:ℤ) ≤ jsRound (60 * (((ri:ℚ) - (gi:ℚ)) / ((bi:ℚ) - (gi:ℚ))) + 240) :=
    le_jsRound_of_le (by push_cast; linarith)
  have hHhi : jsRound (60 * (((ri:ℚ) - (gi:ℚ)) / ((bi:ℚ) - (gi:ℚ))) + 240) ≤ 300 :=
    jsRound_le_of_le (by push_cast; linarith)
  rw [hsv_sex4 _ _ _ (by exact_mod_cast hHlo) (by exact_mod_cast hHhi)]
  dsimp only
  have hhu := jsRound_sub_le (60 * (((ri:ℚ) - (gi:ℚ)) / ((bi:ℚ) - (gi:ℚ))) + 240)
  refine ⟨?_, ?_, ?_⟩
  · have hu1 : (0:ℚ) ≤ 5 - (jsRound (60 * (((ri:ℚ) - (gi:ℚ)) / ((bi:ℚ) - (gi:ℚ))) + 240) : ℚ) / 60 := by
      have : ((jsRound (60 * (((ri:ℚ) - (gi:ℚ)) / ((bi:ℚ) - (gi:ℚ))) + 240) : ℤ) : ℚ) ≤ 300 := by
        exact_mod_cast hHhi
      linarith
    have hu2 : 5 - (jsRound (60 * (((ri:ℚ) - (gi:ℚ)) / ((bi:ℚ) - (gi:ℚ))) + 240) : ℚ) / 60 ≤ 1 := by
      have : (240:ℚ) ≤ ((jsRound (60 * (((ri:ℚ) - (gi:ℚ)) / ((bi:ℚ) - (gi:ℚ))) + 240) : ℤ) : ℚ) := by
        exact_mod_cast hHlo
      linarith
    have huu : |(5 - (jsRound (60 * (((ri:ℚ) - (gi:ℚ)) / ((bi:ℚ) - (gi:ℚ))) + 240) : ℚ) / 60) -
        (1 - ((ri:ℚ) - (gi:ℚ)) / ((bi:ℚ) - (gi:ℚ)))| ≤ 1/120 := by
      rw [abs_le] at hhu ⊢
      constructor <;> linarith [hhu.1, hhu.2]
    have h := roundtrip_core ((bi:ℚ)) ((bi:ℚ) - (gi:ℚ))
      (5 - (jsRound (60 * (((ri:ℚ) - (gi:ℚ)) / ((bi:ℚ) - (gi:ℚ))) + 240) : ℚ) / 60)
      (1 - ((ri:ℚ) - (gi:ℚ)) / ((bi:ℚ) - (gi:ℚ))) ri hb1 h255' (by linarith) (by linarith)
      hu1 hu2 (by linarith) (by linarith) huu
      (by rw [eq_sub_iff_add_eq]; field_simp; try ring)
    exact_mod_cast h
  · have h := roundtrip_core ((bi:ℚ)) ((bi:ℚ) - (gi:ℚ)) 1 1 gi hb1 h255' (by linarith)
      (by linarith) zero_le_one le_rfl zero_le_one le_rfl (by norm_num) (by push_cast; ring)
    exact_mod_cast h
  · have h := roundtrip_core ((bi:ℚ)) ((bi:ℚ) - (gi:ℚ)) 0 0 bi hb1 h255' (by linarith)
      (by linarith) le_rfl zero_le_one le_rfl zero_le_one (by norm_num) (by push_cast; ring)
    exact_mod_cast h

/-- C4 (amended): the HSV round trip of any integer RGB color in [0,255]³
changes each channel by at most 3 units. -/
theorem C4_roundtrip_within_three (ri gi bi : ℤ) (hr0 : 0 ≤ ri) (hr255 : ri ≤ 255)
    (hg0 : 0 ≤ gi) (hg255 : gi ≤ 255) (hb0 : 0 ≤ bi) (hb255 : bi ≤ 255) :
    |(hsvToRgb (rgbToHsv ⟨(ri:ℚ), (gi:ℚ), (bi:ℚ)⟩)).r - (ri:ℚ)| ≤ 3 ∧
    |(hsvToRgb (rgbToHsv ⟨(ri:ℚ), (gi:ℚ), (bi:ℚ)⟩)).g - (gi:ℚ)| ≤ 3 ∧
    |(hsvToRgb (rgbToHsv ⟨(ri:ℚ), (gi:ℚ), (bi:ℚ)⟩)).b - (bi:ℚ)| ≤ 3 := by
  rcases le_total bi gi with h1 | h1
  · rcases le_total gi ri with h2 | h2
    · rcases eq_or_lt_of_le (le_trans h1 h2) with h3 | h3
      · have e1 : gi = ri := le_antisymm h2 (h3 ▸ h1)
        rw [e1, h3]
        exact gray_bound ri
      · exact zone1_bound ri gi bi hb0 h1 h2 hr255 h3
    · rcases eq_or_lt_of_le h2 with h3 | h3
      · subst h3
        rcases eq_or_lt_of_le h1 with h4 | h4
        · rw [h4]
          exact gray_bound ri
        · exact zone1_bound ri ri bi hb0 h4.le le_rfl hr255 h4
      · rcases le_total bi ri with h4 | h4
        · exact zone3_bound ri gi bi hb0 h4 h3 hg255
        · rcases eq_or_lt_of_le h4 with h5 | h5
          · exact zone3_bound ri gi bi hb0 h5.ge h3 hg255
          · exact zone4_bound ri gi bi hr0 h5 h1 hg255
  · rcases le_total bi ri with h2 | h2
    · rcases eq_or_lt_of_le h1 with h3 | h3
      · rcases eq_or_lt_of_le h2 with h4 | h4
        · rw [h3, h4]
          exact gray_bound ri
        · exact zone1_bound ri gi bi hb0 h3.ge (by omega) hr255 h4
      · exact zone2_bound ri gi bi hg0 h3 h2 hr255
    · rcases eq_or_lt_of_le h2 with h3 | h3
      · rcases eq_or_lt_of_le h1 with h4 | h4
        · rw [h4, ← h3]
          exact gray_bound ri
        · exact zone2_bound ri gi bi hg0 h4 h3.ge hr255
      · rcases le_total ri gi with h4 | h4
        · rcases eq_or_lt_of_le h1 with h5 | h5
          · exact zone4_bound ri gi bi hr0 (by omega) h5.ge hg255
          · exact zone5_bound ri gi bi hr0 h4 h5 hb255
        · exact zone6_bound ri gi bi hg0 h4 h3 hb255

/-- C4 (counterexample to the claim as stated): the integer color
(0, 108, 254) round-trips to (0, 111, 255); the green channel moves by 3,
so the claimed per-channel bound of 1 is false. -/
theorem C4_pm_one_false :
    ¬ (∀ (ri gi bi : ℤ), 0 ≤ ri → ri ≤ 255 → 0 ≤ gi → gi ≤ 255 → 0 ≤ bi → bi ≤ 255 →
      |(hsvToRgb (rgbToHsv ⟨(ri:ℚ), (gi:ℚ), (bi:ℚ)⟩)).r - (ri:ℚ)| ≤ 1 ∧
      |(hsvToRgb (rgbToHsv ⟨(ri:ℚ), (gi:ℚ), (bi:ℚ)⟩)).g - (gi:ℚ)| ≤ 1 ∧
      |(hsvToRgb (rgbToHsv ⟨(ri:ℚ), (gi:ℚ), (bi:ℚ)⟩)).b - (bi:ℚ)| ≤ 1) := by
  intro h
  have hg := (h 0 108 254 (by norm_num) (by norm_num) (by norm_num) (by norm_num)
    (by norm_num) (by norm_num)).2.1
  have hc : rgbToHsv ⟨((0:ℤ):ℚ), ((108:ℤ):ℚ), ((254:ℤ):ℚ)⟩ = ⟨214, 100, 100⟩ := by
    have e : (⟨((0:ℤ):ℚ), ((108:ℤ):ℚ), ((254:ℤ):ℚ)⟩ : RGB) = ⟨0, 108, 254⟩ := by
      refine RGB.ext ?_ ?_ ?_ <;> norm_num
    rw [e]
    decide
  rw [hc, show hsvToRgb ⟨214, 100, 100⟩ = ⟨0, 111, 255⟩ from by decide] at hg
  norm_num at hg

/-- Witness for C4 at the concrete input (0, 108, 254). -/
theorem C4_roundtrip_within_three_witness :
    |(hsvToRgb (rgbToHsv ⟨((0:ℤ):ℚ), ((108:ℤ):ℚ), ((254:ℤ):ℚ)⟩)).r - ((0:ℤ):ℚ)| ≤ 3 ∧
    |(hsvToRgb (rgbToHsv ⟨((0:ℤ):ℚ), ((108:ℤ):ℚ), ((254:ℤ):ℚ)⟩)).g - ((108:ℤ):ℚ)| ≤ 3 ∧
    |(hsvToRgb (rgbToHsv ⟨((0:ℤ):ℚ), ((108:ℤ):ℚ), ((254:ℤ):ℚ)⟩)).b - ((254:ℤ):ℚ)| ≤ 3 :=
  C4_roundtrip_within_three 0 108 254 (by norm_num) (by norm_num) (by norm_num)
    (by norm_num) (by norm_num) (by norm_num)

/-! Color matching (part_001 `matchColorToValue` in RGB space and part_002
`matchColorToValueAdvanced` in HSV space).  Color distances take square
roots, so they are modelled as real numbers.  Calibration range upper bounds
may be Number.POSITIVE_INFINITY, modelled by the `JNum`/`QBound` types;
weights in the interpolation branch are positive (both distances are at least
the snap threshold there), so extended arithmetic never multiplies infinity
by zero. -/

/-- A qualitative calibration status. -/
inductive WStatus where
  | low
  | ok
  | high
deriving DecidableEq, Repr

/-- Upper bound of a calibration range: a rational or +∞. -/
inductive QBound where
  | fin (q : ℚ)
  | inf
deriving DecidableEq, Repr

/-- A JavaScript number arising in the matcher value computation: a real or
+∞.  NaN never arises on the reachable paths (no 0·∞ and no ∞−∞). -/
inductive JNum where
  | fin (x : ℝ)
  | inf

/-- Addition; +∞ absorbs. -/
def JNum.add : JNum → JNum → JNum
  | .fin a, .fin b => .fin (a + b)
  | _, _ => .inf

/-- Multiplication by a (positive, at every use site) real weight. -/
def JNum.mulPos : JNum → ℝ → JNum
  | .fin a, w => .fin (a * w)
  | .inf, _ => .inf

/-- The JS comparison `v < w` (false whenever either side is +∞ on the left). -/
def JNum.lt : JNum → JNum → Prop
  | .fin a, .fin b => a < b
  | .fin _, .inf => True
  | .inf, _ => False

/-- The JS comparison `v >= q` against a rational. -/
def JNum.geQ : JNum → ℚ → Prop
  | .fin a, q => (q : ℝ) ≤ a
  | .inf, _ => True

/-- JS `isFinite`. -/
def JNum.isFinite : JNum → Bool
  | .fin _ => true
  | .inf => false

/-- JS Math.round on reals. -/
noncomputable def jsRoundR (x : ℝ) : ℤ := ⌊x + 1/2⌋

/-- `Math.round(v * 10) / 10`, extended to +∞. -/
noncomputable def roundTo1 : JNum → JNum
  | .fin x => .fin ((jsRoundR (x * 10) : ℝ) / 10)
  | .inf => .inf

/-- `Math.round(x * 100) / 100`. -/
noncomputable def roundTo2 (x : ℝ) : ℝ := (jsRoundR (x * 100) : ℝ) / 100

/-- One row of part_001's `COLOR_REFERENCES`. -/
structure CalEntry where
  lo : ℚ
  hi : QBound
  color : RGB
  status : WStatus
deriving DecidableEq, Repr

/-- One row of part_002's `ENHANCED_COLOR_REFERENCES`. -/
structure EnhEntry where
  lo : ℚ
  hi : QBound
  hsv : HSV
  status : WStatus
deriving DecidableEq, Repr

/-- The six chemical parameters. -/
inductive Param where
  | freeChlorine
  | ph
  | totalAlkalinity
  | totalChlorine
  | totalHardness
  | cyanuricAcid
deriving DecidableEq, Repr

open WStatus QBound in
/-- part_001 `COLOR_REFERENCES`. -/
def COLOR_REFERENCES : Param → List CalEntry
  | .freeChlorine =>
    [⟨0, fin (1/2), ⟨255, 255, 240⟩, low⟩, ⟨1/2, fin 1, ⟨255, 220, 200⟩, low⟩,
     ⟨1, fin 3, ⟨255, 240, 150⟩, ok⟩, ⟨3, fin 5, ⟨255, 220, 100⟩, high⟩,
     ⟨5, fin 10, ⟨240, 180, 80⟩, high⟩, ⟨10, inf, ⟨200, 140, 60⟩, high⟩]
  | .ph =>
    [⟨31/5, fin (34/5), ⟨255, 255, 0⟩, low⟩, ⟨34/5, fin (36/5), ⟨255, 220, 50⟩, ok⟩,
     ⟨36/5, fin (38/5), ⟨255, 200, 100⟩, ok⟩, ⟨38/5, fin 8, ⟨255, 150, 120⟩, high⟩,
     ⟨8, fin (42/5), ⟨240, 80, 160⟩, high⟩, ⟨42/5, fin 9, ⟨200, 50, 150⟩, high⟩]
  | .totalAlkalinity =>
    [⟨0, fin 60, ⟨255, 255, 100⟩, low⟩, ⟨60, fin 80, ⟨220, 220, 80⟩, low⟩,
     ⟨80, fin 120, ⟨200, 200, 100⟩, ok⟩, ⟨120, fin 150, ⟨150, 180, 120⟩, ok⟩,
     ⟨150, fin 180, ⟨120, 160, 140⟩, high⟩, ⟨180, fin 240, ⟨100, 140, 160⟩, high⟩]
  | .totalChlorine =>
    [⟨0, fin 1, ⟨240, 200, 160⟩, low⟩, ⟨1, fin 3, ⟨255, 220, 200⟩, ok⟩,
     ⟨3, fin 5, ⟨255, 180, 180⟩, high⟩, ⟨5, fin 10, ⟨255, 140, 160⟩, high⟩,
     ⟨10, inf, ⟨220, 120, 150⟩, high⟩]
  | .totalHardness =>
    [⟨0, fin 100, ⟨150, 200, 255⟩, low⟩, ⟨100, fin 200, ⟨180, 180, 240⟩, low⟩,
     ⟨200, fin 400, ⟨200, 160, 220⟩, ok⟩, ⟨400, fin 500, ⟨180, 140, 200⟩, high⟩,
     ⟨500, fin 1000, ⟨160, 120, 180⟩, high⟩]
  | .cyanuricAcid =>
    [⟨0, fin 20, ⟨255, 255, 150⟩, low⟩, ⟨20, fin 30, ⟨255, 240, 120⟩, low⟩,
     ⟨30, fin 50, ⟨255, 200, 140⟩, ok⟩, ⟨50, fin 80, ⟨255, 160, 160⟩, ok⟩,
     ⟨80, fin 100, ⟨240, 140, 180⟩, high⟩, ⟨100, fin 240, ⟨220, 120, 160⟩, high⟩]

open WStatus QBound in
/-- part_002 `ENHANCED_COLOR_REFERENCES`. -/
def ENHANCED_COLOR_REFERENCES : Param → List EnhEntry
  | .freeChlorine =>
    [⟨0, fin (1/2), ⟨60, 5, 95⟩, low⟩, ⟨1/2, fin 1, ⟨55, 15, 90⟩, low⟩,
     ⟨1, fin 2, ⟨50, 25, 85⟩, ok⟩, ⟨2, fin 3, ⟨45, 35, 80⟩, ok⟩,
     ⟨3, fin 5, ⟨35, 50, 75⟩, ok⟩, ⟨5, fin 10, ⟨25, 65, 70⟩, high⟩,
     ⟨10, inf, ⟨15, 80, 60⟩, high⟩]
  | .ph =>
    [⟨31/5, fin (34/5), ⟨60, 100, 100⟩, low⟩, ⟨34/5, fin 7, ⟨50, 80, 90⟩, low⟩,
     ⟨7, fin (36/5), ⟨40, 70, 85⟩, ok⟩, ⟨36/5, fin (38/5), ⟨25, 75, 80⟩, ok⟩,
     ⟨38/5, fin 8, ⟨15, 80, 75⟩, high⟩, ⟨8, fin (42/5), ⟨350, 70, 70⟩, high⟩,
     ⟨42/5, fin 9, ⟨330, 80, 65⟩, high⟩]
  | .totalAlkalinity =>
    [⟨0, fin 40, ⟨65, 40, 90⟩, low⟩, ⟨40, fin 60, ⟨70, 50, 85⟩, low⟩,
     ⟨60, fin 80, ⟨75, 60, 80⟩, low⟩, ⟨80, fin 120, ⟨85, 65, 75⟩, ok⟩,
     ⟨120, fin 150, ⟨95, 70, 70⟩, ok⟩, ⟨150, fin 180, ⟨110, 75, 65⟩, high⟩,
     ⟨180, fin 240, ⟨125, 80, 60⟩, high⟩]
  | .totalChlorine =>
    [⟨0, fin (1/2), ⟨30, 20, 85⟩, low⟩, ⟨1/2, fin 1, ⟨25, 30, 80⟩, low⟩,
     ⟨1, fin 2, ⟨20, 40, 75⟩, ok⟩, ⟨2, fin 3, ⟨15, 50, 70⟩, ok⟩,
     ⟨3, fin 5, ⟨10, 60, 65⟩, ok⟩, ⟨5, fin 10, ⟨5, 70, 60⟩, high⟩]
  | .totalHardness =>
    [⟨0, fin 50, ⟨200, 30, 90⟩, low⟩, ⟨50, fin 100, ⟨210, 40, 85⟩, low⟩,
     ⟨100, fin 150, ⟨220, 50, 80⟩, low⟩, ⟨150, fin 250, ⟨240, 60, 75⟩, ok⟩,
     ⟨250, fin 400, ⟨260, 70, 70⟩, ok⟩, ⟨400, fin 500, ⟨280, 75, 65⟩, high⟩,
     ⟨500, fin 1000, ⟨300, 80, 60⟩, high⟩]
  | .cyanuricAcid =>
    [⟨0, fin 15, ⟨55, 25, 90⟩, low⟩, ⟨15, fin 30, ⟨50, 35, 85⟩, low⟩,
     ⟨30, fin 50, ⟨45, 45, 80⟩, ok⟩, ⟨50, fin 80, ⟨35, 55, 75⟩, ok⟩,
     ⟨80, fin 100, ⟨25, 65, 70⟩, high⟩, ⟨100, fin 150, ⟨15, 75, 65⟩, high⟩,
     ⟨150, fin 240, ⟨5, 80, 60⟩, high⟩]

/-- Squared Euclidean RGB distance (the exact radicand of `colorDistance`). -/
def colorDistSq (c1 c2 : RGB) : ℚ :=
  (c1.r - c2.r) * (c1.r - c2.r) + (c1.g - c2.g) * (c1.g - c2.g) +
    (c1.b - c2.b) * (c1.b - c2.b)

/-- part_001 `colorDistance`: Euclidean distance in RGB space. -/
noncomputable def colorDistance (c1 c2 : RGB) : ℝ :=
  Real.sqrt ((colorDistSq c1 c2 : ℚ) : ℝ)

/-- Radicand of part_002 `hsvColorDistance`. -/
def hsvDistSq (a b : HSV) : ℚ :=
  let hueDiff := min |a.h - b.h| (360 - |a.h - b.h|)
  let satDiff := |a.s - b.s|
  let valDiff := |a.v - b.v|
  let hueWeight := min a.s b.s / 100
  (hueDiff * hueWeight) * (hueDiff * hueWeight) + (satDiff * (8/10)) * (satDiff * (8/10)) +
    (valDiff * (6/10)) * (valDiff * (6/10))

/-- part_002 `hsvColorDistance`: weighted distance in HSV space. -/
noncomputable def hsvColorDistance (a b : HSV) : ℝ :=
  Real.sqrt ((hsvDistSq a b : ℚ) : ℝ)

/-- A scored calibration entry, as built by `references.map((ref, index) => ...)`. -/
structure Scored (α : Type) where
  distance : ℝ
  idx : ℕ
  ref : α

open Classical in
/-- Stable insertion used to model `Array.prototype.sort` with the comparator
`(a, b) => a.distance - b.distance` (stable ascending sort). -/
noncomputable def insertByDist {α : Type} (x : Scored α) : List (Scored α) → List (Scored α)
  | [] => [x]
  | y :: ys => if y.distance ≤ x.distance then y :: insertByDist x ys else x :: y :: ys

/-- Stable ascending sort by distance. -/
noncomputable def sortByDist {α : Type} (l : List (Scored α)) : List (Scored α) :=
  l.foldl (fun acc x => insertByDist x acc) []

/-- Distances of a color to every entry, with indices, in table order. -/
noncomputable def scoreListRGB (c : RGB) : List CalEntry → ℕ → List (Scored CalEntry)
  | [], _ => []
  | e :: es, i => ⟨colorDistance c e.color, i, e⟩ :: scoreListRGB c es (i + 1)

/-- part_001: the sorted scored references for a color and parameter. -/
noncomputable def scoredRefs (c : RGB) (p : Param) : List (Scored CalEntry) :=
  sortByDist (scoreListRGB c (COLOR_REFERENCES p) 0)

/-- Distances of an HSV color to every enhanced entry. -/
noncomputable def scoreListHSV (c : HSV) : List EnhEntry → ℕ → List (Scored EnhEntry)
  | [], _ => []
  | e :: es, i => ⟨hsvColorDistance c e.hsv, i, e⟩ :: scoreListHSV c es (i + 1)

/-- part_002: the sorted scored enhanced references. -/
noncomputable def scoredRefsAdv (c : RGB) (p : Param) : List (Scored EnhEntry) :=
  sortByDist (scoreListHSV (rgbToHsv c) (ENHANCED_COLOR_REFERENCES p) 0)

/-- `min + (max - min) * 0.5` on rationals. -/
def mid001Q (lo h : ℚ) : ℚ := lo + (h - lo) * (1/2)

/-- part_001 range midpoint `min + (max - min) * 0.5`; +∞ for an infinite
upper bound, as in IEEE arithmetic. -/
noncomputable def midpoint001 (e : CalEntry) : JNum :=
  match e.hi with
  | .fin h => .fin ((mid001Q e.lo h : ℚ) : ℝ)
  | .inf => .inf

/-- `(range[0] + range[1]) / 2` on rationals. -/
def mid002Q (lo h : ℚ) : ℚ := (lo + h) / 2

/-- part_002 range midpoint `(range[0] + range[1]) / 2`. -/
noncomputable def midpoint002 (e : EnhEntry) : JNum :=
  match e.hi with
  | .fin h => .fin ((mid002Q e.lo h : ℚ) : ℝ)
  | .inf => .inf

/-- The unit table of part_001. -/
def paramUnit : Param → String
  | .ph => ""
  | _ => "ppm"

open Classical in
/-- part_001 `determineStatusFromValue`, scan part: the first entry whose range
contains the value (`value >= min && (value < max || max === POSITIVE_INFINITY)`). -/
noncomputable def statusScan (value : JNum) : List CalEntry → Option WStatus
  | [] => none
  | e :: es =>
    if value.geQ e.lo ∧ (JNum.lt value (match e.hi with | .fin h => .fin ((h:ℚ):ℝ) | .inf => .inf) ∨ e.hi = QBound.inf)
    then some e.status
    else statusScan value es

open Classical in
/-- part_001 `determineStatusFromValue` with its below/above-all fallback. -/
noncomputable def determineStatusFromValue (value : JNum) (p : Param) : WStatus :=
  match statusScan value (COLOR_REFERENCES p) with
  | some s => s
  | none =>
    match COLOR_REFERENCES p with
    | [] => WStatus.low
    | first :: rest =>
      if JNum.lt value (.fin ((first.lo : ℚ) : ℝ)) then first.status
      else ((first :: rest).getLastD first).status

open Classical in
/-- The `value` local of part_001 `matchColorToValue` just after the branch on
the snap threshold (snap to the closest midpoint below distance 50 or with no
second entry, interpolate with inverted weights otherwise). -/
noncomputable def rgbRawValue (closest : Scored CalEntry) (rest : List (Scored CalEntry)) : JNum :=
  match rest with
  | [] => midpoint001 closest.ref
  | second :: _ =>
    if closest.distance < 50 then midpoint001 closest.ref
    else if 0 < closest.distance + second.distance then
      ((midpoint001 closest.ref).mulPos (second.distance / (closest.distance + second.distance))).add
        ((midpoint001 second.ref).mulPos (closest.distance / (closest.distance + second.distance)))
    else midpoint001 closest.ref

open Classical in
/-- The `value` local after the `!isFinite(value) || value < 0` repair; this is
the value that is finally rounded. -/
noncomputable def rgbFixedValue (closest : Scored CalEntry) (rest : List (Scored CalEntry)) : JNum :=
  if (rgbRawValue closest rest).isFinite = false ∨ JNum.lt (rgbRawValue closest rest) (.fin 0)
  then midpoint001 closest.ref
  else rgbRawValue closest rest

/-- Result record of part_001 `matchColorToValue`. -/
structure MatchResult where
  value : JNum
  status : WStatus
  unit : String
  confidence : ℝ

open Classical in
/-- part_001 `matchColorToValue`. -/
noncomputable def matchColorToValue (extractedColor : RGB) (p : Param) : MatchResult :=
  match scoredRefs extractedColor p with
  | [] => ⟨.fin 0, WStatus.low, "", 0⟩
  | closest :: rest =>
    let confidence : ℝ := max (3/10) (min 1 (1 - closest.distance / (44167/100)))
    let value := rgbFixedValue closest rest
    let status := closest.ref.status
    let finalStatus := determineStatusFromValue value p
    let status' := if finalStatus ≠ status then finalStatus else status
    ⟨roundTo1 value, status', paramUnit p, roundTo2 confidence⟩

/-- Result record of part_002 `matchColorToValueAdvanced`. -/
structure AdvMatchResult where
  value : JNum
  status : WStatus
  confidence : ℝ

open Classical in
/-- The `value` local of part_002 `matchColorToValueAdvanced` (snap threshold
30, no positivity guard and no finiteness repair). -/
noncomputable def advRawValue (closest : Scored EnhEntry) (rest : List (Scored EnhEntry)) : JNum :=
  match rest with
  | [] => midpoint002 closest.ref
  | second :: _ =>
    if closest.distance < 30 then midpoint002 closest.ref
    else
      ((midpoint002 closest.ref).mulPos (second.distance / (closest.distance + second.distance))).add
        ((midpoint002 second.ref).mulPos (closest.distance / (closest.distance + second.distance)))

open Classical in
/-- part_002 `matchColorToValueAdvanced`. -/
noncomputable def matchColorToValueAdvanced (extractedColor : RGB) (p : Param) : AdvMatchResult :=
  match scoredRefsAdv extractedColor p with
  | [] => ⟨.fin 0, WStatus.low, 0⟩
  | closest :: rest =>
    let confidence : ℝ := max (1/10) (min 1 (1 - closest.distance / 200))
    let value := advRawValue closest rest
    let status := closest.ref.status
    ⟨roundTo1 value, status, roundTo2 confidence⟩

/-- `q < b` for a rational against a range bound. -/
def qLtB (q : ℚ) : QBound → Prop
  | .fin h => q < h
  | .inf => True

instance (q : ℚ) : (b : QBound) → Decidable (qLtB q b)
  | .fin h => inferInstanceAs (Decidable (q < h))
  | .inf => isTrue trivial

/-- Computable shadow of `statusScan` for rational values. -/
def statusScanQ (q : ℚ) : List CalEntry → Option WStatus
  | [] => none
  | e :: es =>
    if e.lo ≤ q ∧ (qLtB q e.hi ∨ e.hi = QBound.inf)
    then some e.status
    else statusScanQ q es

/-- Computable shadow of `statusScan` for the value +∞. -/
def statusScanInf : List CalEntry → Option WStatus
  | [] => none
  | e :: es => if e.hi = QBound.inf then some e.status else statusScanInf es

theorem statusScan_fin (q : ℚ) (l : List CalEntry) :
    statusScan (.fin ((q : ℚ) : ℝ)) l = statusScanQ q l := by
  induction l with
  | nil => rfl
  | cons e es ih =>
    cases hhi : e.hi with
    | fin h =>
      simp only [statusScan, statusScanQ, hhi, JNum.geQ, JNum.lt, qLtB]
      rw [if_congr (and_congr Rat.cast_le (or_congr Rat.cast_lt Iff.rfl)) rfl ih]
    | inf =>
      simp only [statusScan, statusScanQ, hhi, JNum.geQ, JNum.lt, qLtB]
      rw [if_congr (and_congr Rat.cast_le Iff.rfl) rfl ih]

theorem statusScan_inf (l : List CalEntry) : statusScan .inf l = statusScanInf l := by
  induction l with
  | nil => rfl
  | cons e es ih =>
    cases hhi : e.hi with
    | fin h => simp [statusScan, statusScanInf, hhi, JNum.geQ, JNum.lt, ih]
    | inf => simp [statusScan, statusScanInf, hhi, JNum.geQ, JNum.lt]

/-- Computable shadow of `determineStatusFromValue` for rational values. -/
def determineStatusQ (q : ℚ) (p : Param) : WStatus :=
  match statusScanQ q (COLOR_REFERENCES p) with
  | some s => s
  | none =>
    match COLOR_REFERENCES p with
    | [] => WStatus.low
    | first :: rest =>
      if q < first.lo then first.status else ((first :: rest).getLastD first).status

/-- Computable shadow of `determineStatusFromValue` for the value +∞. -/
def determineStatusInfQ (p : Param) : WStatus :=
  match statusScanInf (COLOR_REFERENCES p) with
  | some s => s
  | none =>
    match COLOR_REFERENCES p with
    | [] => WStatus.low
    | first :: rest => ((first :: rest).getLastD first).status

theorem determineStatus_fin (q : ℚ) (p : Param) :
    determineStatusFromValue (.fin ((q : ℚ) : ℝ)) p = determineStatusQ q p := by
  unfold determineStatusFromValue determineStatusQ
  rw [statusScan_fin]
  cases statusScanQ q (COLOR_REFERENCES p) with
  | some s => rfl
  | none =>
    cases href : COLOR_REFERENCES p with
    | nil => rfl
    | cons first rest =>
      simp only [JNum.lt]
      rw [if_congr Rat.cast_lt rfl rfl]

theorem determineStatus_inf (p : Param) :
    determineStatusFromValue .inf p = determineStatusInfQ p := by
  unfold determineStatusFromValue determineStatusInfQ
  rw [statusScan_inf]
  cases statusScanInf (COLOR_REFERENCES p) with
  | some s => rfl
  | none =>
    cases href : COLOR_REFERENCES p with
    | nil => rfl
    | cons first rest =>
      simp only [JNum.lt]
      rw [if_neg not_false]

open List

theorem insertByDist_perm {α : Type} (x : Scored α) (l : List (Scored α)) :
    insertByDist x l ~ x :: l := by
  induction l with
  | nil => exact List.Perm.refl _
  | cons y ys ih =>
    unfold insertByDist
    by_cases h : y.distance ≤ x.distance
    · rw [if_pos h]
      exact (ih.cons y).trans (List.Perm.swap x y ys)
    · rw [if_neg h]

theorem foldl_insert_perm {α : Type} (l acc : List (Scored α)) :
    l.foldl (fun acc x => insertByDist x acc) acc ~ acc ++ l := by
  induction l generalizing acc with
  | nil => simp
  | cons x xs ih =>
    simp only [List.foldl_cons]
    calc xs.foldl (fun acc x => insertByDist x acc) (insertByDist x acc)
        ~ insertByDist x acc ++ xs := ih _
      _ ~ (x :: acc) ++ xs := (insertByDist_perm x acc).append_right xs
      _ ~ acc ++ x :: xs := List.perm_middle.symm

theorem sortByDist_perm {α : Type} (l : List (Scored α)) : sortByDist l ~ l := by
  have h := foldl_insert_perm l []
  simpa [sortByDist] using h

theorem insertByDist_sorted {α : Type} (x : Scored α) (l : List (Scored α))
    (h : l.Sorted (fun a b => a.distance ≤ b.distance)) :
    (insertByDist x l).Sorted (fun a b => a.distance ≤ b.distance) := by
  induction l with
  | nil => simp [insertByDist]
  | cons y ys ih =>
    rw [List.sorted_cons] at h
    unfold insertByDist
    by_cases hc : y.distance ≤ x.distance
    · rw [if_pos hc, List.sorted_cons]
      refine ⟨?_, ih h.2⟩
      intro z hz
      have hz2 := ((insertByDist_perm x ys).mem_iff).mp hz
      rw [List.mem_cons] at hz2
      rcases hz2 with hz1 | hz1
      · rw [hz1]; exact hc
      · exact h.1 z hz1
    · rw [if_neg hc, List.sorted_cons]
      refine ⟨?_, List.sorted_cons.mpr h⟩
      intro z hz
      rw [List.mem_cons] at hz
      rcases hz with hz1 | hz1
      · rw [hz1]; linarith [lt_of_not_le hc]
      · exact le_trans (le_of_not_le hc) (h.1 z hz1)

theorem sortByDist_sorted {α : Type} (l : List (Scored α)) :
    (sortByDist l).Sorted (fun a b => a.distance ≤ b.distance) := by
  suffices h : ∀ acc, acc.Sorted (fun a b => a.distance ≤ b.distance) →
      (l.foldl (fun acc x => insertByDist x acc) acc).Sorted (fun a b => a.distance ≤ b.distance) by
    exact h [] (by simp)
  induction l with
  | nil => intro acc hacc; simpa
  | cons x xs ih =>
    intro acc hacc
    simp only [List.foldl_cons]
    exact ih _ (insertByDist_sorted x acc hacc)

theorem sortByDist_head_le {α : Type} {l rest : List (Scored α)} {c : Scored α}
    (h : sortByDist l = c :: rest) : ∀ z ∈ l, c.distance ≤ z.distance := by
  intro z hz
  have hmem : z ∈ sortByDist l := ((sortByDist_perm l).mem_iff).mpr hz
  rw [h, List.mem_cons] at hmem
  rcases hmem with hmem | hmem
  · rw [hmem]
  · have hs := sortByDist_sorted l
    rw [h, List.sorted_cons] at hs
    exact hs.1 z hmem

theorem sortByDist_head_mem {α : Type} {l rest : List (Scored α)} {c : Scored α}
    (h : sortByDist l = c :: rest) : c ∈ l := by
  have : c ∈ sortByDist l := by rw [h]; exact List.mem_cons_self c rest
  exact ((sortByDist_perm l).mem_iff).mp this

theorem sortByDist_head_of_min {α : Type} {l : List (Scored α)} {x : Scored α}
    (hx : x ∈ l) (hmin : ∀ z ∈ l, z ≠ x → x.distance < z.distance) :
    ∃ rest, sortByDist l = x :: rest := by
  have hne : sortByDist l ≠ [] := by
    intro h0
    have hx2 : x ∈ sortByDist l := ((sortByDist_perm l).mem_iff).mpr hx
    rw [h0] at hx2
    exact absurd hx2 (List.not_mem_nil x)
  obtain ⟨c, rest, hsort⟩ := List.exists_cons_of_ne_nil hne
  refine ⟨rest, ?_⟩
  by_cases hcx : c = x
  · rw [hsort, hcx]
  · exfalso
    have h1 := hmin c (sortByDist_head_mem hsort) hcx
    have h2 := sortByDist_head_le hsort x hx
    linarith

theorem sortByDist_two {α : Type} {l : List (Scored α)} {x y : Scored α}
    (hnd : l.Pairwise (fun a b => a.idx ≠ b.idx)) (hx : x ∈ l) (hy : y ∈ l)
    (hxy : x.distance < y.distance)
    (hmin : ∀ z ∈ l, z ≠ x → z ≠ y → y.distance < z.distance) :
    ∃ rest, sortByDist l = x :: y :: rest := by
  obtain ⟨rest1, h1⟩ := sortByDist_head_of_min hx (fun z hz hzx => by
    by_cases hzy : z = y
    · rw [hzy]; exact hxy
    · exact lt_trans hxy (hmin z hz hzx hzy))
  have hyx : y ≠ x := by
    intro he
    rw [he] at hxy
    exact absurd hxy (lt_irrefl _)
  have hne2 : rest1 ≠ [] := by
    intro h0
    have hymem : y ∈ sortByDist l := ((sortByDist_perm l).mem_iff).mpr hy
    rw [h1, h0, List.mem_cons] at hymem
    rcases hymem with hz | hz
    · exact hyx hz
    · exact absurd hz (List.not_mem_nil y)
  obtain ⟨b, rest2, hr⟩ := List.exists_cons_of_ne_nil hne2
  refine ⟨rest2, ?_⟩
  rw [h1, hr]
  have hbmem : b ∈ l := by
    have hb0 : b ∈ sortByDist l := by
      rw [h1, hr]
      exact List.mem_cons_of_mem x (List.mem_cons_self b rest2)
    exact ((sortByDist_perm l).mem_iff).mp hb0
  have hsorted := sortByDist_sorted l
  rw [h1, hr, List.sorted_cons, List.sorted_cons] at hsorted
  have hymem : y ∈ sortByDist l := ((sortByDist_perm l).mem_iff).mpr hy
  rw [h1, hr, List.mem_cons, List.mem_cons] at hymem
  have hby : b.distance ≤ y.distance := by
    rcases hymem with hz | hz | hz
    · exact absurd hz hyx
    · rw [hz]
    · exact hsorted.2.1 y hz
  by_cases hbx : b = x
  · exfalso
    have hpair : (x :: b :: rest2).Pairwise (fun a b => a.idx ≠ b.idx) := by
      rw [← hr, ← h1]
      exact ((sortByDist_perm l).pairwise_iff (fun h => h.symm)).mpr hnd
    rw [List.pairwise_cons] at hpair
    exact hpair.1 b (List.mem_cons_self b rest2) (by rw [hbx])
  · by_cases hbyeq : b = y
    · rw [hbyeq]
    · exfalso
      have hyb := hmin b hbmem hbx hbyeq
      linarith

theorem sum3_sq_nonneg (x y z : ℚ) : 0 ≤ x * x + y * y + z * z := by
  nlinarith [mul_self_nonneg x, mul_self_nonneg y, mul_self_nonneg z]

theorem colorDistSq_nonneg (c1 c2 : RGB) : 0 ≤ colorDistSq c1 c2 := by
  unfold colorDistSq
  exact sum3_sq_nonneg _ _ _

theorem colorDistSq_comm (c1 c2 : RGB) : colorDistSq c1 c2 = colorDistSq c2 c1 := by
  unfold colorDistSq
  ring

theorem colorDistance_nonneg (c1 c2 : RGB) : 0 ≤ colorDistance c1 c2 :=
  Real.sqrt_nonneg _

theorem hsvDistSq_nonneg (a b : HSV) : 0 ≤ hsvDistSq a b := by
  unfold hsvDistSq
  exact sum3_sq_nonneg _ _ _

theorem hsvColorDistance_nonneg (a b : HSV) : 0 ≤ hsvColorDistance a b :=
  Real.sqrt_nonneg _

theorem colorDistance_lt_colorDistance {c a b : RGB} (h : colorDistSq c a < colorDistSq c b) :
    colorDistance c a < colorDistance c b := by
  apply Real.sqrt_lt_sqrt
  · exact_mod_cast colorDistSq_nonneg c a
  · exact_mod_cast h

theorem hsvColorDistance_lt_hsvColorDistance {c a b : HSV} (h : hsvDistSq c a < hsvDistSq c b) :
    hsvColorDistance c a < hsvColorDistance c b := by
  apply Real.sqrt_lt_sqrt
  · exact_mod_cast hsvDistSq_nonneg c a
  · exact_mod_cast h

theorem colorDistance_self (c : RGB) : colorDistance c c = 0 := by
  have h : colorDistSq c c = 0 := by unfold colorDistSq; ring
  rw [colorDistance, h]
  simp

theorem colorDistance_pos {c a : RGB} (h : colorDistSq c a ≠ 0) : 0 < colorDistance c a := by
  apply Real.sqrt_pos.mpr
  have h1 := colorDistSq_nonneg c a
  have h2 : 0 < colorDistSq c a := lt_of_le_of_ne h1 (Ne.symm h)
  exact_mod_cast h2

theorem colorDistance_eq_of_sq {c a : RGB} {q : ℚ} (hq : 0 ≤ q) (h : colorDistSq c a = q * q) :
    colorDistance c a = (q : ℝ) := by
  rw [colorDistance, h]
  rw [show ((q * q : ℚ) : ℝ) = (q : ℝ) ^ 2 by push_cast; ring]
  exact Real.sqrt_sq (by exact_mod_cast hq)

theorem scoreListRGB_mem_idx {c : RGB} {refs : List CalEntry} {i : ℕ} {z : Scored CalEntry}
    (hz : z ∈ scoreListRGB c refs i) :
    ∃ j, refs.get? j = some z.ref ∧ z.idx = i + j ∧ z.distance = colorDistance c z.ref.color := by
  induction refs generalizing i with
  | nil => simp [scoreListRGB] at hz
  | cons e es ih =>
    simp only [scoreListRGB, List.mem_cons] at hz
    rcases hz with hz | hz
    · subst hz
      exact ⟨0, rfl, rfl, rfl⟩
    · obtain ⟨j, hj1, hj2, hj3⟩ := ih hz
      exact ⟨j + 1, by simpa using hj1, by omega, hj3⟩

theorem scoreListRGB_mem_of_get? {c : RGB} {refs : List CalEntry} {e : CalEntry} {j : ℕ}
    (i : ℕ) (hj : refs.get? j = some e) :
    (⟨colorDistance c e.color, i + j, e⟩ : Scored CalEntry) ∈ scoreListRGB c refs i := by
  induction refs generalizing i j with
  | nil => simp at hj
  | cons a as ih =>
    cases j with
    | zero =>
      simp only [List.get?_cons_zero, Option.some.injEq] at hj
      subst hj
      exact List.mem_cons_self _ _
    | succ j =>
      simp only [List.get?_cons_succ] at hj
      have hmem := ih (i + 1) hj
      simp only [scoreListRGB]
      refine List.mem_cons_of_mem _ ?_
      have h2 : i + (j + 1) = i + 1 + j := by omega
      rw [h2]
      exact hmem

theorem scoreListRGB_idx_ge {c : RGB} {refs : List CalEntry} {i : ℕ} {z : Scored CalEntry}
    (hz : z ∈ scoreListRGB c refs i) : i ≤ z.idx := by
  obtain ⟨j, _, hj2, _⟩ := scoreListRGB_mem_idx hz
  omega

theorem scoreListRGB_pairwise (c : RGB) (refs : List CalEntry) (i : ℕ) :
    (scoreListRGB c refs i).Pairwise (fun a b => a.idx ≠ b.idx) := by
  induction refs generalizing i with
  | nil => simp [scoreListRGB]
  | cons e es ih =>
    simp only [scoreListRGB]
    refine List.Pairwise.cons ?_ (ih (i + 1))
    intro z hz
    have h1 := scoreListRGB_idx_ge hz
    dsimp only
    omega

theorem scoreListHSV_mem_idx {c : HSV} {refs : List EnhEntry} {i : ℕ} {z : Scored EnhEntry}
    (hz : z ∈ scoreListHSV c refs i) :
    ∃ j, refs.get? j = some z.ref ∧ z.idx = i + j ∧ z.distance = hsvColorDistance c z.ref.hsv := by
  induction refs generalizing i with
  | nil => simp [scoreListHSV] at hz
  | cons e es ih =>
    simp only [scoreListHSV, List.mem_cons] at hz
    rcases hz with hz | hz
    · subst hz
      exact ⟨0, rfl, rfl, rfl⟩
    · obtain ⟨j, hj1, hj2, hj3⟩ := ih hz
      exact ⟨j + 1, by simpa using hj1, by omega, hj3⟩

theorem scoreListHSV_mem_of_get? {c : HSV} {refs : List EnhEntry} {e : EnhEntry} {j : ℕ}
    (i : ℕ) (hj : refs.get? j = some e) :
    (⟨hsvColorDistance c e.hsv, i + j, e⟩ : Scored EnhEntry) ∈ scoreListHSV c refs i := by
  induction refs generalizing i j with
  | nil => simp at hj
  | cons a as ih =>
    cases j with
    | zero =>
      simp only [List.get?_cons_zero, Option.some.injEq] at hj
      subst hj
      exact List.mem_cons_self _ _
    | succ j =>
      simp only [List.get?_cons_succ] at hj
      have hmem := ih (i + 1) hj
      simp only [scoreListHSV]
      refine List.mem_cons_of_mem _ ?_
      have h2 : i + (j + 1) = i + 1 + j := by omega
      rw [h2]
      exact hmem

theorem scoreListHSV_idx_ge {c : HSV} {refs : List EnhEntry} {i : ℕ} {z : Scored EnhEntry}
    (hz : z ∈ scoreListHSV c refs i) : i ≤ z.idx := by
  obtain ⟨j, _, hj2, _⟩ := scoreListHSV_mem_idx hz
  omega

theorem scoreListHSV_pairwise (c : HSV) (refs : List EnhEntry) (i : ℕ) :
    (scoreListHSV c refs i).Pairwise (fun a b => a.idx ≠ b.idx) := by
  induction refs generalizing i with
  | nil => simp [scoreListHSV]
  | cons e es ih =>
    simp only [scoreListHSV]
    refine List.Pairwise.cons ?_ (ih (i + 1))
    intro z hz
    have h1 := scoreListHSV_idx_ge hz
    dsimp only
    omega

theorem pairwise_of_get? {α : Type} {R : α → α → Prop} {l : List α} (hp : l.Pairwise R)
    {j k : ℕ} {a b : α} (hjk : j < k) (hj : l.get? j = some a) (hk : l.get? k = some b) :
    R a b := by
  rw [List.get?_eq_some] at hj hk
  obtain ⟨hj1, hj2⟩ := hj
  obtain ⟨hk1, hk2⟩ := hk
  subst hj2
  subst hk2
  exact List.pairwise_iff_get.mp hp ⟨j, hj1⟩ ⟨k, hk1⟩ hjk

/-- Boolean check that a calibration range is well formed: nonnegative lower
bound, upper bound at least the lower bound. -/
def entryRangeOKB (e : CalEntry) : Bool :=
  decide (0 ≤ e.lo) &&
    (match e.hi with
     | .fin h => decide (e.lo ≤ h)
     | .inf => true)

/-- Boolean check that the midpoint of an entry is classified back to the
entry's own status by the status scan. -/
def midStatusOKB (p : Param) (e : CalEntry) : Bool :=
  match e.hi with
  | .fin h => decide (determineStatusQ (mid001Q e.lo h) p = e.status)
  | .inf => decide (determineStatusInfQ p = e.status)

theorem tables_range_ok : ∀ p : Param, ∀ e ∈ COLOR_REFERENCES p, entryRangeOKB e = true := by
  intro p
  cases p <;> decide

theorem tables_mid_status : ∀ p : Param, ∀ e ∈ COLOR_REFERENCES p, midStatusOKB p e = true := by
  intro p
  cases p <;> decide

theorem tables_colors_distinct : ∀ p : Param,
    (COLOR_REFERENCES p).Pairwise (fun a b => colorDistSq a.color b.color ≠ 0) := by
  intro p
  cases p <;> decide

theorem tables_ne_nil : ∀ p : Param, COLOR_REFERENCES p ≠ [] := by
  intro p
  cases p <;> decide

theorem tables_adv_ne_nil : ∀ p : Param, ENHANCED_COLOR_REFERENCES p ≠ [] := by
  intro p
  cases p <;> decide

theorem mid001Q_nonneg {lo h : ℚ} (h0 : 0 ≤ lo) (h1 : lo ≤ h) : 0 ≤ mid001Q lo h := by
  unfold mid001Q
  linarith

/-- A finite JS number lying (inclusively) between two reals. -/
def JNum.between (v : JNum) (a b : ℝ) : Prop :=
  match v with
  | .fin x => min a b ≤ x ∧ x ≤ max a b
  | .inf => False

open Classical in
/-- The matcher's pre-rounding value as a function of the input (the `value`
local of `matchColorToValue` just before `Math.round(value * 10) / 10`). -/
noncomputable def rgbPreRoundValue (c : RGB) (p : Param) : JNum :=
  match scoredRefs c p with
  | [] => .fin 0
  | closest :: rest => rgbFixedValue closest rest

theorem jsRoundR_mono {x y : ℝ} (h : x ≤ y) : jsRoundR x ≤ jsRoundR y :=
  Int.floor_mono (by linarith)

theorem roundTo2_mono {x y : ℝ} (h : x ≤ y) : roundTo2 x ≤ roundTo2 y := by
  unfold roundTo2
  have h2 : jsRoundR (x * 100) ≤ jsRoundR (y * 100) := jsRoundR_mono (by linarith)
  have h3 : ((jsRoundR (x * 100) : ℤ) : ℝ) ≤ ((jsRoundR (y * 100) : ℤ) : ℝ) := by exact_mod_cast h2
  linarith

theorem roundTo2_one : roundTo2 1 = 1 := by
  unfold roundTo2 jsRoundR
  have h : ⌊(1 : ℝ) * 100 + 1 / 2⌋ = 100 := by
    rw [Int.floor_eq_iff] <;> norm_num
  rw [h]
  norm_num

theorem confExpr_mono {lo k d1 d2 : ℝ} (hk : 0 < k) (h : d2 ≤ d1) :
    roundTo2 (max lo (min 1 (1 - d1 / k))) ≤ roundTo2 (max lo (min 1 (1 - d2 / k))) := by
  apply roundTo2_mono
  apply max_le_max le_rfl
  apply min_le_min le_rfl
  have h2 : d2 / k ≤ d1 / k := (div_le_div_right hk).mpr h
  linarith

theorem scoreListRGB_ne_nil {c : RGB} {refs : List CalEntry} {i : ℕ} (h : refs ≠ []) :
    scoreListRGB c refs i ≠ [] := by
  cases refs with
  | nil => exact absurd rfl h
  | cons e es => simp [scoreListRGB]

theorem scoreListHSV_ne_nil {c : HSV} {refs : List EnhEntry} {i : ℕ} (h : refs ≠ []) :
    scoreListHSV c refs i ≠ [] := by
  cases refs with
  | nil => exact absurd rfl h
  | cons e es => simp [scoreListHSV]

theorem scoredRefs_ne_nil (c : RGB) (p : Param) : scoredRefs c p ≠ [] := by
  intro h0
  have hp := (sortByDist_perm (scoreListRGB c (COLOR_REFERENCES p) 0)).symm
  rw [scoredRefs] at h0
  rw [h0] at hp
  exact scoreListRGB_ne_nil (tables_ne_nil p) hp.eq_nil

theorem scoredRefsAdv_ne_nil (c : RGB) (p : Param) : scoredRefsAdv c p ≠ [] := by
  intro h0
  have hp := (sortByDist_perm (scoreListHSV (rgbToHsv c) (ENHANCED_COLOR_REFERENCES p) 0)).symm
  rw [scoredRefsAdv] at h0
  rw [h0] at hp
  exact scoreListHSV_ne_nil (tables_adv_ne_nil p) hp.eq_nil

theorem JNum.add_inf (v : JNum) : v.add .inf = .inf := by
  cases v <;> rfl

theorem JNum.mulPos_inf (w : ℝ) : JNum.mulPos .inf w = .inf := rfl

theorem convex_between {m1 m2 d1 d2 : ℝ} (h1 : 0 < d1) (h2 : 0 ≤ d2) :
    min m1 m2 ≤ m1 * (d2 / (d1 + d2)) + m2 * (d1 / (d1 + d2)) ∧
    m1 * (d2 / (d1 + d2)) + m2 * (d1 / (d1 + d2)) ≤ max m1 m2 := by
  have htot : 0 < d1 + d2 := by linarith
  have hw1 : 0 ≤ d2 / (d1 + d2) := div_nonneg h2 htot.le
  have hw2 : 0 ≤ d1 / (d1 + d2) := div_nonneg h1.le htot.le
  have hsum : d2 / (d1 + d2) + d1 / (d1 + d2) = 1 := by
    field_simp
    ring
  constructor
  · rcases le_total m1 m2 with h | h
    · rw [min_eq_left h]
      have hmul := mul_le_mul_of_nonneg_right h hw2
      have hd : m1 * (d2 / (d1 + d2)) + m1 * (d1 / (d1 + d2)) = m1 := by
        rw [← mul_add, hsum, mul_one]
      linarith
    · rw [min_eq_right h]
      have hmul := mul_le_mul_of_nonneg_right h hw1
      have hd : m2 * (d2 / (d1 + d2)) + m2 * (d1 / (d1 + d2)) = m2 := by
        rw [← mul_add, hsum, mul_one]
      linarith
  · rcases le_total m1 m2 with h | h
    · rw [max_eq_right h]
      have hmul := mul_le_mul_of_nonneg_right h hw1
      have hd : m2 * (d2 / (d1 + d2)) + m2 * (d1 / (d1 + d2)) = m2 := by
        rw [← mul_add, hsum, mul_one]
      linarith
    · rw [max_eq_left h]
      have hmul := mul_le_mul_of_nonneg_right h hw2
      have hd : m1 * (d2 / (d1 + d2)) + m1 * (d1 / (d1 + d2)) = m1 := by
        rw [← mul_add, hsum, mul_one]
      linarith

theorem matchColorToValue_exact (p : Param) (e : CalEntry) (he : e ∈ COLOR_REFERENCES p) :
    matchColorToValue e.color p = ⟨roundTo1 (midpoint001 e), e.status, paramUnit p, 1⟩ := by
  obtain ⟨k, hk⟩ := List.get?_of_mem he
  have hd0 : colorDistance e.color e.color = 0 := colorDistance_self e.color
  have hx : (⟨colorDistance e.color e.color, 0 + k, e⟩ : Scored CalEntry)
      ∈ scoreListRGB e.color (COLOR_REFERENCES p) 0 := scoreListRGB_mem_of_get? 0 hk
  have hmin : ∀ z ∈ scoreListRGB e.color (COLOR_REFERENCES p) 0,
      z ≠ (⟨colorDistance e.color e.color, 0 + k, e⟩ : Scored CalEntry) →
      (⟨colorDistance e.color e.color, 0 + k, e⟩ : Scored CalEntry).distance < z.distance := by
    intro z hz hne
    obtain ⟨j, hj1, hj2, hj3⟩ := scoreListRGB_mem_idx hz
    dsimp only
    rw [hd0, hj3]
    by_cases hjk : j = k
    · exfalso
      apply hne
      subst hjk
      rw [hk] at hj1
      have hje : e = z.ref := by injection hj1
      obtain ⟨zd, zi, zr⟩ := z
      dsimp only at hje hj2 hj3 ⊢
      rw [hj3, hj2, ← hje]
    · apply colorDistance_pos
      intro hcd
      rcases Nat.lt_or_ge j k with hlt | hge
      · exact pairwise_of_get? (tables_colors_distinct p) hlt hj1 hk
          (by rw [colorDistSq_comm] at hcd; exact hcd)
      · have hlt2 : k < j := lt_of_le_of_ne hge (Ne.symm hjk)
        exact pairwise_of_get? (tables_colors_distinct p) hlt2 hk hj1 hcd
  obtain ⟨rest, hsort⟩ := sortByDist_head_of_min hx hmin
  have hsort' : scoredRefs e.color p = ⟨colorDistance e.color e.color, 0 + k, e⟩ :: rest := hsort
  have hraw : rgbRawValue ⟨colorDistance e.color e.color, 0 + k, e⟩ rest = midpoint001 e := by
    cases rest with
    | nil => rfl
    | cons s r2 =>
      simp only [rgbRawValue]
      rw [if_pos]
      dsimp only
      rw [hd0]
      norm_num
  have hfix : rgbFixedValue ⟨colorDistance e.color e.color, 0 + k, e⟩ rest = midpoint001 e := by
    unfold rgbFixedValue
    rw [hraw]
    dsimp only
    exact ite_self _
  have hms := tables_mid_status p e he
  have hstat : determineStatusFromValue (midpoint001 e) p = e.status := by
    cases hhi : e.hi with
    | fin h =>
      have h1 : midpoint001 e = .fin ((mid001Q e.lo h : ℚ) : ℝ) := by
        simp only [midpoint001, hhi]
      rw [h1, determineStatus_fin]
      simp only [midStatusOKB, hhi] at hms
      exact of_decide_eq_true hms
    | inf =>
      have h1 : midpoint001 e = .inf := by simp only [midpoint001, hhi]
      rw [h1, determineStatus_inf]
      simp only [midStatusOKB, hhi] at hms
      exact of_decide_eq_true hms
  simp only [matchColorToValue, hsort']
  rw [hfix, hstat, hd0]
  rw [ite_self]
  have hconf : (max ((3:ℝ)/10) (min 1 (1 - 0 / (44167/100)))) = 1 := by norm_num
  rw [hconf, roundTo2_one]

theorem hsvDistSq_comm (a b : HSV) : hsvDistSq a b = hsvDistSq b a := by
  simp only [hsvDistSq]
  rw [abs_sub_comm a.h b.h, abs_sub_comm a.s b.s, abs_sub_comm a.v b.v, min_comm a.s b.s]

theorem hsvColorDistance_self (a : HSV) : hsvColorDistance a a = 0 := by
  have h : hsvDistSq a a = 0 := by
    simp [hsvDistSq]
  rw [hsvColorDistance, h]
  simp

theorem hsvColorDistance_pos {a b : HSV} (h : hsvDistSq a b ≠ 0) :
    0 < hsvColorDistance a b := by
  apply Real.sqrt_pos.mpr
  have h1 := hsvDistSq_nonneg a b
  have h2 : 0 < hsvDistSq a b := lt_of_le_of_ne h1 (Ne.symm h)
  exact_mod_cast h2

theorem tables_hsv_distinct : ∀ p : Param,
    (ENHANCED_COLOR_REFERENCES p).Pairwise (fun a b => hsvDistSq a.hsv b.hsv ≠ 0) := by
  intro p
  cases p <;> decide

theorem matchColorToValueAdvanced_exact (p : Param) (e : EnhEntry) (c : RGB)
    (he : e ∈ ENHANCED_COLOR_REFERENCES p) (hc : rgbToHsv c = e.hsv) :
    matchColorToValueAdvanced c p = ⟨roundTo1 (midpoint002 e), e.status, 1⟩ := by
  obtain ⟨k, hk⟩ := List.get?_of_mem he
  have hd0 : hsvColorDistance (rgbToHsv c) e.hsv = 0 := by
    rw [hc]
    exact hsvColorDistance_self e.hsv
  have hx : (⟨hsvColorDistance (rgbToHsv c) e.hsv, 0 + k, e⟩ : Scored EnhEntry)
      ∈ scoreListHSV (rgbToHsv c) (ENHANCED_COLOR_REFERENCES p) 0 :=
    scoreListHSV_mem_of_get? 0 hk
  have hmin : ∀ z ∈ scoreListHSV (rgbToHsv c) (ENHANCED_COLOR_REFERENCES p) 0,
      z ≠ (⟨hsvColorDistance (rgbToHsv c) e.hsv, 0 + k, e⟩ : Scored EnhEntry) →
      (⟨hsvColorDistance (rgbToHsv c) e.hsv, 0 + k, e⟩ : Scored EnhEntry).distance <
        z.distance := by
    intro z hz hne
    obtain ⟨j, hj1, hj2, hj3⟩ := scoreListHSV_mem_idx hz
    dsimp only
    rw [hd0, hj3]
    by_cases hjk : j = k
    · exfalso
      apply hne
      subst hjk
      rw [hk] at hj1
      have hje : e = z.ref := by injection hj1
      obtain ⟨zd, zi, zr⟩ := z
      dsimp only at hje hj2 hj3 ⊢
      rw [hj3, hj2, ← hje]
    · rw [hc]
      apply hsvColorDistance_pos
      intro hcd
      rcases Nat.lt_or_ge j k with hlt | hge
      · exact pairwise_of_get? (tables_hsv_distinct p) hlt hj1 hk
          (by rw [hsvDistSq_comm] at hcd; exact hcd)
      · have hlt2 : k < j := lt_of_le_of_ne hge (Ne.symm hjk)
        exact pairwise_of_get? (tables_hsv_distinct p) hlt2 hk hj1 hcd
  obtain ⟨rest, hsort⟩ := sortByDist_head_of_min hx hmin
  have hsort' : scoredRefsAdv c p =
      (⟨hsvColorDistance (rgbToHsv c) e.hsv, 0 + k, e⟩ : Scored EnhEntry) :: rest := hsort
  have hraw : advRawValue ⟨hsvColorDistance (rgbToHsv c) e.hsv, 0 + k, e⟩ rest =
      midpoint002 e := by
    cases rest with
    | nil => rfl
    | cons s r2 =>
      simp only [advRawValue]
      rw [if_pos]
      dsimp only
      rw [hd0]
      norm_num
  simp only [matchColorToValueAdvanced, hsort']
  rw [hraw, hd0]
  have hconf : (max ((1:ℝ)/10) (min 1 (1 - 0 / 200))) = 1 := by norm_num
  rw [hconf, roundTo2_one]

/-- C5 (amended): for every parameter, a sampled color exactly equal to a
calibration entry's reference color (distance 0, below every snap threshold)
yields the midpoint of that entry's range rounded to one decimal place as
value, the entry's own status, and the variant's maximal confidence 1 — in the
RGB-space matcher for an exact hit of an RGB reference, and in the HSV-space
matcher for a sample whose conversion equals an entry's HSV reference. -/
theorem C5_exact_reference_hit (p : Param)
    (e : CalEntry) (he : e ∈ COLOR_REFERENCES p)
    (e2 : EnhEntry) (he2 : e2 ∈ ENHANCED_COLOR_REFERENCES p)
    (c2 : RGB) (hc2 : rgbToHsv c2 = e2.hsv) :
    matchColorToValue e.color p = ⟨roundTo1 (midpoint001 e), e.status, paramUnit p, 1⟩ ∧
    matchColorToValueAdvanced c2 p = ⟨roundTo1 (midpoint002 e2), e2.status, 1⟩ :=
  ⟨matchColorToValue_exact p e he, matchColorToValueAdvanced_exact p e2 c2 he2 hc2⟩

theorem C5_exact_reference_hit_witness :
    matchColorToValue (⟨255, 255, 0⟩ : RGB) Param.ph =
      ⟨roundTo1 (midpoint001 ⟨31/5, QBound.fin (34/5), ⟨255, 255, 0⟩, WStatus.low⟩),
        WStatus.low, paramUnit Param.ph, 1⟩ ∧
    matchColorToValueAdvanced (⟨255, 255, 0⟩ : RGB) Param.ph =
      ⟨roundTo1 (midpoint002 ⟨31/5, QBound.fin (34/5), ⟨60, 100, 100⟩, WStatus.low⟩),
        WStatus.low, 1⟩ :=
  C5_exact_reference_hit Param.ph
    ⟨31/5, QBound.fin (34/5), ⟨255, 255, 0⟩, WStatus.low⟩ (by decide)
    ⟨31/5, QBound.fin (34/5), ⟨60, 100, 100⟩, WStatus.low⟩ (by decide)
    ⟨255, 255, 0⟩ (by decide)


/-- C5 counterexample: the value returned for an exact reference hit is the
range midpoint rounded to one decimal place, not the midpoint itself — for the
first freeChlorine range the midpoint 0.25 is returned as 0.3. -/
theorem C5_counterexample :
    ¬ (∀ (p : Param) (e : CalEntry), e ∈ COLOR_REFERENCES p →
        (matchColorToValue e.color p).value = midpoint001 e) := by
  intro hall
  have h := hall Param.freeChlorine ⟨0, QBound.fin (1/2), ⟨255, 255, 240⟩, WStatus.low⟩
    (by decide)
  rw [matchColorToValue_exact Param.freeChlorine
    ⟨0, QBound.fin (1/2), ⟨255, 255, 240⟩, WStatus.low⟩ (by decide)] at h
  have h1 : midpoint001 (⟨0, QBound.fin (1/2), ⟨255, 255, 240⟩, WStatus.low⟩ : CalEntry) =
      .fin ((1/4 : ℚ) : ℝ) := by
    simp only [midpoint001]
    norm_num [mid001Q]
  rw [h1] at h
  dsimp only at h
  have h2 : roundTo1 (JNum.fin ((1/4 : ℚ) : ℝ)) = .fin ((3 : ℝ)/10) := by
    simp only [roundTo1, jsRoundR]
    have h3 : ⌊((1/4 : ℚ) : ℝ) * 10 + 1/2⌋ = 3 := by
      rw [Int.floor_eq_iff]
      constructor <;> push_cast <;> norm_num
    rw [h3]
    norm_num
  rw [h2] at h
  have h4 : ((3:ℝ)/10) = ((1/4 : ℚ) : ℝ) := by injection h
  norm_num at h4

/-- C2 (amended): in the interpolation branch (closest distance at or above the
snap threshold and a second entry present) the HSV-space matcher's value is
exactly the inverse-distance-weighted combination of the two closest midpoints,
with the closer entry receiving the larger weight; the RGB-space matcher's
pre-rounding value equals the same combination provided both involved midpoints
are finite and nonnegative (otherwise its `!isFinite || < 0` repair replaces
the combination by the closest entry's midpoint). -/
theorem C2_interpolation_weights
    (closest second : Scored CalEntry) (rest : List (Scored CalEntry))
    (aclosest asecond : Scored EnhEntry) (arest : List (Scored EnhEntry))
    (hd2 : 0 ≤ second.distance) (hs : ¬ closest.distance < 50)
    (m1 m2 : ℝ) (hm1 : midpoint001 closest.ref = .fin m1)
    (hm2 : midpoint001 second.ref = .fin m2)
    (hm1n : 0 ≤ m1) (hm2n : 0 ≤ m2)
    (has : ¬ aclosest.distance < 30) :
    rgbFixedValue closest (second :: rest) =
      ((midpoint001 closest.ref).mulPos (second.distance / (closest.distance + second.distance))).add
        ((midpoint001 second.ref).mulPos (closest.distance / (closest.distance + second.distance))) ∧
    advRawValue aclosest (asecond :: arest) =
      ((midpoint002 aclosest.ref).mulPos (asecond.distance / (aclosest.distance + asecond.distance))).add
        ((midpoint002 asecond.ref).mulPos (aclosest.distance / (aclosest.distance + asecond.distance))) := by
  have hd1 : (50:ℝ) ≤ closest.distance := le_of_not_lt hs
  have htot : 0 < closest.distance + second.distance := by linarith
  constructor
  · have hraw : rgbRawValue closest (second :: rest) =
        ((midpoint001 closest.ref).mulPos (second.distance / (closest.distance + second.distance))).add
          ((midpoint001 second.ref).mulPos (closest.distance / (closest.distance + second.distance))) := by
      simp only [rgbRawValue]
      rw [if_neg hs, if_pos htot]
    have hw1 : 0 ≤ second.distance / (closest.distance + second.distance) :=
      div_nonneg hd2 htot.le
    have hw2 : 0 ≤ closest.distance / (closest.distance + second.distance) :=
      div_nonneg (by linarith) htot.le
    unfold rgbFixedValue
    rw [hraw, hm1, hm2]
    simp only [JNum.mulPos, JNum.add, JNum.isFinite, JNum.lt, Bool.true_eq_false, false_or]
    rw [if_neg (not_lt.mpr (add_nonneg (mul_nonneg hm1n hw1) (mul_nonneg hm2n hw2)))]
  · simp only [advRawValue]
    rw [if_neg has]

theorem C2_interpolation_weights_witness :
    rgbFixedValue ⟨60, 0, ⟨31/5, QBound.fin (34/5), ⟨255, 255, 0⟩, WStatus.low⟩⟩
        [⟨80, 1, ⟨34/5, QBound.fin (36/5), ⟨255, 220, 50⟩, WStatus.ok⟩⟩] =
      ((midpoint001 ⟨31/5, QBound.fin (34/5), ⟨255, 255, 0⟩, WStatus.low⟩).mulPos
          ((80:ℝ) / (60 + 80))).add
        ((midpoint001 ⟨34/5, QBound.fin (36/5), ⟨255, 220, 50⟩, WStatus.ok⟩).mulPos
          ((60:ℝ) / (60 + 80))) ∧
    advRawValue ⟨35, 0, ⟨31/5, QBound.fin (34/5), ⟨60, 100, 100⟩, WStatus.low⟩⟩
        [⟨40, 1, ⟨34/5, QBound.fin 7, ⟨50, 80, 90⟩, WStatus.low⟩⟩] =
      ((midpoint002 ⟨31/5, QBound.fin (34/5), ⟨60, 100, 100⟩, WStatus.low⟩).mulPos
          ((40:ℝ) / (35 + 40))).add
        ((midpoint002 ⟨34/5, QBound.fin 7, ⟨50, 80, 90⟩, WStatus.low⟩).mulPos
          ((35:ℝ) / (35 + 40))) :=
  C2_interpolation_weights
    ⟨60, 0, ⟨31/5, QBound.fin (34/5), ⟨255, 255, 0⟩, WStatus.low⟩⟩
    ⟨80, 1, ⟨34/5, QBound.fin (36/5), ⟨255, 220, 50⟩, WStatus.ok⟩⟩ []
    ⟨35, 0, ⟨31/5, QBound.fin (34/5), ⟨60, 100, 100⟩, WStatus.low⟩⟩
    ⟨40, 1, ⟨34/5, QBound.fin 7, ⟨50, 80, 90⟩, WStatus.low⟩⟩ []
    (by norm_num) (by norm_num)
    ((mid001Q (31/5) (34/5) : ℚ) : ℝ) ((mid001Q (34/5) (36/5) : ℚ) : ℝ)
    rfl rfl
    (by norm_num [mid001Q]) (by norm_num [mid001Q])
    (by norm_num)

/-- C2 counterexample: for the sampled color (240,180,20) on freeChlorine the
closest entry (distance 60, at or above the snap threshold) is interpolated
with the last entry, whose range midpoint is +∞; the claimed weighted formula
yields +∞, but the matcher's `!isFinite || < 0` repair returns the closest
entry's midpoint 7.5 instead, so the claimed equation fails. -/
theorem C2_counterexample :
    ¬ (∀ (c : RGB) (p : Param) (closest second : Scored CalEntry)
        (rest : List (Scored CalEntry)),
        scoredRefs c p = closest :: second :: rest → ¬ closest.distance < 50 →
        rgbFixedValue closest (second :: rest) =
          ((midpoint001 closest.ref).mulPos
              (second.distance / (closest.distance + second.distance))).add
            ((midpoint001 second.ref).mulPos
              (closest.distance / (closest.distance + second.distance)))) := by
  intro hall
  have hl : scoreListRGB ⟨240, 180, 20⟩ (COLOR_REFERENCES Param.freeChlorine) 0 =
      [⟨colorDistance ⟨240, 180, 20⟩ ⟨255, 255, 240⟩, 0, ⟨0, QBound.fin (1/2), ⟨255, 255, 240⟩, WStatus.low⟩⟩,
       ⟨colorDistance ⟨240, 180, 20⟩ ⟨255, 220, 200⟩, 1, ⟨1/2, QBound.fin 1, ⟨255, 220, 200⟩, WStatus.low⟩⟩,
       ⟨colorDistance ⟨240, 180, 20⟩ ⟨255, 240, 150⟩, 2, ⟨1, QBound.fin 3, ⟨255, 240, 150⟩, WStatus.ok⟩⟩,
       ⟨colorDistance ⟨240, 180, 20⟩ ⟨255, 220, 100⟩, 3, ⟨3, QBound.fin 5, ⟨255, 220, 100⟩, WStatus.high⟩⟩,
       ⟨colorDistance ⟨240, 180, 20⟩ ⟨240, 180, 80⟩, 4, ⟨5, QBound.fin 10, ⟨240, 180, 80⟩, WStatus.high⟩⟩,
       ⟨colorDistance ⟨240, 180, 20⟩ ⟨200, 140, 60⟩, 5, ⟨10, QBound.inf, ⟨200, 140, 60⟩, WStatus.high⟩⟩] := by
    simp only [COLOR_REFERENCES, scoreListRGB]
  have h60 : colorDistance ⟨240, 180, 20⟩ ⟨240, 180, 80⟩ = (60:ℝ) :=
    colorDistance_eq_of_sq (by norm_num) (by decide)
  have hx : (⟨colorDistance ⟨240, 180, 20⟩ ⟨240, 180, 80⟩, 4,
      ⟨5, QBound.fin 10, ⟨240, 180, 80⟩, WStatus.high⟩⟩ : Scored CalEntry)
      ∈ scoreListRGB ⟨240, 180, 20⟩ (COLOR_REFERENCES Param.freeChlorine) 0 := by
    rw [hl]
    exact List.mem_cons_of_mem _ (List.mem_cons_of_mem _ (List.mem_cons_of_mem _
      (List.mem_cons_of_mem _ (List.mem_cons_self _ _))))
  have hy : (⟨colorDistance ⟨240, 180, 20⟩ ⟨200, 140, 60⟩, 5,
      ⟨10, QBound.inf, ⟨200, 140, 60⟩, WStatus.high⟩⟩ : Scored CalEntry)
      ∈ scoreListRGB ⟨240, 180, 20⟩ (COLOR_REFERENCES Param.freeChlorine) 0 := by
    rw [hl]
    exact List.mem_cons_of_mem _ (List.mem_cons_of_mem _ (List.mem_cons_of_mem _
      (List.mem_cons_of_mem _ (List.mem_cons_of_mem _ (List.mem_cons_self _ _)))))
  have hxy : (⟨colorDistance ⟨240, 180, 20⟩ ⟨240, 180, 80⟩, 4,
      ⟨5, QBound.fin 10, ⟨240, 180, 80⟩, WStatus.high⟩⟩ : Scored CalEntry).distance <
      (⟨colorDistance ⟨240, 180, 20⟩ ⟨200, 140, 60⟩, 5,
      ⟨10, QBound.inf, ⟨200, 140, 60⟩, WStatus.high⟩⟩ : Scored CalEntry).distance :=
    colorDistance_lt_colorDistance (by decide)
  have hmin : ∀ z ∈ scoreListRGB ⟨240, 180, 20⟩ (COLOR_REFERENCES Param.freeChlorine) 0,
      z ≠ (⟨colorDistance ⟨240, 180, 20⟩ ⟨240, 180, 80⟩, 4,
        ⟨5, QBound.fin 10, ⟨240, 180, 80⟩, WStatus.high⟩⟩ : Scored CalEntry) →
      z ≠ (⟨colorDistance ⟨240, 180, 20⟩ ⟨200, 140, 60⟩, 5,
        ⟨10, QBound.inf, ⟨200, 140, 60⟩, WStatus.high⟩⟩ : Scored CalEntry) →
      (⟨colorDistance ⟨240, 180, 20⟩ ⟨200, 140, 60⟩, 5,
        ⟨10, QBound.inf, ⟨200, 140, 60⟩, WStatus.high⟩⟩ : Scored CalEntry).distance < z.distance := by
    intro z hz hne1 hne2
    rw [hl] at hz
    simp only [List.mem_cons, List.not_mem_nil, or_false] at hz
    rcases hz with rfl | rfl | rfl | rfl | rfl | rfl
    · exact colorDistance_lt_colorDistance (by decide)
    · exact colorDistance_lt_colorDistance (by decide)
    · exact colorDistance_lt_colorDistance (by decide)
    · exact colorDistance_lt_colorDistance (by decide)
    · exact absurd rfl hne1
    · exact absurd rfl hne2
  obtain ⟨rest, hsort⟩ := sortByDist_two
    (scoreListRGB_pairwise ⟨240, 180, 20⟩ (COLOR_REFERENCES Param.freeChlorine) 0)
    hx hy hxy hmin
  have hsort' : scoredRefs ⟨240, 180, 20⟩ Param.freeChlorine =
      (⟨colorDistance ⟨240, 180, 20⟩ ⟨240, 180, 80⟩, 4,
        ⟨5, QBound.fin 10, ⟨240, 180, 80⟩, WStatus.high⟩⟩ : Scored CalEntry) ::
      (⟨colorDistance ⟨240, 180, 20⟩ ⟨200, 140, 60⟩, 5,
        ⟨10, QBound.inf, ⟨200, 140, 60⟩, WStatus.high⟩⟩ : Scored CalEntry) :: rest := hsort
  have hns : ¬ colorDistance ⟨240, 180, 20⟩ ⟨240, 180, 80⟩ < (50:ℝ) := by
    rw [h60]
    norm_num
  have h := hall ⟨240, 180, 20⟩ Param.freeChlorine _ _ rest hsort' hns
  have hm5 : midpoint001 (⟨10, QBound.inf, ⟨200, 140, 60⟩, WStatus.high⟩ : CalEntry) =
      JNum.inf := rfl
  dsimp only at h
  rw [hm5, JNum.mulPos_inf, JNum.add_inf] at h
  have hpos : 0 < colorDistance ⟨240, 180, 20⟩ ⟨240, 180, 80⟩ +
      colorDistance ⟨240, 180, 20⟩ ⟨200, 140, 60⟩ := by
    rw [h60]
    have h2 := colorDistance_nonneg ⟨240, 180, 20⟩ ⟨200, 140, 60⟩
    linarith
  have hraw : rgbRawValue
      (⟨colorDistance ⟨240, 180, 20⟩ ⟨240, 180, 80⟩, 4,
        ⟨5, QBound.fin 10, ⟨240, 180, 80⟩, WStatus.high⟩⟩ : Scored CalEntry)
      ((⟨colorDistance ⟨240, 180, 20⟩ ⟨200, 140, 60⟩, 5,
        ⟨10, QBound.inf, ⟨200, 140, 60⟩, WStatus.high⟩⟩ : Scored CalEntry) :: rest) =
      JNum.inf := by
    simp only [rgbRawValue]
    rw [if_neg hns, if_pos hpos]
    rw [hm5, JNum.mulPos_inf, JNum.add_inf]
  have hfix : rgbFixedValue
      (⟨colorDistance ⟨240, 180, 20⟩ ⟨240, 180, 80⟩, 4,
        ⟨5, QBound.fin 10, ⟨240, 180, 80⟩, WStatus.high⟩⟩ : Scored CalEntry)
      ((⟨colorDistance ⟨240, 180, 20⟩ ⟨200, 140, 60⟩, 5,
        ⟨10, QBound.inf, ⟨200, 140, 60⟩, WStatus.high⟩⟩ : Scored CalEntry) :: rest) =
      JNum.fin ((mid001Q 5 10 : ℚ) : ℝ) := by
    unfold rgbFixedValue
    rw [hraw]
    rw [if_pos (Or.inl (show JNum.isFinite JNum.inf = false from rfl))]
    rfl
  rw [hfix] at h
  exact JNum.noConfusion h

/-- C10: whenever the interpolation branch is taken (closest distance at or
above the snap threshold, second entry present) and both involved range
midpoints are finite, the matcher's pre-rounding value lies between the smaller
and the larger of the two midpoints inclusive, in both the RGB-space variant
(after its repair step) and the HSV-space variant. -/
theorem C10_value_between_midpoints
    (closest second : Scored CalEntry) (rest : List (Scored CalEntry))
    (aclosest asecond : Scored EnhEntry) (arest : List (Scored EnhEntry))
    (hd2 : 0 ≤ second.distance) (hs : ¬ closest.distance < 50)
    (m1 m2 : ℝ) (hm1 : midpoint001 closest.ref = .fin m1)
    (hm2 : midpoint001 second.ref = .fin m2)
    (had2 : 0 ≤ asecond.distance) (has : ¬ aclosest.distance < 30)
    (n1 n2 : ℝ) (hn1 : midpoint002 aclosest.ref = .fin n1)
    (hn2 : midpoint002 asecond.ref = .fin n2) :
    (rgbFixedValue closest (second :: rest)).between m1 m2 ∧
    (advRawValue aclosest (asecond :: arest)).between n1 n2 := by
  constructor
  · have hd1 : (50:ℝ) ≤ closest.distance := le_of_not_lt hs
    have htot : 0 < closest.distance + second.distance := by linarith
    have hraw : rgbRawValue closest (second :: rest) =
        .fin (m1 * (second.distance / (closest.distance + second.distance)) +
          m2 * (closest.distance / (closest.distance + second.distance))) := by
      simp only [rgbRawValue]
      rw [if_neg hs, if_pos htot, hm1, hm2]
      rfl
    unfold rgbFixedValue
    rw [hraw]
    simp only [JNum.isFinite, JNum.lt, Bool.true_eq_false, false_or]
    by_cases hneg : m1 * (second.distance / (closest.distance + second.distance)) +
        m2 * (closest.distance / (closest.distance + second.distance)) < 0
    · rw [if_pos hneg, hm1]
      exact ⟨min_le_left m1 m2, le_max_left m1 m2⟩
    · rw [if_neg hneg]
      exact convex_between (by linarith) hd2
  · have ha1 : (30:ℝ) ≤ aclosest.distance := le_of_not_lt has
    have hraw : advRawValue aclosest (asecond :: arest) =
        .fin (n1 * (asecond.distance / (aclosest.distance + asecond.distance)) +
          n2 * (aclosest.distance / (aclosest.distance + asecond.distance))) := by
      simp only [advRawValue]
      rw [if_neg has, hn1, hn2]
      rfl
    rw [hraw]
    exact convex_between (by linarith) had2

theorem C10_value_between_midpoints_witness :
    (rgbFixedValue ⟨60, 0, ⟨31/5, QBound.fin (34/5), ⟨255, 255, 0⟩, WStatus.low⟩⟩
        [⟨80, 1, ⟨34/5, QBound.fin (36/5), ⟨255, 220, 50⟩, WStatus.ok⟩⟩]).between
      ((mid001Q (31/5) (34/5) : ℚ) : ℝ) ((mid001Q (34/5) (36/5) : ℚ) : ℝ) ∧
    (advRawValue ⟨35, 0, ⟨31/5, QBound.fin (34/5), ⟨60, 100, 100⟩, WStatus.low⟩⟩
        [⟨40, 1, ⟨34/5, QBound.fin 7, ⟨50, 80, 90⟩, WStatus.low⟩⟩]).between
      ((mid002Q (31/5) (34/5) : ℚ) : ℝ) ((mid002Q (34/5) 7 : ℚ) : ℝ) :=
  C10_value_between_midpoints
    ⟨60, 0, ⟨31/5, QBound.fin (34/5), ⟨255, 255, 0⟩, WStatus.low⟩⟩
    ⟨80, 1, ⟨34/5, QBound.fin (36/5), ⟨255, 220, 50⟩, WStatus.ok⟩⟩ []
    ⟨35, 0, ⟨31/5, QBound.fin (34/5), ⟨60, 100, 100⟩, WStatus.low⟩⟩
    ⟨40, 1, ⟨34/5, QBound.fin 7, ⟨50, 80, 90⟩, WStatus.low⟩⟩ []
    (by norm_num) (by norm_num)
    ((mid001Q (31/5) (34/5) : ℚ) : ℝ) ((mid001Q (34/5) (36/5) : ℚ) : ℝ) rfl rfl
    (by norm_num) (by norm_num)
    ((mid002Q (31/5) (34/5) : ℚ) : ℝ) ((mid002Q (34/5) 7 : ℚ) : ℝ) rfl rfl

theorem colorDistance_lt_of_sq_lt {c1 a c2 b : RGB} (h : colorDistSq c1 a < colorDistSq c2 b) :
    colorDistance c1 a < colorDistance c2 b := by
  apply Real.sqrt_lt_sqrt
  · exact_mod_cast colorDistSq_nonneg c1 a
  · exact_mod_cast h

theorem hsvColorDistance_lt_of_sq_lt {c1 a c2 b : HSV} (h : hsvDistSq c1 a < hsvDistSq c2 b) :
    hsvColorDistance c1 a < hsvColorDistance c2 b := by
  apply Real.sqrt_lt_sqrt
  · exact_mod_cast hsvDistSq_nonneg c1 a
  · exact_mod_cast h

/-- C8: for a fixed parameter, if one sampled color is strictly farther than
another from every calibration reference of that parameter, then the
confidence it is matched with is at most the other's, in both the RGB-space
and the HSV-space variant. -/
theorem C8_confidence_antitone (p : Param) (c1 c2 : RGB)
    (hrgb : ∀ e ∈ COLOR_REFERENCES p, colorDistance c2 e.color < colorDistance c1 e.color)
    (hadv : ∀ e ∈ ENHANCED_COLOR_REFERENCES p,
      hsvColorDistance (rgbToHsv c2) e.hsv < hsvColorDistance (rgbToHsv c1) e.hsv) :
    (matchColorToValue c1 p).confidence ≤ (matchColorToValue c2 p).confidence ∧
    (matchColorToValueAdvanced c1 p).confidence ≤ (matchColorToValueAdvanced c2 p).confidence := by
  constructor
  · obtain ⟨x1, r1, h1⟩ := List.exists_cons_of_ne_nil (scoredRefs_ne_nil c1 p)
    obtain ⟨x2, r2, h2⟩ := List.exists_cons_of_ne_nil (scoredRefs_ne_nil c2 p)
    have h1' : sortByDist (scoreListRGB c1 (COLOR_REFERENCES p) 0) = x1 :: r1 := h1
    have h2' : sortByDist (scoreListRGB c2 (COLOR_REFERENCES p) 0) = x2 :: r2 := h2
    have hx1m : x1 ∈ scoreListRGB c1 (COLOR_REFERENCES p) 0 := sortByDist_head_mem h1'
    obtain ⟨j, hj1, hj2, hj3⟩ := scoreListRGB_mem_idx hx1m
    have hz2 : (⟨colorDistance c2 x1.ref.color, 0 + j, x1.ref⟩ : Scored CalEntry)
        ∈ scoreListRGB c2 (COLOR_REFERENCES p) 0 := scoreListRGB_mem_of_get? 0 hj1
    have hle : x2.distance ≤ colorDistance c2 x1.ref.color := sortByDist_head_le h2' _ hz2
    have hlt : colorDistance c2 x1.ref.color < colorDistance c1 x1.ref.color :=
      hrgb _ (List.get?_mem hj1)
    have hd : x2.distance ≤ x1.distance := by
      rw [hj3]
      linarith
    simp only [matchColorToValue, h1, h2]
    exact confExpr_mono (by norm_num) hd
  · obtain ⟨x1, r1, h1⟩ := List.exists_cons_of_ne_nil (scoredRefsAdv_ne_nil c1 p)
    obtain ⟨x2, r2, h2⟩ := List.exists_cons_of_ne_nil (scoredRefsAdv_ne_nil c2 p)
    have h1' : sortByDist (scoreListHSV (rgbToHsv c1) (ENHANCED_COLOR_REFERENCES p) 0) = x1 :: r1 := h1
    have h2' : sortByDist (scoreListHSV (rgbToHsv c2) (ENHANCED_COLOR_REFERENCES p) 0) = x2 :: r2 := h2
    have hx1m : x1 ∈ scoreListHSV (rgbToHsv c1) (ENHANCED_COLOR_REFERENCES p) 0 :=
      sortByDist_head_mem h1'
    obtain ⟨j, hj1, hj2, hj3⟩ := scoreListHSV_mem_idx hx1m
    have hz2 : (⟨hsvColorDistance (rgbToHsv c2) x1.ref.hsv, 0 + j, x1.ref⟩ : Scored EnhEntry)
        ∈ scoreListHSV (rgbToHsv c2) (ENHANCED_COLOR_REFERENCES p) 0 :=
      scoreListHSV_mem_of_get? 0 hj1
    have hle : x2.distance ≤ hsvColorDistance (rgbToHsv c2) x1.ref.hsv :=
      sortByDist_head_le h2' _ hz2
    have hlt : hsvColorDistance (rgbToHsv c2) x1.ref.hsv <
        hsvColorDistance (rgbToHsv c1) x1.ref.hsv := hadv _ (List.get?_mem hj1)
    have hd : x2.distance ≤ x1.distance := by
      rw [hj3]
      linarith
    simp only [matchColorToValueAdvanced, h1, h2]
    exact confExpr_mono (by norm_num) hd

theorem C8_confidence_antitone_witness :
    (matchColorToValue ⟨0, 0, 0⟩ Param.freeChlorine).confidence ≤
      (matchColorToValue ⟨255, 255, 240⟩ Param.freeChlorine).confidence ∧
    (matchColorToValueAdvanced ⟨0, 0, 0⟩ Param.freeChlorine).confidence ≤
      (matchColorToValueAdvanced ⟨255, 255, 240⟩ Param.freeChlorine).confidence :=
  C8_confidence_antitone Param.freeChlorine ⟨0, 0, 0⟩ ⟨255, 255, 240⟩
    (by
      intro e he
      simp only [COLOR_REFERENCES, List.mem_cons, List.not_mem_nil, or_false] at he
      rcases he with rfl | rfl | rfl | rfl | rfl | rfl <;>
        exact colorDistance_lt_of_sq_lt (by decide))
    (by
      intro e he
      simp only [ENHANCED_COLOR_REFERENCES, List.mem_cons, List.not_mem_nil, or_false] at he
      rcases he with rfl | rfl | rfl | rfl | rfl | rfl | rfl <;>
        exact hsvColorDistance_lt_of_sq_lt (by decide))

/-- C9: the HSV-space matcher returns the closest calibration entry's status
unchanged, while the RGB-space matcher re-derives its status by scanning which
calibration range contains the final pre-rounding value and returns that
scan's result. -/
theorem C9_status_policies (c : RGB) (p : Param)
    (xa : Scored EnhEntry) (ra : List (Scored EnhEntry))
    (xr : Scored CalEntry) (rr : List (Scored CalEntry))
    (ha : scoredRefsAdv c p = xa :: ra) (hr : scoredRefs c p = xr :: rr) :
    (matchColorToValueAdvanced c p).status = xa.ref.status ∧
    (matchColorToValue c p).status = determineStatusFromValue (rgbPreRoundValue c p) p := by
  constructor
  · simp only [matchColorToValueAdvanced, ha]
  · have hpre : rgbPreRoundValue c p = rgbFixedValue xr rr := by
      simp only [rgbPreRoundValue, hr]
    simp only [matchColorToValue, hr, hpre]
    by_cases h : determineStatusFromValue (rgbFixedValue xr rr) p = xr.ref.status
    · rw [if_neg (by simp [h])]
      exact h.symm
    · rw [if_pos h]

theorem C9_status_policies_witness :
    (matchColorToValueAdvanced ⟨255, 255, 240⟩ Param.freeChlorine).status = WStatus.low ∧
    (matchColorToValue ⟨255, 255, 240⟩ Param.freeChlorine).status =
      determineStatusFromValue (rgbPreRoundValue ⟨255, 255, 240⟩ Param.freeChlorine)
        Param.freeChlorine := by
  have hxa : (⟨hsvColorDistance (rgbToHsv ⟨255, 255, 240⟩) ⟨60, 5, 95⟩, 0,
      ⟨0, QBound.fin (1/2), ⟨60, 5, 95⟩, WStatus.low⟩⟩ : Scored EnhEntry)
      ∈ scoreListHSV (rgbToHsv ⟨255, 255, 240⟩)
        (ENHANCED_COLOR_REFERENCES Param.freeChlorine) 0 := by
    simp only [ENHANCED_COLOR_REFERENCES, scoreListHSV]
    exact List.mem_cons_self _ _
  have hamin : ∀ z ∈ scoreListHSV (rgbToHsv ⟨255, 255, 240⟩)
      (ENHANCED_COLOR_REFERENCES Param.freeChlorine) 0,
      z ≠ (⟨hsvColorDistance (rgbToHsv ⟨255, 255, 240⟩) ⟨60, 5, 95⟩, 0,
        ⟨0, QBound.fin (1/2), ⟨60, 5, 95⟩, WStatus.low⟩⟩ : Scored EnhEntry) →
      (⟨hsvColorDistance (rgbToHsv ⟨255, 255, 240⟩) ⟨60, 5, 95⟩, 0,
        ⟨0, QBound.fin (1/2), ⟨60, 5, 95⟩, WStatus.low⟩⟩ : Scored EnhEntry).distance <
        z.distance := by
    intro z hz hne
    simp only [ENHANCED_COLOR_REFERENCES, scoreListHSV, List.mem_cons, List.not_mem_nil,
      or_false] at hz
    rcases hz with rfl | rfl | rfl | rfl | rfl | rfl | rfl
    · exact absurd rfl hne
    · exact hsvColorDistance_lt_of_sq_lt (by decide)
    · exact hsvColorDistance_lt_of_sq_lt (by decide)
    · exact hsvColorDistance_lt_of_sq_lt (by decide)
    · exact hsvColorDistance_lt_of_sq_lt (by decide)
    · exact hsvColorDistance_lt_of_sq_lt (by decide)
    · exact hsvColorDistance_lt_of_sq_lt (by decide)
  obtain ⟨ra, hA⟩ := sortByDist_head_of_min hxa hamin
  have hA' : scoredRefsAdv ⟨255, 255, 240⟩ Param.freeChlorine =
      (⟨hsvColorDistance (rgbToHsv ⟨255, 255, 240⟩) ⟨60, 5, 95⟩, 0,
        ⟨0, QBound.fin (1/2), ⟨60, 5, 95⟩, WStatus.low⟩⟩ : Scored EnhEntry) :: ra := hA
  have hxr : (⟨colorDistance ⟨255, 255, 240⟩ ⟨255, 255, 240⟩, 0,
      ⟨0, QBound.fin (1/2), ⟨255, 255, 240⟩, WStatus.low⟩⟩ : Scored CalEntry)
      ∈ scoreListRGB ⟨255, 255, 240⟩ (COLOR_REFERENCES Param.freeChlorine) 0 := by
    simp only [COLOR_REFERENCES, scoreListRGB]
    exact List.mem_cons_self _ _
  have hrmin : ∀ z ∈ scoreListRGB ⟨255, 255, 240⟩ (COLOR_REFERENCES Param.freeChlorine) 0,
      z ≠ (⟨colorDistance ⟨255, 255, 240⟩ ⟨255, 255, 240⟩, 0,
        ⟨0, QBound.fin (1/2), ⟨255, 255, 240⟩, WStatus.low⟩⟩ : Scored CalEntry) →
      (⟨colorDistance ⟨255, 255, 240⟩ ⟨255, 255, 240⟩, 0,
        ⟨0, QBound.fin (1/2), ⟨255, 255, 240⟩, WStatus.low⟩⟩ : Scored CalEntry).distance <
        z.distance := by
    intro z hz hne
    simp only [COLOR_REFERENCES, scoreListRGB, List.mem_cons, List.not_mem_nil,
      or_false] at hz
    rcases hz with rfl | rfl | rfl | rfl | rfl | rfl
    · exact absurd rfl hne
    · exact colorDistance_lt_of_sq_lt (by decide)
    · exact colorDistance_lt_of_sq_lt (by decide)
    · exact colorDistance_lt_of_sq_lt (by decide)
    · exact colorDistance_lt_of_sq_lt (by decide)
    · exact colorDistance_lt_of_sq_lt (by decide)
  obtain ⟨rr, hR⟩ := sortByDist_head_of_min hxr hrmin
  have hR' : scoredRefs ⟨255, 255, 240⟩ Param.freeChlorine =
      (⟨colorDistance ⟨255, 255, 240⟩ ⟨255, 255, 240⟩, 0,
        ⟨0, QBound.fin (1/2), ⟨255, 255, 240⟩, WStatus.low⟩⟩ : Scored CalEntry) :: rr := hR
  exact C9_status_policies ⟨255, 255, 240⟩ Param.freeChlorine _ ra _ rr hA' hR'

/-- A decoded image: dimensions and the flat RGBA byte array
(`Uint8ClampedArray`), one integer value per byte index. -/
structure Image where
  width : ℕ
  height : ℕ
  data : ℕ → ℤ

/-- Read `imageData.data[q]` at a (possibly fractional) JS index: an in-bounds
integer index yields the stored byte, anything else reads `undefined`. -/
def jsGet (img : Image) (q : ℚ) : Option ℤ :=
  if q.den = 1 ∧ 0 ≤ q.num ∧ q.num < 4 * img.width * img.height then
    some (img.data q.num.toNat)
  else none

/-- The JS loop `for (let v = a; v < b; v += s)` with positive step `s`: the
list of visited values. -/
def qRange (a b s : ℚ) : List ℚ :=
  (List.range ⌈(b - a) / s⌉₊).map (fun (n : ℕ) => a + (n : ℚ) * s)

/-- The integer loop `for (let v = a; v < b; v++)`. -/
def intRange (a b : ℤ) : List ℤ :=
  (List.range (b - a).toNat).map (fun n => a + n)

/-- A JS rectangle record `{ x, y, width, height }`. -/
structure Rect where
  x : ℚ
  y : ℚ
  width : ℚ
  height : ℚ

/-- part_000 `DetectedStrip`. -/
structure DetectedStrip where
  bounds : Rect
  angle : ℚ
  confidence : ℝ
  isVertical : Bool
  bandPositions : List Rect

/-- The record returned by part_000 `matchColorToParameter`. -/
structure MatchStub where
  value : ℚ
  status : String
  unit : String
  confidence : ℝ

/-- part_000 `matchColorToParameter`: a placeholder in the source that returns
a constant result for every color and parameter. -/
noncomputable def matchColorToParameter (color : RGB) (paramName : String) : MatchStub :=
  ⟨0, "unknown", "ppm", 1/2⟩

/-- The fields of part_000's per-parameter `AnalysisResult` record. -/
structure AnalysisResult where
  value : ℚ
  status : String
  unit : String
  confidence : ℝ
  detectedColor : RGB
  processingMethod : String

/-- part_000 `extractDominantColor`: plain channel average over the clamped
integer pixel rectangle. -/
def extractDominantColor000 (img : Image) (bounds : Rect) : RGB :=
  let pys := intRange (max 0 ⌊bounds.y⌋) (min (img.height : ℤ) ⌈bounds.y + bounds.height⌉)
  let pxs := intRange (max 0 ⌊bounds.x⌋) (min (img.width : ℤ) ⌈bounds.x + bounds.width⌉)
  let acc := pys.foldl (fun acc py =>
    pxs.foldl (fun acc2 px =>
      let idx := ((py * (img.width : ℤ) + px) * 4).toNat
      (acc2.1 + img.data idx, acc2.2.1 + img.data (idx + 1),
        acc2.2.2.1 + img.data (idx + 2), acc2.2.2.2 + 1)) acc)
    ((0, 0, 0, 0) : ℤ × ℤ × ℤ × ℕ)
  if 0 < acc.2.2.2 then
    ⟨((jsRound ((acc.1 : ℚ) / acc.2.2.2) : ℤ) : ℚ),
      ((jsRound ((acc.2.1 : ℚ) / acc.2.2.2) : ℤ) : ℚ),
      ((jsRound ((acc.2.2.1 : ℚ) / acc.2.2.2) : ℤ) : ℚ)⟩
  else ⟨0, 0, 0⟩

/-- part_000 `generateBandPositions`. -/
def generateBandPositions (bounds : Rect) (isVertical : Bool) : List Rect :=
  if isVertical then
    (List.range 6).map (fun i =>
      let bandHeight := bounds.height / 7
      let y := bounds.y + ((i : ℚ) + 1) * bandHeight
      ⟨bounds.x + bounds.width * (1/10), y - bandHeight * (2/10),
        bounds.width * (8/10), bandHeight * (4/10)⟩)
  else
    (List.range 6).map (fun i =>
      let bandWidth := bounds.width / 7
      let x := bounds.x + ((i : ℚ) + 1) * bandWidth
      ⟨x - bandWidth * (2/10), bounds.y + bounds.height * (1/10),
        bandWidth * (4/10), bounds.height * (8/10)⟩)

/-- All ordered pairs `(i, j)` with `i < j` of a list, in loop order. -/
def listPairs {α : Type} : List α → List (α × α)
  | [] => []
  | x :: xs => xs.map (fun z => (x, z)) ++ listPairs xs

/-- part_000 `evaluateColorVariation`. -/
noncomputable def evaluateColorVariation (img : Image) (bandPositions : List Rect) : ℝ :=
  let colors := bandPositions.map (extractDominantColor000 img)
  let pairs := listPairs colors
  let totalVariation := (pairs.map (fun cc => colorDistance cc.1 cc.2)).sum
  let avgVariation : ℝ := if 0 < pairs.length then totalVariation / pairs.length else 0
  min 1 (avgVariation / 100)

/-- The per-candidate mutation of part_000 `scoreCandidates`: generated band
positions and averaged confidence. -/
noncomputable def updateCandidate (img : Image) (cand : DetectedStrip) : DetectedStrip :=
  let bp := generateBandPositions cand.bounds cand.isVertical
  { cand with bandPositions := bp,
              confidence := (cand.confidence + evaluateColorVariation img bp) / 2 }

/-- part_000 `scoreCandidates`: every candidate is mutated by
`updateCandidate` (including the object `bestCandidate` aliases); the best
updated candidate wins, first maximum on ties. -/
noncomputable def scoreCandidates (img : Image) (candidates : List DetectedStrip) :
    Option DetectedStrip :=
  match candidates.map (updateCandidate img) with
  | [] => none
  | c0 :: cs =>
    some ((c0 :: cs).foldl (fun b c => if b.confidence < c.confidence then c else b) c0)

/-- part_000 `detectTestStripInImage`, parametrized by the candidate list that
`findRectangularRegions` produced from the edge map. -/
noncomputable def detectTestStripFrom (img : Image) (candidates : List DetectedStrip) :
    Option DetectedStrip :=
  match scoreCandidates img candidates with
  | none => none
  | some best => if best.confidence < 3/10 then none else some best

/-- part_000's fixed parameter order. -/
def parameterNames : List String :=
  ["freeChlorine", "ph", "totalAlkalinity", "totalChlorine", "totalHardness", "cyanuricAcid"]

/-- part_000 `analyzeDetectedStrip`. -/
noncomputable def analyzeDetectedStrip (img : Image) (strip : DetectedStrip) :
    List (String × AnalysisResult) :=
  (List.range (min parameterNames.length strip.bandPositions.length)).map (fun i =>
    let paramName := parameterNames.getD i ""
    let bandPos := strip.bandPositions.getD i ⟨0, 0, 0, 0⟩
    let detectedColor := extractDominantColor000 img bandPos
    let matchResult := matchColorToParameter detectedColor paramName
    (paramName,
      (⟨matchResult.value, matchResult.status, matchResult.unit,
        min strip.confidence matchResult.confidence, detectedColor,
        "robust-strip-detection"⟩ : AnalysisResult)))

/-- part_000 `analyzeWithFallback`: fixed-proportion center bands. -/
noncomputable def analyzeWithFallback (img : Image) : List (String × AnalysisResult) :=
  (List.range parameterNames.length).map (fun i =>
    let paramName := parameterNames.getD i ""
    let bandHeight : ℚ := img.height * (2/100)
    let y : ℚ := img.height * ([18/100, 28/100, 38/100, 52/100, 64/100, 78/100] : List ℚ).getD i 0
    let bounds : Rect := ⟨img.width * (3/10), y - bandHeight / 2, img.width * (4/10), bandHeight⟩
    let detectedColor := extractDominantColor000 img bounds
    let matchResult := matchColorToParameter detectedColor paramName
    (paramName,
      (⟨matchResult.value, matchResult.status, matchResult.unit,
        matchResult.confidence * (7/10), detectedColor,
        "fallback-center-analysis"⟩ : AnalysisResult)))

/-- part_000 `detectAndAnalyzeTestStrip` after a successful decode: strip
detection, then per-strip analysis or the center fallback. -/
noncomputable def detectAndAnalyzeCore (img : Image) (candidates : List DetectedStrip) :
    List (String × AnalysisResult) :=
  match detectTestStripFrom img candidates with
  | none => analyzeWithFallback img
  | some strip => analyzeDetectedStrip img strip

/-- strip-detection.ts `ColorBand`. -/
structure ColorBand where
  x : ℚ
  y : ℚ
  width : ℚ
  height : ℚ
  color : RGB

/-- strip-detection.ts `extractFastColor`: average over the center area,
sampling every 4th pixel, skipping transparent and near-white pixels. -/
def extractFastColor (img : Image) (x y w h : ℚ) : RGB :=
  let centerX := x + ((⌊w * (3/10)⌋ : ℤ) : ℚ)
  let centerY := y + ((⌊h * (3/10)⌋ : ℤ) : ℚ)
  let centerWidth : ℤ := ⌊w * (4/10)⌋
  let centerHeight : ℤ := ⌊h * (4/10)⌋
  let acc := (qRange centerY (centerY + centerHeight) 4).foldl (fun (acc : ℤ × ℤ × ℤ × ℕ) (py : ℚ) =>
    (qRange centerX (centerX + centerWidth) 4).foldl (fun acc2 (px : ℚ) =>
      if 0 ≤ px ∧ px < img.width ∧ 0 ≤ py ∧ py < img.height then
        let idx := (py * img.width + px) * 4
        match jsGet img idx, jsGet img (idx + 1), jsGet img (idx + 2), jsGet img (idx + 3) with
        | some r, some g, some b, some a =>
          if 200 < a ∧ ¬(240 < r ∧ 240 < g ∧ 240 < b) then
            (acc2.1 + r, acc2.2.1 + g, acc2.2.2.1 + b, acc2.2.2.2 + 1)
          else acc2
        | _, _, _, _ => acc2
      else acc2) acc)
    ((0, 0, 0, 0) : ℤ × ℤ × ℤ × ℕ)
  if acc.2.2.2 = 0 then ⟨200, 200, 200⟩
  else
    ⟨((jsRound ((acc.1 : ℚ) / acc.2.2.2) : ℤ) : ℚ),
      ((jsRound ((acc.2.1 : ℚ) / acc.2.2.2) : ℤ) : ℚ),
      ((jsRound ((acc.2.2.1 : ℚ) / acc.2.2.2) : ℤ) : ℚ)⟩

/-- strip-detection.ts `detectColorBands`: six bands at multiples of the
floored eighth of the strip dimension. -/
def detectColorBands (stripData : Image) (region : Rect) : List ColorBand :=
  if region.width < region.height then
    (List.range 6).map (fun i =>
      let bandHeight : ℤ := ⌊(stripData.height : ℚ) / 8⌋
      let bandWidth : ℤ := ⌊(stripData.width : ℚ) * (6/10)⌋
      let startX : ℤ := ⌊(stripData.width : ℚ) * (2/10)⌋
      let y : ℤ := bandHeight * ((i : ℤ) + 1)
      ⟨(startX : ℚ), (y : ℚ), (bandWidth : ℚ), (bandHeight : ℚ),
        extractFastColor stripData startX y bandWidth bandHeight⟩)
  else
    (List.range 6).map (fun i =>
      let bandWidth : ℤ := ⌊(stripData.width : ℚ) / 8⌋
      let bandHeight : ℤ := ⌊(stripData.height : ℚ) * (6/10)⌋
      let startY : ℤ := ⌊(stripData.height : ℚ) * (2/10)⌋
      let x : ℤ := bandWidth * ((i : ℤ) + 1)
      ⟨(x : ℚ), (startY : ℚ), (bandWidth : ℚ), (bandHeight : ℚ),
        extractFastColor stripData x startY bandWidth bandHeight⟩)

/-- One bucket of part_001 `extractDominantColor`'s `colorCounts` map. -/
structure CInfo001 where
  color : RGB
  count : ℕ
  sat : ℚ

/-- Update for part_001's `colorCounts` (a JS `Map` keeps insertion order;
keys are the `floor(channel / 20)` triples). -/
def mapUpdate001 (key : ℤ × ℤ × ℤ) (rgb : RGB) (sat : ℚ) :
    List ((ℤ × ℤ × ℤ) × CInfo001) → List ((ℤ × ℤ × ℤ) × CInfo001)
  | [] => [(key, ⟨rgb, 1, sat⟩)]
  | (k, info) :: rest =>
    if k = key then
      (k, if info.sat < sat then ⟨rgb, info.count + 1, sat⟩
          else ⟨info.color, info.count + 1, info.sat⟩) :: rest
    else (k, info) :: mapUpdate001 key rgb sat rest

/-- Per-sample body of part_001 `extractDominantColor`. -/
def pixelStep001 (img : Image) (m : List ((ℤ × ℤ × ℤ) × CInfo001)) (py px : ℚ) :
    List ((ℤ × ℤ × ℤ) × CInfo001) :=
  if 0 ≤ px ∧ px < img.width ∧ 0 ≤ py ∧ py < img.height then
    let index := (py * img.width + px) * 4
    match jsGet img index, jsGet img (index + 1), jsGet img (index + 2),
        jsGet img (index + 3) with
    | some r, some g, some b, some alpha =>
      if 200 < alpha then
        if 240 < r ∧ 240 < g ∧ 240 < b then m
        else if r < 30 ∧ g < 30 ∧ b < 30 then m
        else
          let mx := max r (max g b)
          let mn := min r (min g b)
          let saturation : ℚ := if mx = 0 then 0 else ((mx : ℚ) - mn) / mx
          mapUpdate001 (⌊(r : ℚ) / 20⌋, ⌊(g : ℚ) / 20⌋, ⌊(b : ℚ) / 20⌋) ⟨(r : ℚ), (g : ℚ), (b : ℚ)⟩ saturation m
      else m
    | _, _, _, _ => m
  else m

/-- part_001's final scan for the best-scoring bucket
(`score = count * (1 + saturation * 2)`, the first maximum wins). -/
def bestColor001 (m : List ((ℤ × ℤ × ℤ) × CInfo001)) : RGB :=
  (m.foldl (fun best kv =>
      let score := (kv.2.count : ℚ) * (1 + kv.2.sat * 2)
      if best.2 < score then (kv.2.color, score) else best)
    ((⟨255, 255, 255⟩ : RGB), (0 : ℚ))).1

/-- part_001 `extractDominantColor`: bucket counting over the center area at
step 3, white fallback for an empty map. -/
def extractDominantColor001 (img : Image) (x y w h : ℚ) : RGB :=
  let centerX := x + ((⌊w * (3/10)⌋ : ℤ) : ℚ)
  let centerY := y + ((⌊h * (3/10)⌋ : ℤ) : ℚ)
  let centerWidth : ℤ := ⌊w * (4/10)⌋
  let centerHeight : ℤ := ⌊h * (4/10)⌋
  let m := (qRange centerY (centerY + centerHeight) 3).foldl (fun acc py =>
    (qRange centerX (centerX + centerWidth) 3).foldl (fun acc2 px =>
      pixelStep001 img acc2 py px) acc) []
  match m with
  | [] => ⟨255, 255, 255⟩
  | _ => bestColor001 m

/-- One bucket of part_002 `extractDominantColorAdvanced`'s `colorMap`. -/
structure CInfo002 where
  rgb : RGB
  hsv : HSV
  count : ℕ

/-- Update for part_002's `colorMap` (keys are the HSV bucket triples). -/
def mapUpdate002 (key : ℤ × ℤ × ℤ) (rgb : RGB) (hsv : HSV) :
    List ((ℤ × ℤ × ℤ) × CInfo002) → List ((ℤ × ℤ × ℤ) × CInfo002)
  | [] => [(key, ⟨rgb, hsv, 1⟩)]
  | (k, info) :: rest =>
    if k = key then
      (k, if info.hsv.s < hsv.s ∨ (hsv.s = info.hsv.s ∧ info.hsv.v < hsv.v) then
            ⟨rgb, hsv, info.count + 1⟩
          else ⟨info.rgb, info.hsv, info.count + 1⟩) :: rest
    else (k, info) :: mapUpdate002 key rgb hsv rest

/-- Per-sample body of part_002 `extractDominantColorAdvanced`. -/
def pixelStep002 (img : Image) (m : List ((ℤ × ℤ × ℤ) × CInfo002)) (py px : ℚ) :
    List ((ℤ × ℤ × ℤ) × CInfo002) :=
  if 0 ≤ px ∧ px < img.width ∧ 0 ≤ py ∧ py < img.height then
    let index := (py * img.width + px) * 4
    match jsGet img index, jsGet img (index + 1), jsGet img (index + 2),
        jsGet img (index + 3) with
    | some r, some g, some b, some alpha =>
      if 200 < alpha then
        if 235 < r ∧ 235 < g ∧ 235 < b then m
        else if r < 25 ∧ g < 25 ∧ b < 25 then m
        else
          let hsv := rgbToHsv ⟨(r : ℚ), (g : ℚ), (b : ℚ)⟩
          if hsv.s < 15 ∧ 80 < hsv.v then m
          else mapUpdate002 (⌊hsv.h / 15⌋, ⌊hsv.s / 20⌋, ⌊hsv.v / 20⌋) ⟨(r : ℚ), (g : ℚ), (b : ℚ)⟩ hsv m
      else m
    | _, _, _, _ => m
  else m

/-- part_002 `ColorCluster`. -/
structure ColorCluster where
  color : RGB
  hsv : HSV
  count : ℕ
  confidence : ℚ

/-- The sort key of part_002's cluster comparator. -/
def clusterScore (c : ColorCluster) : ℚ :=
  (c.count : ℚ) * (1 + c.hsv.s / 100) * (1/2 + c.hsv.v / 200)

/-- Stable descending insertion for the cluster sort
(`(a, b) => scoreB - scoreA`). -/
def insertByScore (x : ColorCluster) : List ColorCluster → List ColorCluster
  | [] => [x]
  | y :: ys => if clusterScore x ≤ clusterScore y then y :: insertByScore x ys
               else x :: y :: ys

/-- part_002's cluster sort, descending by score. -/
def sortClusters (l : List ColorCluster) : List ColorCluster :=
  l.foldl (fun acc x => insertByScore x acc) []

/-- Result record of part_002 `extractDominantColorAdvanced`. -/
structure AdvSample where
  color : RGB
  confidence : ℚ
  clusters : List ColorCluster

/-- part_002 `extractDominantColorAdvanced`: HSV bucket clustering over the
center 50% at step 2, white/zero-confidence fallback for an empty map (the
inner empty-cluster case is unreachable, the cluster list inherits the map's
nonemptiness). -/
def extractDominantColorAdvanced (img : Image) (x y w h : ℚ) : AdvSample :=
  let centerX := x + ((⌊w * (1/4)⌋ : ℤ) : ℚ)
  let centerY := y + ((⌊h * (1/4)⌋ : ℤ) : ℚ)
  let centerWidth : ℤ := ⌊w * (1/2)⌋
  let centerHeight : ℤ := ⌊h * (1/2)⌋
  let m := (qRange centerY (centerY + centerHeight) 2).foldl (fun acc py =>
    (qRange centerX (centerX + centerWidth) 2).foldl (fun acc2 px =>
      pixelStep002 img acc2 py px) acc) []
  match m with
  | [] => ⟨⟨255, 255, 255⟩, 0, []⟩
  | _ =>
    match sortClusters (m.map (fun kv =>
        ⟨kv.2.rgb, kv.2.hsv, kv.2.count,
          min 1 (((kv.2.count : ℚ) * (kv.2.hsv.s / 100) * (kv.2.hsv.v / 100)) / 10)⟩)) with
    | [] => ⟨⟨255, 255, 255⟩, 0, []⟩
    | c0 :: cs => ⟨c0.color, c0.confidence, (c0 :: cs).take 3⟩

theorem bestFold_mem (l : List DetectedStrip) (c0 : DetectedStrip) :
    l.foldl (fun b c => if b.confidence < c.confidence then c else b) c0 ∈ c0 :: l := by
  induction l generalizing c0 with
  | nil => exact List.mem_cons_self _ _
  | cons a as ih =>
    rw [List.foldl_cons]
    by_cases h : c0.confidence < a.confidence
    · rw [if_pos h]
      exact List.mem_cons_of_mem _ (ih a)
    · rw [if_neg h]
      rcases List.mem_cons.mp (ih c0) with h1 | h1
      · rw [h1]
        exact List.mem_cons_self _ _
      · exact List.mem_cons_of_mem _ (List.mem_cons_of_mem _ h1)

theorem generateBandPositions_length (bounds : Rect) (v : Bool) :
    (generateBandPositions bounds v).length = 6 := by
  cases v <;> rfl

theorem updateCandidate_bandPositions (img : Image) (cand : DetectedStrip) :
    (updateCandidate img cand).bandPositions.length = 6 := by
  simp [updateCandidate, generateBandPositions_length]

theorem scoreCandidates_some_bp {img : Image} {cands : List DetectedStrip}
    {best : DetectedStrip} (h : scoreCandidates img cands = some best) :
    best.bandPositions.length = 6 := by
  unfold scoreCandidates at h
  rcases hm : cands.map (updateCandidate img) with _ | ⟨c0, cs⟩
  · rw [hm] at h
    exact absurd h (by simp)
  · rw [hm] at h
    have hb : (c0 :: cs).foldl (fun b c => if b.confidence < c.confidence then c else b) c0
        = best := by injection h
    have hmem := bestFold_mem (c0 :: cs) c0
    rw [hb] at hmem
    have hmem2 : best ∈ cands.map (updateCandidate img) := by
      rw [hm]
      rcases List.mem_cons.mp hmem with h1 | h1
      · rw [h1]
        exact List.mem_cons_self _ _
      · exact h1
    obtain ⟨cand, _, hcand⟩ := List.mem_map.mp hmem2
    rw [← hcand]
    exact updateCandidate_bandPositions img cand

/-- C1: strip detection returning no strip always falls back to the
fixed-proportion center analysis, which yields one reading per parameter with
confidence `matchConfidence * 0.7`; and the terminal reading set of a decoded
image always has all six parameters, never zero. -/
theorem C1_fallback_guarantee (img : Image) (cands : List DetectedStrip) :
    (detectAndAnalyzeCore img cands).length = 6 ∧
    (detectTestStripFrom img cands = none →
      detectAndAnalyzeCore img cands = analyzeWithFallback img ∧
      ∀ r ∈ analyzeWithFallback img,
        r.2.confidence = (matchColorToParameter r.2.detectedColor r.1).confidence * (7/10)) := by
  constructor
  · unfold detectAndAnalyzeCore
    cases hd : detectTestStripFrom img cands with
    | none => simp [analyzeWithFallback, parameterNames]
    | some strip =>
      have hbp : strip.bandPositions.length = 6 := by
        unfold detectTestStripFrom at hd
        rcases hs : scoreCandidates img cands with _ | best
        · rw [hs] at hd
          exact absurd hd (by simp)
        · rw [hs] at hd
          dsimp only at hd
          by_cases hc : best.confidence < 3/10
          · rw [if_pos hc] at hd
            exact absurd hd (by simp)
          · rw [if_neg hc] at hd
            injection hd with hd'
            rw [← hd']
            exact scoreCandidates_some_bp hs
      simp [analyzeDetectedStrip, hbp, parameterNames]
  · intro hnull
    constructor
    · unfold detectAndAnalyzeCore
      rw [hnull]
    · intro r hr
      obtain ⟨i, hi, hri⟩ := List.mem_map.mp hr
      rw [← hri]

theorem C1_fallback_guarantee_witness :
    (detectAndAnalyzeCore ⟨10, 10, fun _ => 0⟩ []).length = 6 ∧
    detectAndAnalyzeCore ⟨10, 10, fun _ => 0⟩ [] = analyzeWithFallback ⟨10, 10, fun _ => 0⟩ :=
  ⟨(C1_fallback_guarantee ⟨10, 10, fun _ => 0⟩ []).1,
    ((C1_fallback_guarantee ⟨10, 10, fun _ => 0⟩ []).2 rfl).1⟩

/-- C3: every reading of the detected-strip analysis carries confidence
`min(stripConfidence, matchConfidence)`, hence at most either one; every
fallback reading carries `matchConfidence * 0.7`, at most the match
confidence. -/
theorem C3_confidence_combination (img : Image) (strip : DetectedStrip) :
    (analyzeDetectedStrip img strip).Forall (fun r =>
      r.2.confidence ≤
        min strip.confidence (matchColorToParameter r.2.detectedColor r.1).confidence) ∧
    (analyzeWithFallback img).Forall (fun r =>
      r.2.confidence ≤ (matchColorToParameter r.2.detectedColor r.1).confidence) := by
  constructor
  · rw [List.forall_iff_forall_mem]
    intro r hr
    obtain ⟨i, hi, hri⟩ := List.mem_map.mp hr
    rw [← hri]
  · rw [List.forall_iff_forall_mem]
    intro r hr
    obtain ⟨i, hi, hri⟩ := List.mem_map.mp hr
    rw [← hri]
    show (1/2 : ℝ) * (7/10) ≤ 1/2
    norm_num

theorem C3_confidence_combination_witness :
    (analyzeDetectedStrip ⟨10, 10, fun _ => 0⟩
        ⟨⟨0, 0, 2, 10⟩, 0, 1/2, true, generateBandPositions ⟨0, 0, 2, 10⟩ true⟩).Forall (fun r =>
      r.2.confidence ≤
        min (1/2 : ℝ) (matchColorToParameter r.2.detectedColor r.1).confidence) ∧
    (analyzeWithFallback ⟨10, 10, fun _ => 0⟩).Forall (fun r =>
      r.2.confidence ≤ (matchColorToParameter r.2.detectedColor r.1).confidence) :=
  C3_confidence_combination ⟨10, 10, fun _ => 0⟩
    ⟨⟨0, 0, 2, 10⟩, 0, 1/2, true, generateBandPositions ⟨0, 0, 2, 10⟩ true⟩

/-- C6 (amended): `generateBandPositions` always returns exactly 6 regions,
strictly increasing in `y` (vertical) resp. `x` (horizontal) for positive
bounds; `detectColorBands` always returns exactly 6 bands, and they are
strictly increasing only when the floored eighth of the strip dimension is
positive, i.e. when that dimension is at least 8. -/
theorem C6_band_ordering (bounds : Rect) (hw : 0 < bounds.width) (hh : 0 < bounds.height)
    (img : Image) (region : Rect) :
    (generateBandPositions bounds true).length = 6 ∧
    (generateBandPositions bounds true).Chain' (fun a b => a.y < b.y) ∧
    (generateBandPositions bounds false).length = 6 ∧
    (generateBandPositions bounds false).Chain' (fun a b => a.x < b.x) ∧
    (detectColorBands img region).length = 6 ∧
    (region.width < region.height → 8 ≤ img.height →
      (detectColorBands img region).Chain' (fun a b => a.y < b.y)) ∧
    (¬ region.width < region.height → 8 ≤ img.width →
      (detectColorBands img region).Chain' (fun a b => a.x < b.x)) := by
  refine ⟨rfl, ?_, rfl, ?_, ?_, ?_, ?_⟩
  · simp only [generateBandPositions, if_pos, show List.range 6 = [0, 1, 2, 3, 4, 5] from rfl,
      List.map, List.chain'_cons, List.chain'_singleton, and_true]
    refine ⟨?_, ?_, ?_, ?_, ?_⟩ <;> (push_cast; linarith)
  · simp only [generateBandPositions, Bool.false_eq_true, if_false,
      show List.range 6 = [0, 1, 2, 3, 4, 5] from rfl,
      List.map, List.chain'_cons, List.chain'_singleton, and_true]
    refine ⟨?_, ?_, ?_, ?_, ?_⟩ <;> (push_cast; linarith)
  · unfold detectColorBands
    split <;> rfl
  · intro hv h8
    have hbh : 1 ≤ ⌊(img.height : ℚ) / 8⌋ := by
      apply Int.le_floor.mpr
      push_cast
      have : (8 : ℚ) ≤ img.height := by exact_mod_cast h8
      linarith
    have hbh2 : (1 : ℚ) ≤ (⌊(img.height : ℚ) / 8⌋ : ℚ) := by exact_mod_cast hbh
    simp only [detectColorBands, if_pos hv, show List.range 6 = [0, 1, 2, 3, 4, 5] from rfl,
      List.map, List.chain'_cons, List.chain'_singleton, and_true]
    refine ⟨?_, ?_, ?_, ?_, ?_⟩ <;> (push_cast; linarith)
  · intro hv h8
    have hbh : 1 ≤ ⌊(img.width : ℚ) / 8⌋ := by
      apply Int.le_floor.mpr
      push_cast
      have : (8 : ℚ) ≤ img.width := by exact_mod_cast h8
      linarith
    have hbh2 : (1 : ℚ) ≤ (⌊(img.width : ℚ) / 8⌋ : ℚ) := by exact_mod_cast hbh
    simp only [detectColorBands, if_neg hv, show List.range 6 = [0, 1, 2, 3, 4, 5] from rfl,
      List.map, List.chain'_cons, List.chain'_singleton, and_true]
    refine ⟨?_, ?_, ?_, ?_, ?_⟩ <;> (push_cast; linarith)

theorem C6_band_ordering_witness :
    (generateBandPositions ⟨0, 0, 3, 21⟩ true).length = 6 ∧
    (generateBandPositions ⟨0, 0, 3, 21⟩ true).Chain' (fun a b => a.y < b.y) ∧
    (generateBandPositions ⟨0, 0, 3, 21⟩ false).length = 6 ∧
    (generateBandPositions ⟨0, 0, 3, 21⟩ false).Chain' (fun a b => a.x < b.x) ∧
    (detectColorBands ⟨3, 21, fun _ => 0⟩ ⟨0, 0, 3, 21⟩).length = 6 ∧
    (detectColorBands ⟨3, 21, fun _ => 0⟩ ⟨0, 0, 3, 21⟩).Chain' (fun a b => a.y < b.y) := by
  have h := C6_band_ordering ⟨0, 0, 3, 21⟩ (by norm_num) (by norm_num)
    ⟨3, 21, fun _ => 0⟩ ⟨0, 0, 3, 21⟩
  exact ⟨h.1, h.2.1, h.2.2.1, h.2.2.2.1, h.2.2.2.2.1,
    h.2.2.2.2.2.1 (by norm_num) (by norm_num)⟩

/-- C6 counterexample: a 1×7 vertical strip region has `floor(7/8) = 0` as
band height, so all six detected bands sit at `y = 0` — the band positions are
not strictly increasing even though the region has positive width and height.
-/
theorem C6_counterexample :
    ¬ (∀ (img : Image) (region : Rect), 0 < region.width → 0 < region.height →
        region.width < region.height →
        (detectColorBands img region).Chain' (fun a b => a.y < b.y)) := by
  intro hall
  have h := hall ⟨1, 7, fun _ => 0⟩ ⟨0, 0, 1, 7⟩ (by norm_num) (by norm_num) (by norm_num)
  have hbh : ⌊(7 : ℚ) / 8⌋ = 0 := by norm_num
  simp only [detectColorBands, if_pos, show List.range 6 = [0, 1, 2, 3, 4, 5] from rfl,
    List.map, List.chain'_cons] at h
  norm_num [hbh] at h

theorem foldl_fix {α β : Type} (f : β → α → β) (l : List α) (m : β)
    (h : ∀ b, ∀ a ∈ l, f b a = b) : l.foldl f m = m := by
  induction l generalizing m with
  | nil => rfl
  | cons a as ih =>
    rw [List.foldl_cons, h m a (List.mem_cons_self a as)]
    exact ih m (fun b x hx => h b x (List.mem_cons_of_mem a hx))

theorem jsGet_intCast (img : Image) (k : ℤ) (h0 : 0 ≤ k)
    (h1 : k < 4 * img.width * img.height) :
    jsGet img (k : ℚ) = some (img.data k.toNat) := by
  unfold jsGet
  rw [if_pos]
  · simp [Rat.num_intCast]
  · refine ⟨Rat.den_intCast k, ?_, ?_⟩
    · rw [Rat.num_intCast]
      exact h0
    · rw [Rat.num_intCast]
      exact_mod_cast h1

theorem qRange_mem_int {a s : ℚ} (ai si : ℤ) (hai : a = (ai : ℚ)) (hsi : s = (si : ℚ))
    {b q : ℚ} (hq : q ∈ qRange a b s) : ∃ k : ℤ, q = (k : ℚ) := by
  unfold qRange at hq
  obtain ⟨n, hn, rfl⟩ := List.mem_map.mp hq
  refine ⟨ai + (n : ℤ) * si, ?_⟩
  rw [hai, hsi]
  push_cast
  ring


theorem qRange_mem_bounds {a b s q : ℚ} (hs : 0 < s) (hq : q ∈ qRange a b s) :
    a ≤ q ∧ q < b := by
  unfold qRange at hq
  obtain ⟨n, hn, rfl⟩ := List.mem_map.mp hq
  rw [List.mem_range] at hn
  constructor
  · have h0 : 0 ≤ (n : ℚ) * s := mul_nonneg (by positivity) hs.le
    linarith
  · have hv : 0 < (b - a) / s := Nat.ceil_pos.mp (lt_of_le_of_lt (Nat.zero_le n) hn)
    have h3 : (⌈(b - a) / s⌉₊ : ℚ) < (b - a) / s + 1 := Nat.ceil_lt_add_one hv.le
    have h4 : (n : ℚ) + 1 ≤ (⌈(b - a) / s⌉₊ : ℚ) := by exact_mod_cast hn
    have h5 : (n : ℚ) < (b - a) / s := by linarith
    have h6 : (n : ℚ) * s < b - a := (lt_div_iff hs).mp h5
    linarith

theorem pixelStep001_id (img : Image) (xi yi : ℤ) (w h : ℚ)
    (hpix : ∀ px py : ℤ, 0 ≤ px → px < (img.width : ℤ) → 0 ≤ py → py < (img.height : ℤ) →
      (xi : ℚ) ≤ (px : ℚ) → (px : ℚ) < (xi : ℚ) + w →
      (yi : ℚ) ≤ (py : ℚ) → (py : ℚ) < (yi : ℚ) + h →
      240 < img.data (4 * (py * img.width + px)).toNat ∧
      240 < img.data (4 * (py * img.width + px) + 1).toNat ∧
      240 < img.data (4 * (py * img.width + px) + 2).toNat)
    (m : List ((ℤ × ℤ × ℤ) × CInfo001)) (py px : ℚ)
    (hpy : ∃ k : ℤ, py = (k : ℚ)) (hpx : ∃ k : ℤ, px = (k : ℚ))
    (hxlo : (xi : ℚ) ≤ px) (hxhi : px < (xi : ℚ) + w)
    (hylo : (yi : ℚ) ≤ py) (hyhi : py < (yi : ℚ) + h) :
    pixelStep001 img m py px = m := by
  obtain ⟨pyi, rfl⟩ := hpy
  obtain ⟨pxi, rfl⟩ := hpx
  simp only [pixelStep001]
  split
  case isFalse => rfl
  case isTrue hb =>
    obtain ⟨h1, h2, h3, h4⟩ := hb
    have hx1 : 0 ≤ pxi := by exact_mod_cast h1
    have hx2 : pxi < (img.width : ℤ) := by exact_mod_cast h2
    have hy1 : 0 ≤ pyi := by exact_mod_cast h3
    have hy2 : pyi < (img.height : ℤ) := by exact_mod_cast h4
    have hNn : 0 ≤ pyi * (img.width : ℤ) + pxi := by
      have hw0 : (0 : ℤ) ≤ (img.width : ℤ) := by positivity
      nlinarith
    have hNlt2 : pyi * (img.width : ℤ) + pxi < (img.width : ℤ) * (img.height : ℤ) := by
      nlinarith
    have e0 : ((pyi : ℚ) * img.width + pxi) * 4 =
        ((4 * (pyi * (img.width : ℤ) + pxi) : ℤ) : ℚ) := by push_cast; ring
    have e1 : ((pyi : ℚ) * img.width + pxi) * 4 + 1 =
        ((4 * (pyi * (img.width : ℤ) + pxi) + 1 : ℤ) : ℚ) := by push_cast; ring
    have e2 : ((pyi : ℚ) * img.width + pxi) * 4 + 2 =
        ((4 * (pyi * (img.width : ℤ) + pxi) + 2 : ℤ) : ℚ) := by push_cast; ring
    have e3 : ((pyi : ℚ) * img.width + pxi) * 4 + 3 =
        ((4 * (pyi * (img.width : ℤ) + pxi) + 3 : ℤ) : ℚ) := by push_cast; ring
    rw [e3, e2, e1, e0]
    rw [jsGet_intCast img _ (by linarith) (by linarith),
      jsGet_intCast img _ (by linarith) (by linarith),
      jsGet_intCast img _ (by linarith) (by linarith),
      jsGet_intCast img _ (by linarith) (by linarith)]
    dsimp only
    obtain ⟨hr, hg, hbb⟩ := hpix pxi pyi hx1 hx2 hy1 hy2 hxlo hxhi hylo hyhi
    split
    case isFalse => rfl
    case isTrue =>
      rw [if_pos ⟨hr, hg, hbb⟩]

theorem pixelStep002_id (img : Image) (xi yi : ℤ) (w h : ℚ)
    (hpix : ∀ px py : ℤ, 0 ≤ px → px < (img.width : ℤ) → 0 ≤ py → py < (img.height : ℤ) →
      (xi : ℚ) ≤ (px : ℚ) → (px : ℚ) < (xi : ℚ) + w →
      (yi : ℚ) ≤ (py : ℚ) → (py : ℚ) < (yi : ℚ) + h →
      240 < img.data (4 * (py * img.width + px)).toNat ∧
      240 < img.data (4 * (py * img.width + px) + 1).toNat ∧
      240 < img.data (4 * (py * img.width + px) + 2).toNat)
    (m : List ((ℤ × ℤ × ℤ) × CInfo002)) (py px : ℚ)
    (hpy : ∃ k : ℤ, py = (k : ℚ)) (hpx : ∃ k : ℤ, px = (k : ℚ))
    (hxlo : (xi : ℚ) ≤ px) (hxhi : px < (xi : ℚ) + w)
    (hylo : (yi : ℚ) ≤ py) (hyhi : py < (yi : ℚ) + h) :
    pixelStep002 img m py px = m := by
  obtain ⟨pyi, rfl⟩ := hpy
  obtain ⟨pxi, rfl⟩ := hpx
  simp only [pixelStep002]
  split
  case isFalse => rfl
  case isTrue hb =>
    obtain ⟨h1, h2, h3, h4⟩ := hb
    have hx1 : 0 ≤ pxi := by exact_mod_cast h1
    have hx2 : pxi < (img.width : ℤ) := by exact_mod_cast h2
    have hy1 : 0 ≤ pyi := by exact_mod_cast h3
    have hy2 : pyi < (img.height : ℤ) := by exact_mod_cast h4
    have hNn : 0 ≤ pyi * (img.width : ℤ) + pxi := by
      have hw0 : (0 : ℤ) ≤ (img.width : ℤ) := by positivity
      nlinarith
    have hNlt2 : pyi * (img.width : ℤ) + pxi < (img.width : ℤ) * (img.height : ℤ) := by
      nlinarith
    have e0 : ((pyi : ℚ) * img.width + pxi) * 4 =
        ((4 * (pyi * (img.width : ℤ) + pxi) : ℤ) : ℚ) := by push_cast; ring
    have e1 : ((pyi : ℚ) * img.width + pxi) * 4 + 1 =
        ((4 * (pyi * (img.width : ℤ) + pxi) + 1 : ℤ) : ℚ) := by push_cast; ring
    have e2 : ((pyi : ℚ) * img.width + pxi) * 4 + 2 =
        ((4 * (pyi * (img.width : ℤ) + pxi) + 2 : ℤ) : ℚ) := by push_cast; ring
    have e3 : ((pyi : ℚ) * img.width + pxi) * 4 + 3 =
        ((4 * (pyi * (img.width : ℤ) + pxi) + 3 : ℤ) : ℚ) := by push_cast; ring
    rw [e3, e2, e1, e0]
    rw [jsGet_intCast img _ (by linarith) (by linarith),
      jsGet_intCast img _ (by linarith) (by linarith),
      jsGet_intCast img _ (by linarith) (by linarith),
      jsGet_intCast img _ (by linarith) (by linarith)]
    dsimp only
    obtain ⟨hr, hg, hbb⟩ := hpix pxi pyi hx1 hx2 hy1 hy2 hxlo hxhi hylo hyhi
    split
    case isFalse => rfl
    case isTrue =>
      rw [if_pos ⟨by linarith, by linarith, by linarith⟩]

theorem extractDominantColor001_white (img : Image) (xi yi : ℤ) (w h : ℚ)
    (hw : 0 ≤ w) (hh : 0 ≤ h)
    (hpix : ∀ px py : ℤ, 0 ≤ px → px < (img.width : ℤ) → 0 ≤ py → py < (img.height : ℤ) →
      (xi : ℚ) ≤ (px : ℚ) → (px : ℚ) < (xi : ℚ) + w →
      (yi : ℚ) ≤ (py : ℚ) → (py : ℚ) < (yi : ℚ) + h →
      240 < img.data (4 * (py * img.width + px)).toNat ∧
      240 < img.data (4 * (py * img.width + px) + 1).toNat ∧
      240 < img.data (4 * (py * img.width + px) + 2).toNat) :
    extractDominantColor001 img (xi : ℚ) (yi : ℚ) w h = ⟨255, 255, 255⟩ := by
  simp only [extractDominantColor001]
  have houter : (qRange ((yi : ℚ) + ((⌊h * (3/10)⌋ : ℤ) : ℚ))
      ((yi : ℚ) + ((⌊h * (3/10)⌋ : ℤ) : ℚ) + (⌊h * (4/10)⌋ : ℤ)) 3).foldl
      (fun acc py => (qRange ((xi : ℚ) + ((⌊w * (3/10)⌋ : ℤ) : ℚ))
        ((xi : ℚ) + ((⌊w * (3/10)⌋ : ℤ) : ℚ) + (⌊w * (4/10)⌋ : ℤ)) 3).foldl
        (fun acc2 px => pixelStep001 img acc2 py px) acc) [] = [] := by
    apply foldl_fix
    intro acc py hpy
    apply foldl_fix
    intro acc2 px hpx
    have hpyb := qRange_mem_bounds (by norm_num) hpy
    have hpxb := qRange_mem_bounds (by norm_num) hpx
    have hfly : (0 : ℚ) ≤ (⌊h * (3/10)⌋ : ℚ) := by
      exact_mod_cast Int.floor_nonneg.mpr (by positivity : (0:ℚ) ≤ h * (3/10))
    have hflx : (0 : ℚ) ≤ (⌊w * (3/10)⌋ : ℚ) := by
      exact_mod_cast Int.floor_nonneg.mpr (by positivity : (0:ℚ) ≤ w * (3/10))
    have hle3y : (⌊h * (3/10)⌋ : ℚ) ≤ h * (3/10) := Int.floor_le _
    have hle4y : (⌊h * (4/10)⌋ : ℚ) ≤ h * (4/10) := Int.floor_le _
    have hle3x : (⌊w * (3/10)⌋ : ℚ) ≤ w * (3/10) := Int.floor_le _
    have hle4x : (⌊w * (4/10)⌋ : ℚ) ≤ w * (4/10) := Int.floor_le _
    apply pixelStep001_id img xi yi w h hpix acc2 py px
      (qRange_mem_int (yi + ⌊h * (3/10)⌋) 3 (by push_cast; ring) (by push_cast; ring) hpy)
      (qRange_mem_int (xi + ⌊w * (3/10)⌋) 3 (by push_cast; ring) (by push_cast; ring) hpx)
    · linarith [hpxb.1]
    · linarith [hpxb.2]
    · linarith [hpyb.1]
    · linarith [hpyb.2]
  rw [houter]

theorem extractDominantColorAdvanced_white (img : Image) (xi yi : ℤ) (w h : ℚ)
    (hw : 0 ≤ w) (hh : 0 ≤ h)
    (hpix : ∀ px py : ℤ, 0 ≤ px → px < (img.width : ℤ) → 0 ≤ py → py < (img.height : ℤ) →
      (xi : ℚ) ≤ (px : ℚ) → (px : ℚ) < (xi : ℚ) + w →
      (yi : ℚ) ≤ (py : ℚ) → (py : ℚ) < (yi : ℚ) + h →
      240 < img.data (4 * (py * img.width + px)).toNat ∧
      240 < img.data (4 * (py * img.width + px) + 1).toNat ∧
      240 < img.data (4 * (py * img.width + px) + 2).toNat) :
    extractDominantColorAdvanced img (xi : ℚ) (yi : ℚ) w h = ⟨⟨255, 255, 255⟩, 0, []⟩ := by
  simp only [extractDominantColorAdvanced]
  have houter : (qRange ((yi : ℚ) + ((⌊h * (1/4)⌋ : ℤ) : ℚ))
      ((yi : ℚ) + ((⌊h * (1/4)⌋ : ℤ) : ℚ) + (⌊h * (1/2)⌋ : ℤ)) 2).foldl
      (fun acc py => (qRange ((xi : ℚ) + ((⌊w * (1/4)⌋ : ℤ) : ℚ))
        ((xi : ℚ) + ((⌊w * (1/4)⌋ : ℤ) : ℚ) + (⌊w * (1/2)⌋ : ℤ)) 2).foldl
        (fun acc2 px => pixelStep002 img acc2 py px) acc) [] = [] := by
    apply foldl_fix
    intro acc py hpy
    apply foldl_fix
    intro acc2 px hpx
    have hpyb := qRange_mem_bounds (by norm_num) hpy
    have hpxb := qRange_mem_bounds (by norm_num) hpx
    have hfly : (0 : ℚ) ≤ (⌊h * (1/4)⌋ : ℚ) := by
      exact_mod_cast Int.floor_nonneg.mpr (by positivity : (0:ℚ) ≤ h * (1/4))
    have hflx : (0 : ℚ) ≤ (⌊w * (1/4)⌋ : ℚ) := by
      exact_mod_cast Int.floor_nonneg.mpr (by positivity : (0:ℚ) ≤ w * (1/4))
    have hle3y : (⌊h * (1/4)⌋ : ℚ) ≤ h * (1/4) := Int.floor_le _
    have hle4y : (⌊h * (1/2)⌋ : ℚ) ≤ h * (1/2) := Int.floor_le _
    have hle3x : (⌊w * (1/4)⌋ : ℚ) ≤ w * (1/4) := Int.floor_le _
    have hle4x : (⌊w * (1/2)⌋ : ℚ) ≤ w * (1/2) := Int.floor_le _
    apply pixelStep002_id img xi yi w h hpix acc2 py px
      (qRange_mem_int (yi + ⌊h * (1/4)⌋) 2 (by push_cast; ring) (by push_cast; ring) hpy)
      (qRange_mem_int (xi + ⌊w * (1/4)⌋) 2 (by push_cast; ring) (by push_cast; ring) hpx)
    · linarith [hpxb.1]
    · linarith [hpxb.2]
    · linarith [hpyb.1]
    · linarith [hpyb.2]
  rw [houter]

/-- C7: when every pixel of the sampled region (intersected with the image)
is near-white — all three channels above 240 — every sampled pixel is filtered
out, the color maps stay empty, and both dominant-color samplers return their
defined fallback: part_001's `extractDominantColor` returns pure white,
part_002's `extractDominantColorAdvanced` returns white with confidence 0 and
no clusters; no exception path exists. Integer region coordinates keep the
RGBA reads pixel-aligned. -/
theorem C7_white_background (img : Image) (xi yi : ℤ) (w h : ℚ)
    (hw : 0 ≤ w) (hh : 0 ≤ h)
    (hpix : ∀ px py : ℤ, 0 ≤ px → px < (img.width : ℤ) → 0 ≤ py → py < (img.height : ℤ) →
      (xi : ℚ) ≤ (px : ℚ) → (px : ℚ) < (xi : ℚ) + w →
      (yi : ℚ) ≤ (py : ℚ) → (py : ℚ) < (yi : ℚ) + h →
      240 < img.data (4 * (py * img.width + px)).toNat ∧
      240 < img.data (4 * (py * img.width + px) + 1).toNat ∧
      240 < img.data (4 * (py * img.width + px) + 2).toNat) :
    extractDominantColor001 img (xi : ℚ) (yi : ℚ) w h = ⟨255, 255, 255⟩ ∧
    extractDominantColorAdvanced img (xi : ℚ) (yi : ℚ) w h = ⟨⟨255, 255, 255⟩, 0, []⟩ :=
  ⟨extractDominantColor001_white img xi yi w h hw hh hpix,
    extractDominantColorAdvanced_white img xi yi w h hw hh hpix⟩

theorem C7_white_background_witness :
    extractDominantColor001 ⟨4, 4, fun n => if n < 16 then 100 else 250⟩
        ((2 : ℤ) : ℚ) ((2 : ℤ) : ℚ) 2 2 = ⟨255, 255, 255⟩ ∧
    extractDominantColorAdvanced ⟨4, 4, fun n => if n < 16 then 100 else 250⟩
        ((2 : ℤ) : ℚ) ((2 : ℤ) : ℚ) 2 2 = ⟨⟨255, 255, 255⟩, 0, []⟩ :=
  C7_white_background ⟨4, 4, fun n => if n < 16 then 100 else 250⟩ 2 2 2 2
    (by norm_num) (by norm_num)
    (fun px py h1 h2 h3 h4 h5 h6 h7 h8 => by
      have hxz : (2 : ℤ) ≤ px := by exact_mod_cast h5
      have hyz : (2 : ℤ) ≤ py := by exact_mod_cast h7
      refine ⟨?_, ?_, ?_⟩ <;>
        · dsimp only
          rw [if_neg (by omega)]
          norm_num)
